import Mathlib

/-!
# Ownership handles (`shared.h`, `weak.h`, `unique.h`, `compressed_pair.h`)

A shallow embedding of `SharedPtr`, `WeakPtr`, the control-block hierarchy and
`EnableSharedFromThis`, followed by `CompressedPair` and `UniquePtr`.

* A raw pointer `T*` is an `Option Nat`: `none` is `nullptr`, `some r` the address `r`.
* A `ControlBlockBase*` is an `Option Nat`: `some b` is the address of block `b`.
* The heap maps block addresses to the block fields, hands out fresh block addresses in
  allocation order, and keeps two logs: `freed` (every `delete block_`, in order) and
  `destructed` (every run of an object destructor, in order).  The fields of a block stay
  readable after `delete`, so a dangling handle reads the values the block had when it died.
* `int` counters are `Int`; signed overflow is outside the embedding.
* An object of a type deriving from `EnableSharedFromThis` carries the member `self_`; the
  heap stores it in `objs`.  Managed objects hold no other handles.
-/

namespace SmartPointers

/-- The two concrete control blocks: `ControlBlockPointer<U>` and `ControlBlockStorage<U>`. -/
inductive BlockKind
  | pointer
  | storage
  deriving DecidableEq, Repr

/-- Fields of a control block: the two counters of `ControlBlockBase`, and `ptr_` of the
derived class. -/
structure ControlBlockBase where
  strong_cnt : Int
  weak_cnt : Int
  ptr_ : Option Nat
  kind : BlockKind
  deriving DecidableEq, Repr

/-- Fields of `SharedPtr<T>`. -/
structure SharedPtr where
  ptr_ : Option Nat
  block_ : Option Nat
  deriving DecidableEq, Repr

/-- Fields of `WeakPtr<T>`. -/
structure WeakPtr where
  ptr_ : Option Nat
  block_ : Option Nat
  deriving DecidableEq, Repr

/-- The exception thrown by the promoting constructor. -/
inductive BadWeakPtr
  | mk
  deriving DecidableEq, Repr

/-- Heap of control blocks and managed objects.
`objs.getD r none = some w` says that the object at address `r` is alive and its member
`self_` currently is `w`; `none` says that there is no live `self_` at `r` (the type has
no such member, or the destructor of the object has started). -/
structure Heap where
  block : Nat → ControlBlockBase
  next : Nat
  objs : List (Option WeakPtr)
  freed : List Nat
  destructed : List Nat

/-- The heap before any allocation. -/
def Heap.empty : Heap :=
  { block := fun _ => ⟨0, 0, none, BlockKind.pointer⟩, next := 0, objs := [],
    freed := [], destructed := [] }

/-- Write `block_->strong_cnt = v`. -/
def Heap.setStrong (h : Heap) (b : Nat) (v : Int) : Heap :=
  { h with block := fun x => if x = b then { h.block b with strong_cnt := v } else h.block x }

/-- Write `block_->weak_cnt = v`. -/
def Heap.setWeak (h : Heap) (b : Nat) (v : Int) : Heap :=
  { h with block := fun x => if x = b then { h.block b with weak_cnt := v } else h.block x }

/-- Write `ptr_ = p` inside block `b`. -/
def Heap.setPtr (h : Heap) (b : Nat) (p : Option Nat) : Heap :=
  { h with block := fun x => if x = b then { h.block b with ptr_ := p } else h.block x }

/-- The member `self_` of the object at `r`, when it is alive. -/
def Heap.self_ (h : Heap) (r : Nat) : Option WeakPtr := h.objs.getD r none

/-- Allocation `new ControlBlock...`: the fresh block gets the next address. -/
def Heap.newBlock (h : Heap) (c : ControlBlockBase) : Nat × Heap :=
  (h.next, { h with block := fun x => if x = h.next then c else h.block x, next := h.next + 1 })

/-- Constructor `ControlBlockPointer(U* ptr)`. -/
def ControlBlockPointer (ptr : Option Nat) : ControlBlockBase :=
  { ptr_ := ptr, strong_cnt := 1, weak_cnt := 0, kind := BlockKind.pointer }

/-- Constructor `ControlBlockStorage(Args&&...)`; `r` is the address of `storage_`, where the
object is built. -/
def ControlBlockStorage (r : Nat) : ControlBlockBase :=
  { ptr_ := some r, strong_cnt := 1, weak_cnt := 0, kind := BlockKind.storage }

/-- The destructor of the object at `r` runs: it is logged, and the member `self_` (when
the object has one) is destroyed by `selfDtor`.  The lifetime of `self_` ends when the
destructor starts, so the entry leaves `objs` before `selfDtor` runs. -/
def destroyObject (selfDtor : WeakPtr → Heap → Heap) (r : Nat) (h : Heap) : Heap :=
  let h1 := { h with destructed := h.destructed ++ [r] }
  match h1.self_ r with
  | none => h1
  | some w => selfDtor w { h1 with objs := h1.objs.set r none }

/-- Virtual `DestructObject()` of block `b`.
`ControlBlockPointer`: `delete ptr_; ptr_ = nullptr;` (deleting `nullptr` does nothing).
`ControlBlockStorage`: `if (ptr_ != nullptr) ptr_->~U(); ptr_ = nullptr;`. -/
def DestructObjectWith (selfDtor : WeakPtr → Heap → Heap) (b : Nat) (h : Heap) : Heap :=
  match (h.block b).kind with
  | BlockKind.pointer =>
    let h1 := match (h.block b).ptr_ with
      | none => h
      | some r => destroyObject selfDtor r h
    h1.setPtr b none
  | BlockKind.storage =>
    let h1 := if (h.block b).ptr_ ≠ none then
        match (h.block b).ptr_ with
        | none => h
        | some r => destroyObject selfDtor r h
      else h
    h1.setPtr b none

/-- Statement `delete block_` for a non-null block: the destructor of the derived block calls
`DestructObject()`, then the block is freed. -/
def deleteBlockWith (selfDtor : WeakPtr → Heap → Heap) (b : Nat) (h : Heap) : Heap :=
  let h1 := DestructObjectWith selfDtor b h
  { h1 with freed := h1.freed ++ [b] }

/-- `WeakPtr::UseCount`: `block_->strong_cnt` converted to `size_t`. -/
def WeakPtr.UseCount (w : WeakPtr) (h : Heap) : Nat :=
  match w.block_ with
  | none => 0
  | some b => ((h.block b).strong_cnt % 2 ^ 64).toNat

/-- `WeakPtr::Expired`. -/
def WeakPtr.Expired (w : WeakPtr) (h : Heap) : Bool :=
  w.UseCount h == 0

/-- `WeakPtr::~WeakPtr`, with the recursion through `delete block_` bounded by `fuel`:
destroying a block destroys its object, whose `self_` is again a `WeakPtr`. -/
def WeakPtr.dtorAux : Nat → WeakPtr → Heap → Heap
  | 0, _, h => h
  | fuel + 1, w, h =>
    match w.block_ with
    | none => h
    | some b =>
      if w.Expired h = true ∧ (h.block b).weak_cnt = 1 then
        deleteBlockWith (WeakPtr.dtorAux fuel) b h
      else
        h.setWeak b ((h.block b).weak_cnt - 1)

/-- Number of live `self_` members. Every nested destructor call removes one of them first,
so the recursion of `WeakPtr.dtorAux` is at most this deep. -/
def Heap.live (h : Heap) : Nat := h.objs.countP Option.isSome

/-- Destructor of a `self_` member, as run from inside the heap `h`. -/
def Heap.selfDtor (h : Heap) : WeakPtr → Heap → Heap :=
  WeakPtr.dtorAux (h.objs.length + 1)

/-- `WeakPtr::~WeakPtr`. -/
def WeakPtr.dtor (w : WeakPtr) (h : Heap) : Heap :=
  WeakPtr.dtorAux (h.objs.length + 1) w h

/-- Call `block_->DestructObject()`. -/
def Heap.DestructObject (h : Heap) (b : Nat) : Heap :=
  DestructObjectWith h.selfDtor b h

/-- Statement `delete block_` with `block_ == b`. -/
def Heap.deleteBlock (h : Heap) (b : Nat) : Heap :=
  deleteBlockWith h.selfDtor b h

/-- Statement `delete p` for a possibly null block pointer. -/
def Heap.deleteBlockPtr (h : Heap) (p : Option Nat) : Heap :=
  match p with
  | none => h
  | some b => h.deleteBlock b

/-! ## `WeakPtr` -/

/-- Constructor `WeakPtr()`. -/
def WeakPtr.empty : WeakPtr := ⟨none, none⟩

/-- Statement `if (block_) ++block_->weak_cnt;`. -/
def Heap.incWeak (h : Heap) (p : Option Nat) : Heap :=
  match p with
  | none => h
  | some b => h.setWeak b ((h.block b).weak_cnt + 1)

/-- Statement `if (block_) ++block_->strong_cnt;`. -/
def Heap.incStrong (h : Heap) (p : Option Nat) : Heap :=
  match p with
  | none => h
  | some b => h.setStrong b ((h.block b).strong_cnt + 1)

/-- Copy constructors `WeakPtr(const WeakPtr&)` and `WeakPtr(const WeakPtr<U>&)`. -/
def WeakPtr.copy (other : WeakPtr) (h : Heap) : WeakPtr × Heap :=
  let this : WeakPtr := ⟨other.ptr_, other.block_⟩
  (this, h.incWeak this.block_)

/-- Move constructor `WeakPtr(WeakPtr&&)`; returns the new handle and the emptied source. -/
def WeakPtr.move (other : WeakPtr) : WeakPtr × WeakPtr :=
  (⟨other.ptr_, other.block_⟩, ⟨none, none⟩)

/-- Demoting constructors `WeakPtr(const SharedPtr<T>&)` and `WeakPtr(const SharedPtr<U>&)`. -/
def WeakPtr.ofShared (other : SharedPtr) (h : Heap) : WeakPtr × Heap :=
  let this : WeakPtr := ⟨other.ptr_, other.block_⟩
  (this, h.incWeak this.block_)

/-- Statements `--block_->weak_cnt; if (Expired() && block_->weak_cnt <= 0) delete block_;`
of copy assignment and `Reset`, for `block_ == b`. -/
def WeakPtr.dropLe (this : WeakPtr) (b : Nat) (h : Heap) : Heap :=
  let h1 := h.setWeak b ((h.block b).weak_cnt - 1)
  if this.Expired h1 = true ∧ (h1.block b).weak_cnt ≤ 0 then h1.deleteBlock b else h1

/-- Statements `--block_->weak_cnt; if (Expired() && block_->weak_cnt == 0) delete block_;`
of move assignment, for `block_ == b`. -/
def WeakPtr.dropEq (this : WeakPtr) (b : Nat) (h : Heap) : Heap :=
  let h1 := h.setWeak b ((h.block b).weak_cnt - 1)
  if this.Expired h1 = true ∧ (h1.block b).weak_cnt = 0 then h1.deleteBlock b else h1

/-- Body of `WeakPtr::operator=(const WeakPtr&)` past the guard `this == &other`. -/
def WeakPtr.copyAssign (this other : WeakPtr) (h : Heap) : WeakPtr × Heap :=
  let h1 := match this.block_ with
    | none => h
    | some b => this.dropLe b h
  let this1 : WeakPtr := ⟨other.ptr_, other.block_⟩
  (this1, h1.incWeak this1.block_)

/-- Body of `WeakPtr::operator=(WeakPtr&&)` past the guard `this == &other`; returns the
assigned handle, the emptied source and the heap. -/
def WeakPtr.moveAssign (this other : WeakPtr) (h : Heap) : WeakPtr × WeakPtr × Heap :=
  let h1 := match this.block_ with
    | none => h
    | some b => this.dropEq b h
  (⟨other.ptr_, other.block_⟩, ⟨none, none⟩, h1)

/-- `WeakPtr::Reset`. -/
def WeakPtr.Reset (this : WeakPtr) (h : Heap) : WeakPtr × Heap :=
  let h1 := match this.block_ with
    | none => h
    | some b => this.dropLe b h
  (⟨none, none⟩, h1)

/-- `WeakPtr::Swap`. -/
def WeakPtr.Swap (this other : WeakPtr) : WeakPtr × WeakPtr :=
  (⟨other.ptr_, other.block_⟩, ⟨this.ptr_, this.block_⟩)

/-- `WeakPtr::Lock`. -/
def WeakPtr.Lock (this : WeakPtr) (h : Heap) : SharedPtr × Heap :=
  let res : SharedPtr := ⟨none, none⟩
  if this.Expired h = true then (res, h)
  else
    let h1 := h.deleteBlockPtr res.block_
    let res1 : SharedPtr := ⟨this.ptr_, this.block_⟩
    (res1, h1.incStrong this.block_)

/-! ## `SharedPtr` -/

/-- Constructors `SharedPtr()` and `SharedPtr(std::nullptr_t)`. -/
def SharedPtr.empty : SharedPtr := ⟨none, none⟩

/-- `SharedPtr::Get`. -/
def SharedPtr.Get (this : SharedPtr) : Option Nat := this.ptr_

/-- `SharedPtr::operator bool`. -/
def SharedPtr.toBool (this : SharedPtr) : Bool := this.ptr_ != none

/-- `SharedPtr::UseCount`. -/
def SharedPtr.UseCount (this : SharedPtr) (h : Heap) : Nat :=
  match this.block_ with
  | none => 0
  | some b => if (h.block b).strong_cnt ≥ 0 then (h.block b).strong_cnt.toNat else 0

/-- Statement `ptr->self_ = *this;` of the owning constructors: a temporary `WeakPtr` is
built from `*this`, move-assigned to `self_` and destroyed.  A null `ptr`, or an address
without a live `self_`, leaves the heap alone. -/
def SharedPtr.registerSelf (this : SharedPtr) (h : Heap) : Heap :=
  match this.ptr_ with
  | none => h
  | some r =>
    match h.self_ r with
    | none => h
    | some self0 =>
      let t := WeakPtr.ofShared this h
      let a := WeakPtr.moveAssign self0 t.1 t.2
      let h3 := WeakPtr.dtor a.2.1 a.2.2
      { h3 with objs := h3.objs.set r (some a.1) }

/-- Constructor `SharedPtr(U* ptr)`.  `esft` is the compile-time test
`std::is_convertible_v<T*, EnableSharedFromThisBase*>`. -/
def SharedPtr.ofPtr (esft : Bool) (ptr : Option Nat) (h : Heap) : SharedPtr × Heap :=
  let a := h.newBlock (ControlBlockPointer ptr)
  let this : SharedPtr := ⟨ptr, some a.1⟩
  (this, if esft then this.registerSelf a.2 else a.2)

/-- Constructor `SharedPtr(T* ptr, ControlBlockBase* base)`. -/
def SharedPtr.ofBlock (esft : Bool) (ptr : Option Nat) (base : Option Nat) (h : Heap) :
    SharedPtr × Heap :=
  let this : SharedPtr := ⟨ptr, base⟩
  (this, if esft then this.registerSelf h else h)

/-- Copy constructors `SharedPtr(const SharedPtr&)` and `SharedPtr(const SharedPtr<U>&)`. -/
def SharedPtr.copy (other : SharedPtr) (h : Heap) : SharedPtr × Heap :=
  let this : SharedPtr := ⟨other.ptr_, other.block_⟩
  (this, h.incStrong this.block_)

/-- Move constructors; returns the new handle and the emptied source. -/
def SharedPtr.move (other : SharedPtr) : SharedPtr × SharedPtr :=
  (⟨other.ptr_, other.block_⟩, ⟨none, none⟩)

/-- Aliasing constructor `SharedPtr(const SharedPtr<Y>& other, T* ptr)`. -/
def SharedPtr.alias (other : SharedPtr) (ptr : Option Nat) (h : Heap) : SharedPtr × Heap :=
  let this : SharedPtr := ⟨ptr, other.block_⟩
  (this, h.incStrong this.block_)

/-- Promoting constructor `SharedPtr(const WeakPtr<T>&)`. -/
def SharedPtr.ofWeak (other : WeakPtr) (h : Heap) : Except BadWeakPtr (SharedPtr × Heap) :=
  if other.Expired h = true then Except.error BadWeakPtr.mk
  else
    let this : SharedPtr := ⟨other.ptr_, other.block_⟩
    Except.ok (this, h.incStrong this.block_)

/-- Statements `if (block_ != nullptr) --(block_->strong_cnt); if (UseCount() == 0) delete block_;`
shared by both assignment operators. -/
def SharedPtr.dropAssign (this : SharedPtr) (h : Heap) : Heap :=
  let h1 := match this.block_ with
    | none => h
    | some b => h.setStrong b ((h.block b).strong_cnt - 1)
  if this.UseCount h1 = 0 then h1.deleteBlockPtr this.block_ else h1

/-- Body of `SharedPtr::operator=(const SharedPtr&)` past the guard `&other == this`. -/
def SharedPtr.copyAssign (this other : SharedPtr) (h : Heap) : SharedPtr × Heap :=
  let h1 := this.dropAssign h
  let this1 : SharedPtr := ⟨other.ptr_, other.block_⟩
  (this1, h1.incStrong this1.block_)

/-- Body of `SharedPtr::operator=(SharedPtr&&)` past the guard `&other == this`; returns the
assigned handle, the emptied source and the heap. -/
def SharedPtr.moveAssign (this other : SharedPtr) (h : Heap) : SharedPtr × SharedPtr × Heap :=
  let h1 := this.dropAssign h
  (⟨other.ptr_, other.block_⟩, ⟨none, none⟩, h1)

/-- Statements `block_->DestructObject(); block_->strong_cnt = 0;
if (block_->weak_cnt == 0) delete block_;` for `block_ == b`. -/
def Heap.lastOwner (h : Heap) (b : Nat) : Heap :=
  let h1 := h.DestructObject b
  let h2 := h1.setStrong b 0
  if (h2.block b).weak_cnt = 0 then h2.deleteBlock b else h2

/-- `SharedPtr::~SharedPtr`. -/
def SharedPtr.dtor (this : SharedPtr) (h : Heap) : Heap :=
  match this.block_ with
  | none => h
  | some b =>
    if this.UseCount h = 1 then h.lastOwner b
    else h.setStrong b ((h.block b).strong_cnt - 1)

/-- The release step of both `Reset` overloads:
`if (UseCount() == 1) { ... } else if (block_) { --(block_->strong_cnt); }`. -/
def SharedPtr.dropReset (this : SharedPtr) (h : Heap) : Heap :=
  if this.UseCount h = 1 then
    match this.block_ with
    | none => h
    | some b => h.lastOwner b
  else
    match this.block_ with
    | none => h
    | some b => h.setStrong b ((h.block b).strong_cnt - 1)

/-- `SharedPtr::Reset()`. -/
def SharedPtr.Reset (this : SharedPtr) (h : Heap) : SharedPtr × Heap :=
  (⟨none, none⟩, this.dropReset h)

/-- `SharedPtr::Reset(U* ptr)`. -/
def SharedPtr.ResetPtr (this : SharedPtr) (ptr : Option Nat) (h : Heap) : SharedPtr × Heap :=
  let h1 := this.dropReset h
  let a := h1.newBlock (ControlBlockPointer ptr)
  (⟨ptr, some a.1⟩, a.2)

/-- `SharedPtr::Swap`. -/
def SharedPtr.Swap (this other : SharedPtr) : SharedPtr × SharedPtr :=
  (⟨other.ptr_, other.block_⟩, ⟨this.ptr_, this.block_⟩)

/-- Function `MakeShared<T>(args...)`: the block is allocated with the object built in its
storage, and the handle comes from `SharedPtr(T*, ControlBlockBase*)`.  The new object gets
the next object address; `esft` says whether `T` derives from `EnableSharedFromThis`. -/
def MakeShared (esft : Bool) (h : Heap) : SharedPtr × Heap :=
  let r := h.objs.length
  let h1 := { h with objs := h.objs ++ [if esft then some WeakPtr.empty else none] }
  let a := h1.newBlock (ControlBlockStorage r)
  SharedPtr.ofBlock esft (some r) (some a.1) a.2

/-- Expression `new T(...)` in client code: a fresh object, with an empty `self_` when `T`
derives from `EnableSharedFromThis`; returns its address. -/
def Heap.newObject (h : Heap) (esft : Bool) : Nat × Heap :=
  (h.objs.length, { h with objs := h.objs ++ [if esft then some WeakPtr.empty else none] })

/-- `EnableSharedFromThis::SharedFromThis` called on the object at `r`. -/
def SharedFromThis (r : Nat) (h : Heap) : SharedPtr × Heap :=
  WeakPtr.Lock ((h.self_ r).getD WeakPtr.empty) h

/-- `EnableSharedFromThis::WeakFromThis` called on the object at `r`: a copy of `self_`. -/
def WeakFromThis (r : Nat) (h : Heap) : WeakPtr × Heap :=
  WeakPtr.copy ((h.self_ r).getD WeakPtr.empty) h

/-! ## Programs over handles

A program state is the heap together with the `SharedPtr` and `WeakPtr` objects of the
client: slot `i` holds `some x` while handle `i` is alive and `none` once it is destroyed.
An operation names its handles by slot.  An operation on a slot that holds no live handle
leaves the state as it is. -/

/-- Heap and client handles. -/
structure State where
  heap : Heap
  shared : List (Option SharedPtr)
  weak : List (Option WeakPtr)

/-- The state before anything is built. -/
def State.init : State := { heap := Heap.empty, shared := [], weak := [] }

/-- Live `SharedPtr` in slot `i`. -/
def State.getShared (s : State) (i : Nat) : Option SharedPtr := s.shared.getD i none

/-- Live `WeakPtr` in slot `j`. -/
def State.getWeak (s : State) (j : Nat) : Option WeakPtr := s.weak.getD j none

/-- The public operations of `shared.h` and `weak.h`, and `new T` of the client. -/
inductive Op
  | newObject (esft : Bool)
  | sharedEmpty
  | sharedOfPtr (esft : Bool) (ptr : Option Nat)
  | makeShared (esft : Bool)
  | sharedCopy (i : Nat)
  | sharedMove (i : Nat)
  | sharedAlias (i : Nat) (ptr : Option Nat)
  | sharedOfWeak (j : Nat)
  | sharedCopyAssign (i k : Nat)
  | sharedMoveAssign (i k : Nat)
  | sharedDtor (i : Nat)
  | sharedReset (i : Nat)
  | sharedResetPtr (i : Nat) (ptr : Option Nat)
  | sharedSwap (i k : Nat)
  | weakEmpty
  | weakCopy (j : Nat)
  | weakMove (j : Nat)
  | weakOfShared (i : Nat)
  | weakCopyAssign (j k : Nat)
  | weakMoveAssign (j k : Nat)
  | weakDtor (j : Nat)
  | weakReset (j : Nat)
  | weakSwap (j k : Nat)
  | lock (j : Nat)
  | sharedFromThis (r : Nat)
  | weakFromThis (r : Nat)
  deriving DecidableEq, Repr

/-- One operation.  New handles take the next free slot.  The guards `&other == this` of the
assignment operators compare slots. -/
def step (s : State) : Op → State
  | Op.newObject esft => { s with heap := (s.heap.newObject esft).2 }
  | Op.sharedEmpty => { s with shared := s.shared ++ [some SharedPtr.empty] }
  | Op.sharedOfPtr esft ptr =>
    let a := SharedPtr.ofPtr esft ptr s.heap
    { s with heap := a.2, shared := s.shared ++ [some a.1] }
  | Op.makeShared esft =>
    let a := MakeShared esft s.heap
    { s with heap := a.2, shared := s.shared ++ [some a.1] }
  | Op.sharedCopy i =>
    match s.getShared i with
    | none => s
    | some o =>
      let a := SharedPtr.copy o s.heap
      { s with heap := a.2, shared := s.shared ++ [some a.1] }
  | Op.sharedMove i =>
    match s.getShared i with
    | none => s
    | some o =>
      let a := SharedPtr.move o
      { s with shared := s.shared.set i (some a.2) ++ [some a.1] }
  | Op.sharedAlias i ptr =>
    match s.getShared i with
    | none => s
    | some o =>
      let a := SharedPtr.alias o ptr s.heap
      { s with heap := a.2, shared := s.shared ++ [some a.1] }
  | Op.sharedOfWeak j =>
    match s.getWeak j with
    | none => s
    | some w =>
      match SharedPtr.ofWeak w s.heap with
      | Except.error _ => s
      | Except.ok a => { s with heap := a.2, shared := s.shared ++ [some a.1] }
  | Op.sharedCopyAssign i k =>
    match s.getShared i, s.getShared k with
    | some t, some o =>
      if i = k then s
      else
        let a := SharedPtr.copyAssign t o s.heap
        { s with heap := a.2, shared := s.shared.set i (some a.1) }
    | _, _ => s
  | Op.sharedMoveAssign i k =>
    match s.getShared i, s.getShared k with
    | some t, some o =>
      if i = k then s
      else
        let a := SharedPtr.moveAssign t o s.heap
        { s with heap := a.2.2, shared := (s.shared.set i (some a.1)).set k (some a.2.1) }
    | _, _ => s
  | Op.sharedDtor i =>
    match s.getShared i with
    | none => s
    | some t => { s with heap := SharedPtr.dtor t s.heap, shared := s.shared.set i none }
  | Op.sharedReset i =>
    match s.getShared i with
    | none => s
    | some t =>
      let a := SharedPtr.Reset t s.heap
      { s with heap := a.2, shared := s.shared.set i (some a.1) }
  | Op.sharedResetPtr i ptr =>
    match s.getShared i with
    | none => s
    | some t =>
      let a := SharedPtr.ResetPtr t ptr s.heap
      { s with heap := a.2, shared := s.shared.set i (some a.1) }
  | Op.sharedSwap i k =>
    match s.getShared i, s.getShared k with
    | some t, some o =>
      let a := SharedPtr.Swap t o
      { s with shared := (s.shared.set i (some a.1)).set k (some a.2) }
    | _, _ => s
  | Op.weakEmpty => { s with weak := s.weak ++ [some WeakPtr.empty] }
  | Op.weakCopy j =>
    match s.getWeak j with
    | none => s
    | some o =>
      let a := WeakPtr.copy o s.heap
      { s with heap := a.2, weak := s.weak ++ [some a.1] }
  | Op.weakMove j =>
    match s.getWeak j with
    | none => s
    | some o =>
      let a := WeakPtr.move o
      { s with weak := s.weak.set j (some a.2) ++ [some a.1] }
  | Op.weakOfShared i =>
    match s.getShared i with
    | none => s
    | some o =>
      let a := WeakPtr.ofShared o s.heap
      { s with heap := a.2, weak := s.weak ++ [some a.1] }
  | Op.weakCopyAssign j k =>
    match s.getWeak j, s.getWeak k with
    | some t, some o =>
      if j = k then s
      else
        let a := WeakPtr.copyAssign t o s.heap
        { s with heap := a.2, weak := s.weak.set j (some a.1) }
    | _, _ => s
  | Op.weakMoveAssign j k =>
    match s.getWeak j, s.getWeak k with
    | some t, some o =>
      if j = k then s
      else
        let a := WeakPtr.moveAssign t o s.heap
        { s with heap := a.2.2, weak := (s.weak.set j (some a.1)).set k (some a.2.1) }
    | _, _ => s
  | Op.weakDtor j =>
    match s.getWeak j with
    | none => s
    | some t => { s with heap := WeakPtr.dtor t s.heap, weak := s.weak.set j none }
  | Op.weakReset j =>
    match s.getWeak j with
    | none => s
    | some t =>
      let a := WeakPtr.Reset t s.heap
      { s with heap := a.2, weak := s.weak.set j (some a.1) }
  | Op.weakSwap j k =>
    match s.getWeak j, s.getWeak k with
    | some t, some o =>
      let a := WeakPtr.Swap t o
      { s with weak := (s.weak.set j (some a.1)).set k (some a.2) }
    | _, _ => s
  | Op.lock j =>
    match s.getWeak j with
    | none => s
    | some w =>
      let a := WeakPtr.Lock w s.heap
      { s with heap := a.2, shared := s.shared ++ [some a.1] }
  | Op.sharedFromThis r =>
    let a := SharedFromThis r s.heap
    { s with heap := a.2, shared := s.shared ++ [some a.1] }
  | Op.weakFromThis r =>
    let a := WeakFromThis r s.heap
    { s with heap := a.2, weak := s.weak ++ [some a.1] }

/-- A program: the operations in order, from the initial state. -/
def run (ops : List Op) : State := ops.foldl step State.init

/-- How many of the handles in `l` reference block `b`. -/
def countS (l : List (Option SharedPtr)) (b : Nat) : Int :=
  (l.map fun x => if (x.bind SharedPtr.block_) = some b then (1 : Int) else 0).sum

/-- How many of the observers in `l` reference block `b`. -/
def countW (l : List (Option WeakPtr)) (b : Nat) : Int :=
  (l.map fun x => if (x.bind WeakPtr.block_) = some b then (1 : Int) else 0).sum

/-- Number of live `SharedPtr` objects whose `block_` is `b`. -/
def State.owners (s : State) (b : Nat) : Int := countS s.shared b

/-- Number of live `WeakPtr` objects whose `block_` is `b`: the observers of the client and
the `self_` members of the live objects. -/
def State.observers (s : State) (b : Nat) : Int := countW s.weak b + countW s.heap.objs b

/-- Indicator of `p == b` for a block pointer `p`. -/
def ind (p : Option Nat) (b : Nat) : Int := if p = some b then 1 else 0

/-- Counter `weak_cnt` of block `b` less the live `self_` members that reference `b`. -/
def Heap.bal (h : Heap) (b : Nat) : Int := (h.block b).weak_cnt - countW h.objs b

/-- Block `b` has no owner as far as `UseCount` and `Expired` can tell: `strong_cnt` is not
positive, or it converts to the `size_t` zero. -/
def Heap.dead (h : Heap) (b : Nat) : Prop :=
  (h.block b).strong_cnt ≤ 0 ∨ 2 ^ 64 ≤ (h.block b).strong_cnt

/-- What a run of destructors (of blocks, objects and `self_` members) may change between
`h` and `k`; `d` is the block pointer of the one observer destroyed from outside. -/
structure Teardown (d : Option Nat) (h k : Heap) : Prop where
  next_eq : k.next = h.next
  strong_eq : ∀ b, (k.block b).strong_cnt = (h.block b).strong_cnt
  kind_eq : ∀ b, (k.block b).kind = (h.block b).kind
  ptr_sub : ∀ b, (k.block b).ptr_ = none ∨ (k.block b).ptr_ = (h.block b).ptr_
  objs_len : k.objs.length = h.objs.length
  objs_sub : ∀ r, k.self_ r = none ∨ k.self_ r = h.self_ r
  freed_ext : ∃ l, k.freed = h.freed ++ l ∧ ∀ x ∈ l, h.dead x
  destr_ext : ∃ l, k.destructed = h.destructed ++ l
  bal_eq : ∀ b, b ∉ k.freed → k.bal b = h.bal b - ind d b

/-- Effect of a heap operation that allocates nothing: `ds` and `dw` are the changes of
`strong_cnt` and of the weak balance per block, and `q` is the only value that a `self_`
member may newly hold. -/
structure Eff (ds dw : Nat → Int) (q : Option WeakPtr) (h k : Heap) : Prop where
  next_eq : k.next = h.next
  strong_eq : ∀ b, (k.block b).strong_cnt = (h.block b).strong_cnt + ds b
  objs_len : k.objs.length = h.objs.length
  objs_sc : ∀ r w, k.self_ r = some w → h.self_ r = some w ∨ q = some w
  freed_mono : ∀ b, b ∈ h.freed → b ∈ k.freed
  bal_eq : ∀ b, b ∉ k.freed → k.bal b = h.bal b + dw b

/-- All owners in `l` point below block address `n`. -/
def ScopedS (n : Nat) (l : List (Option SharedPtr)) : Prop :=
  ∀ i x b, l.getD i none = some x → x.block_ = some b → b < n

/-- All observers in `l` point below block address `n`. -/
def ScopedW (n : Nat) (l : List (Option WeakPtr)) : Prop :=
  ∀ i x b, l.getD i none = some x → x.block_ = some b → b < n

/-- The counting invariant of a program state: handles point to allocated blocks, every
allocated block counts its owners in `strong_cnt`, and every allocated block that was never
freed counts its observers in `weak_cnt`. -/
structure Inv (s : State) : Prop where
  sc_shared : ScopedS s.heap.next s.shared
  sc_weak : ScopedW s.heap.next s.weak
  sc_objs : ScopedW s.heap.next s.heap.objs
  strong : ∀ b, b < s.heap.next → (s.heap.block b).strong_cnt = countS s.shared b
  weak : ∀ b, b < s.heap.next → b ∉ s.heap.freed → s.heap.bal b = countW s.weak b

/-- The handle that operation `op`, run in state `s`, puts together from a raw pointer
handed in by the caller: the result of the raw-pointer constructor, of the aliasing
constructor, or of `Reset(ptr)`.  All other operations take pointer and block of a handle
from one existing handle, or build both (`MakeShared`), or null both. -/
def Op.built (s : State) : Op → Option SharedPtr
  | Op.sharedOfPtr esft ptr => some (SharedPtr.ofPtr esft ptr s.heap).1
  | Op.sharedAlias i ptr => (s.getShared i).map fun o => (SharedPtr.alias o ptr s.heap).1
  | Op.sharedResetPtr i ptr => (s.getShared i).map fun t => (SharedPtr.ResetPtr t ptr s.heap).1
  | _ => none

/-- Every owner of `l` has a `ptr_` and a `block_` that `good` accepts. -/
def PairsS (good : Option Nat → Option Nat → Prop) (l : List (Option SharedPtr)) : Prop :=
  ∀ i x, l.getD i none = some x → good x.ptr_ x.block_

/-- Every observer of `l` has a `ptr_` and a `block_` that `good` accepts. -/
def PairsW (good : Option Nat → Option Nat → Prop) (l : List (Option WeakPtr)) : Prop :=
  ∀ i x, l.getD i none = some x → good x.ptr_ x.block_

/-- All handles of a state, those inside objects included, have a `ptr_` and a `block_`
that `good` accepts. -/
structure Pairs (good : Option Nat → Option Nat → Prop) (s : State) : Prop where
  shared : PairsS good s.shared
  weak : PairsW good s.weak
  objs : PairsW good s.heap.objs

/-- Pointer `p` and block `b` were put together, exactly one of them null, by step `n` of
the program `ops`: by the raw-pointer constructor or by `Reset(ptr)` given `nullptr`, which
pair the null pointer with a fresh block, or by the aliasing constructor given a pointer
that is null while the other handle has a block, or non-null while it has none. -/
def Mixed (ops : List Op) (p b : Option Nat) : Prop :=
  ∃ n, n < ops.length ∧
    ((∃ esft, ops.get? n = some (Op.sharedOfPtr esft none) ∧
        p = none ∧ b = some (run (ops.take n)).heap.next) ∨
     (∃ k t, ops.get? n = some (Op.sharedResetPtr k none) ∧
        (run (ops.take n)).getShared k = some t ∧
        p = none ∧ b = some (run (ops.take n)).heap.next) ∨
     (∃ k ptr o, ops.get? n = some (Op.sharedAlias k ptr) ∧
        (run (ops.take n)).getShared k = some o ∧
        p = ptr ∧ b = o.block_ ∧ ¬ (ptr = none ↔ o.block_ = none)))

/-! ## `compressed_pair.h` -/

/-- `Element<T, I, B>`.  The primary template keeps the member `value`; the specialization
for an empty, non-final `T` derives from `T`, and the element is that base subobject. -/
inductive Element (T : Type) where
  | member (value : T)
  | base (self : T)
  deriving DecidableEq, Repr

/-- Constructor `Element(El&& data)`; `ebo` is the template argument
`std::is_empty_v<T> && !std::is_final_v<T>`, which selects the specialization. -/
def Element.ofData {T : Type} (ebo : Bool) (data : T) : Element T :=
  if ebo then Element.base data else Element.member data

/-- Constructor `Element()`: `value(T())`, or the base `T()`. -/
def Element.valueInit {T : Type} [Inhabited T] (ebo : Bool) : Element T :=
  Element.ofData ebo default

/-- `Element::GetElement`: `value`, or `*this` seen as `T`. -/
def Element.GetElement {T : Type} : Element T → T
  | Element.member value => value
  | Element.base self => self

/-- Assignment `GetElement() = x` through the returned reference. -/
def Element.assign {T : Type} (e : Element T) (x : T) : Element T :=
  match e with
  | Element.member _ => Element.member x
  | Element.base _ => Element.base x

/-- `CompressedPair<F, S>`: the two base subobjects `Element<F, 0>` and `Element<S, 1>`. -/
structure CompressedPair (F S : Type) where
  elem0 : Element F
  elem1 : Element S
  deriving DecidableEq, Repr

/-- Constructor `CompressedPair()`. -/
def CompressedPair.valueInit {F S : Type} [Inhabited F] [Inhabited S] (eboF eboS : Bool) :
    CompressedPair F S :=
  ⟨Element.valueInit eboF, Element.valueInit eboS⟩

/-- Constructor `CompressedPair(Fs&& first, Sc&& second)`. -/
def CompressedPair.ofValues {F S : Type} (eboF eboS : Bool) (first : F) (second : S) :
    CompressedPair F S :=
  ⟨Element.ofData eboF first, Element.ofData eboS second⟩

/-- `CompressedPair::GetFirst`. -/
def CompressedPair.GetFirst {F S : Type} (p : CompressedPair F S) : F := p.elem0.GetElement

/-- `CompressedPair::GetSecond`. -/
def CompressedPair.GetSecond {F S : Type} (p : CompressedPair F S) : S := p.elem1.GetElement

/-- Assignment `GetFirst() = x`. -/
def CompressedPair.assignFirst {F S : Type} (p : CompressedPair F S) (x : F) :
    CompressedPair F S :=
  { p with elem0 := p.elem0.assign x }

/-- Assignment `GetSecond() = y`. -/
def CompressedPair.assignSecond {F S : Type} (p : CompressedPair F S) (y : S) :
    CompressedPair F S :=
  { p with elem1 := p.elem1.assign y }

/-- An ordinary record of two fields, the reference that `CompressedPair` is compared with. -/
structure TwoFieldRecord (F S : Type) where
  first : F
  second : S

/-- The record that a `CompressedPair` stands for. -/
def CompressedPair.toRecord {F S : Type} (p : CompressedPair F S) : TwoFieldRecord F S :=
  ⟨p.GetFirst, p.GetSecond⟩

/-! ## `unique.h`

The release action is a value of a type `D`; invoking it is recorded in a call log, with the
argument and with the pointer the handle holds at that moment.  A call does not change the
release action.  `ebo` says whether `D` is an empty, non-final class; a raw pointer never
is. -/

/-- One call `GetDeleter()(arg)`; `held` is `pair_.GetFirst()` of the calling handle at the
time of the call. -/
structure DeleterCall (D : Type) where
  deleter : D
  arg : Option Nat
  held : Option Nat
  deriving DecidableEq, Repr

/-- Field of `UniquePtr<T, Deleter>`. -/
structure UniquePtr (D : Type) where
  pair_ : CompressedPair (Option Nat) D
  deriving DecidableEq, Repr

/-- Constructor `UniquePtr(T* ptr = nullptr)`. -/
def UniquePtr.ofPtr {D : Type} [Inhabited D] (ebo : Bool) (ptr : Option Nat) : UniquePtr D :=
  ⟨(CompressedPair.valueInit false ebo).assignFirst ptr⟩

/-- Constructors `UniquePtr(T* ptr, const Deleter&)` and `UniquePtr(T* ptr, D&&)`. -/
def UniquePtr.ofPtrDeleter {D : Type} (ebo : Bool) (ptr : Option Nat) (deleter : D) :
    UniquePtr D :=
  ⟨CompressedPair.ofValues false ebo ptr deleter⟩

/-- `UniquePtr::Get`. -/
def UniquePtr.Get {D : Type} (this : UniquePtr D) : Option Nat := this.pair_.GetFirst

/-- `UniquePtr::GetDeleter`. -/
def UniquePtr.GetDeleter {D : Type} (this : UniquePtr D) : D := this.pair_.GetSecond

/-- `UniquePtr::operator bool`. -/
def UniquePtr.toBool {D : Type} (this : UniquePtr D) : Bool := this.pair_.GetFirst != none

/-- Expression `GetDeleter()(p)`: the call is appended to the log. -/
def UniquePtr.invoke {D : Type} (this : UniquePtr D) (p : Option Nat)
    (log : List (DeleterCall D)) : List (DeleterCall D) :=
  log ++ [⟨this.GetDeleter, p, this.Get⟩]

/-- `UniquePtr::Release`: the returned pointer, the handle and the call log. -/
def UniquePtr.Release {D : Type} (this : UniquePtr D) (log : List (DeleterCall D)) :
    Option Nat × UniquePtr D × List (DeleterCall D) :=
  let res := this.pair_.GetFirst
  (res, ⟨this.pair_.assignFirst none⟩, log)

/-- `UniquePtr::Reset(T* ptr = nullptr)`. -/
def UniquePtr.Reset {D : Type} (this : UniquePtr D) (ptr : Option Nat)
    (log : List (DeleterCall D)) : UniquePtr D × List (DeleterCall D) :=
  let old_ptr := this.pair_.GetFirst
  let this1 : UniquePtr D := ⟨this.pair_.assignFirst ptr⟩
  if old_ptr ≠ none then (this1, this1.invoke old_ptr log) else (this1, log)

/-- `UniquePtr::~UniquePtr`: `Reset();`. -/
def UniquePtr.dtor {D : Type} (this : UniquePtr D) (log : List (DeleterCall D)) :
    List (DeleterCall D) :=
  (this.Reset none log).2

/-- Move constructor `UniquePtr(UniquePtr&& other)`: the new handle, the source and the log.
`pair_` is value-initialised first. -/
def UniquePtr.move {D : Type} [Inhabited D] (ebo : Bool) (other : UniquePtr D)
    (log : List (DeleterCall D)) : UniquePtr D × UniquePtr D × List (DeleterCall D) :=
  let pair0 : CompressedPair (Option Nat) D := CompressedPair.valueInit false ebo
  let r := other.Release log
  let pair1 := pair0.assignFirst r.1
  let pair2 := pair1.assignSecond r.2.1.GetDeleter
  (⟨pair2⟩, r.2.1, r.2.2)

/-- Converting move constructor `UniquePtr(UniquePtr<U, D>&& other)` of
`UniquePtr<T, Deleter>`: the new handle, the source and the log.  `pair_` is
value-initialised and the body is `pair_.GetFirst() = other.Release();` alone.  `E` is
`Deleter`, and `D` the release action type of `other`. -/
def UniquePtr.moveConverting {D : Type} (E : Type) [Inhabited E] (ebo : Bool)
    (other : UniquePtr D)
    (log : List (DeleterCall D)) : UniquePtr E × UniquePtr D × List (DeleterCall D) :=
  let pair0 : CompressedPair (Option Nat) E := CompressedPair.valueInit false ebo
  let r := other.Release log
  let pair1 := pair0.assignFirst r.1
  (⟨pair1⟩, r.2.1, r.2.2)

/-- Body of `UniquePtr::operator=(UniquePtr&& other)` past the guard `this == &other`: the
assigned handle, the source and the log. -/
def UniquePtr.moveAssign {D : Type} (this other : UniquePtr D) (log : List (DeleterCall D)) :
    UniquePtr D × UniquePtr D × List (DeleterCall D) :=
  let log1 := this.invoke this.pair_.GetFirst log
  let r := other.Release log1
  let pair1 := this.pair_.assignFirst r.1
  let pair2 := pair1.assignSecond r.2.1.GetDeleter
  (⟨pair2⟩, r.2.1, r.2.2)

/-- `UniquePtr::operator=(std::nullptr_t)`. -/
def UniquePtr.assignNull {D : Type} (this : UniquePtr D) (log : List (DeleterCall D)) :
    UniquePtr D × List (DeleterCall D) :=
  let log1 := this.invoke this.pair_.GetFirst log
  (⟨this.pair_.assignFirst none⟩, log1)

/-- `UniquePtr::Swap`. -/
def UniquePtr.Swap {D : Type} (this other : UniquePtr D) : UniquePtr D × UniquePtr D :=
  (⟨other.pair_⟩, ⟨this.pair_⟩)

/-- Exclusive handles of a client, by slot, and the call log. -/
structure UState (D : Type) where
  handles : List (Option (UniquePtr D))
  calls : List (DeleterCall D)

/-- Statement `a = std::move(b)` on the handles in slots `i` and `k`; the guard
`this == &other` compares slots. -/
def UState.moveAssign {D : Type} (s : UState D) (i k : Nat) : UState D :=
  match s.handles.getD i none, s.handles.getD k none with
  | some t, some o =>
    if i = k then s
    else
      let a := t.moveAssign o s.calls
      { handles := (s.handles.set i (some a.1)).set k (some a.2.1), calls := a.2.2 }
  | _, _ => s

/-- Field of the specialization `UniquePtr<T[], Deleter>`. -/
structure UniquePtrArray (D : Type) where
  pair_ : CompressedPair (Option Nat) D
  deriving DecidableEq, Repr

/-- Constructor `UniquePtr<T[], Deleter>(T* ptr)`. -/
def UniquePtrArray.ofPtr {D : Type} [Inhabited D] (ebo : Bool) (ptr : Option Nat) :
    UniquePtrArray D :=
  ⟨(CompressedPair.valueInit false ebo).assignFirst ptr⟩

/-- `UniquePtr<T[], Deleter>::GetDeleter`. -/
def UniquePtrArray.GetDeleter {D : Type} (this : UniquePtrArray D) : D := this.pair_.GetSecond

/-- Expression `GetDeleter()(p)` of the array handle. -/
def UniquePtrArray.invoke {D : Type} (this : UniquePtrArray D) (p : Option Nat)
    (log : List (DeleterCall D)) : List (DeleterCall D) :=
  log ++ [⟨this.GetDeleter, p, this.pair_.GetFirst⟩]

/-- `UniquePtr<T[], Deleter>::Reset(T* ptr = nullptr)`. -/
def UniquePtrArray.Reset {D : Type} (this : UniquePtrArray D) (ptr : Option Nat)
    (log : List (DeleterCall D)) : UniquePtrArray D × List (DeleterCall D) :=
  let old_ptr := this.pair_.GetFirst
  let this1 : UniquePtrArray D := ⟨this.pair_.assignFirst ptr⟩
  if old_ptr ≠ none then (this1, this1.invoke old_ptr log) else (this1, log)

/-- `UniquePtr<T[], Deleter>::~UniquePtr`: `GetDeleter()(pair_.GetFirst());`. -/
def UniquePtrArray.dtor {D : Type} (this : UniquePtrArray D) (log : List (DeleterCall D)) :
    List (DeleterCall D) :=
  this.invoke this.pair_.GetFirst log

/-- `UniquePtr<T[], Deleter>::Swap`. -/
def UniquePtrArray.Swap {D : Type} (this other : UniquePtrArray D) :
    UniquePtrArray D × UniquePtrArray D :=
  (⟨other.pair_⟩, ⟨this.pair_⟩)

/-! # Theorems -/

/-! ## Field lemmas for heap writes -/

@[simp] theorem setStrong_strong (h : Heap) (b : Nat) (v : Int) (x : Nat) :
    ((h.setStrong b v).block x).strong_cnt = if x = b then v else (h.block x).strong_cnt := by
  by_cases hx : x = b <;> simp [Heap.setStrong, hx]

@[simp] theorem setStrong_weak (h : Heap) (b : Nat) (v : Int) (x : Nat) :
    ((h.setStrong b v).block x).weak_cnt = (h.block x).weak_cnt := by
  by_cases hx : x = b <;> simp [Heap.setStrong, hx]

@[simp] theorem setStrong_ptr (h : Heap) (b : Nat) (v : Int) (x : Nat) :
    ((h.setStrong b v).block x).ptr_ = (h.block x).ptr_ := by
  by_cases hx : x = b <;> simp [Heap.setStrong, hx]

@[simp] theorem setStrong_kind (h : Heap) (b : Nat) (v : Int) (x : Nat) :
    ((h.setStrong b v).block x).kind = (h.block x).kind := by
  by_cases hx : x = b <;> simp [Heap.setStrong, hx]

@[simp] theorem setStrong_next (h : Heap) (b : Nat) (v : Int) :
    (h.setStrong b v).next = h.next := rfl

@[simp] theorem setStrong_objs (h : Heap) (b : Nat) (v : Int) :
    (h.setStrong b v).objs = h.objs := rfl

@[simp] theorem setStrong_freed (h : Heap) (b : Nat) (v : Int) :
    (h.setStrong b v).freed = h.freed := rfl

@[simp] theorem setStrong_destructed (h : Heap) (b : Nat) (v : Int) :
    (h.setStrong b v).destructed = h.destructed := rfl

@[simp] theorem setWeak_strong (h : Heap) (b : Nat) (v : Int) (x : Nat) :
    ((h.setWeak b v).block x).strong_cnt = (h.block x).strong_cnt := by
  by_cases hx : x = b <;> simp [Heap.setWeak, hx]

@[simp] theorem setWeak_weak (h : Heap) (b : Nat) (v : Int) (x : Nat) :
    ((h.setWeak b v).block x).weak_cnt = if x = b then v else (h.block x).weak_cnt := by
  by_cases hx : x = b <;> simp [Heap.setWeak, hx]

@[simp] theorem setWeak_ptr (h : Heap) (b : Nat) (v : Int) (x : Nat) :
    ((h.setWeak b v).block x).ptr_ = (h.block x).ptr_ := by
  by_cases hx : x = b <;> simp [Heap.setWeak, hx]

@[simp] theorem setWeak_kind (h : Heap) (b : Nat) (v : Int) (x : Nat) :
    ((h.setWeak b v).block x).kind = (h.block x).kind := by
  by_cases hx : x = b <;> simp [Heap.setWeak, hx]

@[simp] theorem setWeak_next (h : Heap) (b : Nat) (v : Int) :
    (h.setWeak b v).next = h.next := rfl

@[simp] theorem setWeak_objs (h : Heap) (b : Nat) (v : Int) :
    (h.setWeak b v).objs = h.objs := rfl

@[simp] theorem setWeak_freed (h : Heap) (b : Nat) (v : Int) :
    (h.setWeak b v).freed = h.freed := rfl

@[simp] theorem setWeak_destructed (h : Heap) (b : Nat) (v : Int) :
    (h.setWeak b v).destructed = h.destructed := rfl

@[simp] theorem setPtr_strong (h : Heap) (b : Nat) (p : Option Nat) (x : Nat) :
    ((h.setPtr b p).block x).strong_cnt = (h.block x).strong_cnt := by
  by_cases hx : x = b <;> simp [Heap.setPtr, hx]

@[simp] theorem setPtr_weak (h : Heap) (b : Nat) (p : Option Nat) (x : Nat) :
    ((h.setPtr b p).block x).weak_cnt = (h.block x).weak_cnt := by
  by_cases hx : x = b <;> simp [Heap.setPtr, hx]

@[simp] theorem setPtr_ptr (h : Heap) (b : Nat) (p : Option Nat) (x : Nat) :
    ((h.setPtr b p).block x).ptr_ = if x = b then p else (h.block x).ptr_ := by
  by_cases hx : x = b <;> simp [Heap.setPtr, hx]

@[simp] theorem setPtr_kind (h : Heap) (b : Nat) (p : Option Nat) (x : Nat) :
    ((h.setPtr b p).block x).kind = (h.block x).kind := by
  by_cases hx : x = b <;> simp [Heap.setPtr, hx]

@[simp] theorem setPtr_next (h : Heap) (b : Nat) (p : Option Nat) :
    (h.setPtr b p).next = h.next := rfl

@[simp] theorem setPtr_objs (h : Heap) (b : Nat) (p : Option Nat) :
    (h.setPtr b p).objs = h.objs := rfl

@[simp] theorem setPtr_freed (h : Heap) (b : Nat) (p : Option Nat) :
    (h.setPtr b p).freed = h.freed := rfl

@[simp] theorem setPtr_destructed (h : Heap) (b : Nat) (p : Option Nat) :
    (h.setPtr b p).destructed = h.destructed := rfl

/-- An `int` converted to `size_t` is zero only when the `int` is zero. -/
theorem int_wrap_zero (c : Int) (h1 : -(2 ^ 31) ≤ c) (h2 : c < 2 ^ 31) :
    ((c % 2 ^ 64).toNat = 0) ↔ c = 0 := by
  constructor
  · intro h
    have h3 : 0 ≤ c % 2 ^ 64 := Int.emod_nonneg _ (by norm_num)
    have h4 : c % 2 ^ 64 = 0 := by omega
    omega
  · intro h
    subst h
    rfl

theorem expired_iff (w : WeakPtr) (h : Heap) :
    w.Expired h = true ↔ w.UseCount h = 0 := by
  simp [WeakPtr.Expired]

theorem sum_map_set {α : Type} (f : α → Int) (l : List α) (i : Nat) (x : α)
    (hi : i < l.length) :
    ((l.set i x).map f).sum = (l.map f).sum - f (l.get ⟨i, hi⟩) + f x := by
  induction l generalizing i with
  | nil => simp at hi
  | cons a t ih =>
    cases i with
    | zero => simp; omega
    | succ j =>
      simp at hi
      have := ih j hi
      simp [List.set]
      simp at this
      omega

theorem getD_some_lt {α : Type} (l : List (Option α)) (i : Nat) (y : α)
    (hy : l.getD i none = some y) : i < l.length := by
  by_contra hlt
  have : l.getD i none = none := by
    simp only [List.getD_eq_getElem?_getD]
    rw [List.getElem?_eq_none (by omega)]
    rfl
  rw [this] at hy
  cases hy

theorem getD_eq_get {α : Type} (l : List (Option α)) (i : Nat) (hi : i < l.length) :
    l.getD i none = l.get ⟨i, hi⟩ := by
  simp [List.getD_eq_getElem?_getD, List.getElem?_eq_getElem hi]

theorem countW_set (l : List (Option WeakPtr)) (i : Nat) (x : Option WeakPtr) (y : WeakPtr)
    (hy : l.getD i none = some y) (b : Nat) :
    countW (l.set i x) b = countW l b - ind y.block_ b + ind (x.bind WeakPtr.block_) b := by
  have hi := getD_some_lt l i y hy
  have hg := getD_eq_get l i hi
  unfold countW
  rw [sum_map_set _ l i x hi, ← hg, hy]
  simp [ind]

theorem countW_append (l : List (Option WeakPtr)) (x : Option WeakPtr) (b : Nat) :
    countW (l ++ [x]) b = countW l b + ind (x.bind WeakPtr.block_) b := by
  simp [countW, ind]

theorem countS_set (l : List (Option SharedPtr)) (i : Nat) (x : Option SharedPtr) (y : SharedPtr)
    (hy : l.getD i none = some y) (b : Nat) :
    countS (l.set i x) b = countS l b - ind y.block_ b + ind (x.bind SharedPtr.block_) b := by
  have hi := getD_some_lt l i y hy
  have hg := getD_eq_get l i hi
  unfold countS
  rw [sum_map_set _ l i x hi, ← hg, hy]
  simp [ind]

theorem countS_append (l : List (Option SharedPtr)) (x : Option SharedPtr) (b : Nat) :
    countS (l ++ [x]) b = countS l b + ind (x.bind SharedPtr.block_) b := by
  simp [countS, ind]

theorem getD_set {α : Type} (l : List (Option α)) (i j : Nat) (x : Option α) :
    (l.set i x).getD j none = if i = j ∧ i < l.length then x else l.getD j none := by
  simp only [List.getD_eq_getElem?_getD, List.getElem?_set]
  by_cases hij : i = j
  · subst hij
    by_cases hi : i < l.length
    · simp [hi]
    · simp [hi, List.getElem?_eq_none (Nat.le_of_not_lt hi)]
  · simp [hij]

theorem live_set_none (l : List (Option WeakPtr)) (r : Nat) (w : WeakPtr)
    (hw : l.getD r none = some w) :
    (l.set r none).countP Option.isSome + 1 = l.countP Option.isSome := by
  induction l generalizing r with
  | nil => simp at hw
  | cons a t ih =>
    cases r with
    | zero =>
      simp at hw
      subst hw
      simp [List.countP_cons]
    | succ j =>
      simp at hw
      have := ih j (by simpa using hw)
      simp [List.set, List.countP_cons]
      omega


/-! ## Frame of the destructors -/

theorem ind_none (b : Nat) : ind none b = 0 := rfl

theorem ind_some (a b : Nat) : ind (some a) b = if a = b then 1 else 0 := by
  simp [ind]

theorem dead_of_expired (w : WeakPtr) (h : Heap) (b : Nat) (hb : w.block_ = some b)
    (he : w.Expired h = true) : h.dead b := by
  rw [expired_iff] at he
  simp only [WeakPtr.UseCount, hb] at he
  have h3 : 0 ≤ (h.block b).strong_cnt % 2 ^ 64 := Int.emod_nonneg _ (by norm_num)
  have h4 : (h.block b).strong_cnt % 2 ^ 64 = 0 := by omega
  unfold Heap.dead
  omega

theorem Teardown.idle (h : Heap) : Teardown none h h where
  next_eq := rfl
  strong_eq := fun _ => rfl
  kind_eq := fun _ => rfl
  ptr_sub := fun _ => Or.inr rfl
  objs_len := rfl
  objs_sub := fun _ => Or.inr rfl
  freed_ext := ⟨[], by simp⟩
  destr_ext := ⟨[], by simp⟩
  bal_eq := fun b _ => by simp [ind_none]

theorem Teardown.dead_iff {d : Option Nat} {h k : Heap} (t : Teardown d h k) (x : Nat) :
    k.dead x ↔ h.dead x := by
  unfold Heap.dead
  rw [t.strong_eq]

theorem Teardown.freed_mono {d : Option Nat} {h k : Heap} (t : Teardown d h k) (x : Nat)
    (hx : x ∈ h.freed) : x ∈ k.freed := by
  obtain ⟨l, hl, _⟩ := t.freed_ext
  rw [hl]
  exact List.mem_append_left _ hx

theorem Teardown.seq {d1 d2 d : Option Nat} {h h1 h2 : Heap} (t1 : Teardown d1 h h1)
    (t2 : Teardown d2 h1 h2) (hd : ∀ b, ind d b = ind d1 b + ind d2 b) :
    Teardown d h h2 where
  next_eq := by rw [t2.next_eq, t1.next_eq]
  strong_eq := fun b => by rw [t2.strong_eq, t1.strong_eq]
  kind_eq := fun b => by rw [t2.kind_eq, t1.kind_eq]
  ptr_sub := fun b => by
    rcases t2.ptr_sub b with h0 | h0
    · exact Or.inl h0
    · rw [h0]; exact t1.ptr_sub b
  objs_len := by rw [t2.objs_len, t1.objs_len]
  objs_sub := fun r => by
    rcases t2.objs_sub r with h0 | h0
    · exact Or.inl h0
    · rw [h0]; exact t1.objs_sub r
  freed_ext := by
    obtain ⟨l1, e1, p1⟩ := t1.freed_ext
    obtain ⟨l2, e2, p2⟩ := t2.freed_ext
    refine ⟨l1 ++ l2, by rw [e2, e1, List.append_assoc], ?_⟩
    intro x hx
    rcases List.mem_append.1 hx with h0 | h0
    · exact p1 x h0
    · exact (t1.dead_iff x).1 (p2 x h0)
  destr_ext := by
    obtain ⟨l1, e1⟩ := t1.destr_ext
    obtain ⟨l2, e2⟩ := t2.destr_ext
    exact ⟨l1 ++ l2, by rw [e2, e1, List.append_assoc]⟩
  bal_eq := fun b hb => by
    have hb1 : b ∉ h1.freed := fun h0 => hb (t2.freed_mono b h0)
    rw [t2.bal_eq b hb, t1.bal_eq b hb1, hd b]
    omega

theorem Teardown.of_freed {h k : Heap} (t : Teardown none h k) (b : Nat) (hb : b ∈ k.freed) :
    Teardown (some b) h k :=
  { t with
    bal_eq := fun x hx => by
      have hne : b ≠ x := fun h0 => hx (h0 ▸ hb)
      rw [t.bal_eq x hx, ind_none, ind_some, if_neg hne] }

theorem setPtr_td (h : Heap) (b : Nat) (p : Option Nat) (hp : p = none) :
    Teardown none h (h.setPtr b p) where
  next_eq := rfl
  strong_eq := fun _ => by simp
  kind_eq := fun _ => by simp
  ptr_sub := fun x => by
    subst hp
    by_cases hx : x = b <;> simp [hx]
  objs_len := rfl
  objs_sub := fun _ => Or.inr rfl
  freed_ext := ⟨[], by simp⟩
  destr_ext := ⟨[], by simp⟩
  bal_eq := fun x _ => by simp [Heap.bal, ind_none]

theorem setWeak_td (h : Heap) (b : Nat) :
    Teardown (some b) h (h.setWeak b ((h.block b).weak_cnt - 1)) where
  next_eq := rfl
  strong_eq := fun _ => by simp
  kind_eq := fun _ => by simp
  ptr_sub := fun x => by simp
  objs_len := rfl
  objs_sub := fun _ => Or.inr rfl
  freed_ext := ⟨[], by simp⟩
  destr_ext := ⟨[], by simp⟩
  bal_eq := fun x _ => by
    simp only [Heap.bal, setWeak_weak, setWeak_objs, ind_some]
    by_cases hx : x = b
    · subst hx; simp; omega
    · have : ¬ b = x := fun h0 => hx h0.symm
      simp [hx, this]

theorem freed_td (h : Heap) (b : Nat) (hb : h.dead b) :
    Teardown none h { h with freed := h.freed ++ [b] } where
  next_eq := rfl
  strong_eq := fun _ => rfl
  kind_eq := fun _ => rfl
  ptr_sub := fun _ => Or.inr rfl
  objs_len := rfl
  objs_sub := fun _ => Or.inr rfl
  freed_ext := ⟨[b], rfl, by simpa using hb⟩
  destr_ext := ⟨[], by simp⟩
  bal_eq := fun x _ => by simp [Heap.bal, ind_none]

theorem destroyObject_td (f : WeakPtr → Heap → Heap) (r : Nat) (h : Heap)
    (hf : ∀ w h0, h0.live < h.live → Teardown w.block_ h0 (f w h0)) :
    Teardown none h (destroyObject f r h) := by
  unfold destroyObject
  cases hs : h.self_ r with
  | none =>
    have hs1 : Heap.self_ { h with destructed := h.destructed ++ [r] } r = none := hs
    simp only [hs1]
    exact { Teardown.idle h with destr_ext := ⟨[r], rfl⟩ }
  | some w =>
    have hs1 : Heap.self_ { h with destructed := h.destructed ++ [r] } r = some w := hs
    simp only [hs1]
    have hlive : ∀ h1 : Heap, h1.objs = h.objs.set r none → h1.live < h.live := by
      intro h1 h2
      have := live_set_none h.objs r w hs
      simp only [Heap.live, h2]
      omega
    have t := hf w ⟨h.block, h.next, h.objs.set r none, h.freed, h.destructed ++ [r]⟩
      (hlive _ rfl)
    refine
      { next_eq := t.next_eq
        strong_eq := t.strong_eq
        kind_eq := t.kind_eq
        ptr_sub := t.ptr_sub
        objs_len := by rw [t.objs_len]; simp
        objs_sub := ?_
        freed_ext := t.freed_ext
        destr_ext := ?_
        bal_eq := ?_ }
    · intro x
      rcases t.objs_sub x with h0 | h0
      · exact Or.inl h0
      · rw [h0]
        simp only [Heap.self_, getD_set]
        by_cases hc : r = x ∧ r < h.objs.length
        · rw [if_pos hc]; exact Or.inl rfl
        · rw [if_neg hc]; exact Or.inr rfl
    · obtain ⟨l, hl⟩ := t.destr_ext
      exact ⟨r :: l, by rw [hl]; simp⟩
    · intro b hb
      rw [t.bal_eq b hb]
      simp only [Heap.bal, countW_set h.objs r none w hs b, Option.bind, ind_none]
      omega

theorem DestructObjectWith_eq (f : WeakPtr → Heap → Heap) (b : Nat) (h : Heap) :
    DestructObjectWith f b h =
      (match (h.block b).ptr_ with
        | none => h
        | some r => destroyObject f r h).setPtr b none := by
  unfold DestructObjectWith
  cases hk : (h.block b).kind <;> cases hp : (h.block b).ptr_ <;> simp

theorem DestructObjectWith_td (f : WeakPtr → Heap → Heap) (b : Nat) (h : Heap)
    (hf : ∀ w h0, h0.live < h.live → Teardown w.block_ h0 (f w h0)) :
    Teardown none h (DestructObjectWith f b h) := by
  rw [DestructObjectWith_eq]
  cases hp : (h.block b).ptr_ with
  | none => exact setPtr_td h b none rfl
  | some r =>
    exact (destroyObject_td f r h hf).seq (setPtr_td _ b none rfl) (fun _ => by simp [ind_none])

theorem deleteBlockWith_td (f : WeakPtr → Heap → Heap) (b : Nat) (h : Heap)
    (hf : ∀ w h0, h0.live < h.live → Teardown w.block_ h0 (f w h0)) (hb : h.dead b) :
    Teardown none h (deleteBlockWith f b h) := by
  unfold deleteBlockWith
  have t := DestructObjectWith_td f b h hf
  exact t.seq (freed_td _ b ((t.dead_iff b).2 hb)) (fun _ => by simp [ind_none])

theorem deleteBlockWith_freed (f : WeakPtr → Heap → Heap) (b : Nat) (h : Heap) :
    b ∈ (deleteBlockWith f b h).freed := by
  simp [deleteBlockWith]

theorem dtorAux_td (n : Nat) : ∀ (w : WeakPtr) (h : Heap), h.live < n →
    Teardown w.block_ h (WeakPtr.dtorAux n w h) := by
  induction n with
  | zero => intro w h hl; omega
  | succ n ih =>
    intro w h hl
    unfold WeakPtr.dtorAux
    cases hb : w.block_ with
    | none => exact Teardown.idle h
    | some b =>
      simp only []
      by_cases hc : w.Expired h = true ∧ (h.block b).weak_cnt = 1
      · rw [if_pos hc]
        have hf : ∀ w0 h0, h0.live < h.live → Teardown w0.block_ h0 (WeakPtr.dtorAux n w0 h0) :=
          fun w0 h0 h1 => ih w0 h0 (by omega)
        exact (deleteBlockWith_td _ b h hf (dead_of_expired w h b hb hc.1)).of_freed b
          (deleteBlockWith_freed _ b h)
      · rw [if_neg hc]
        exact setWeak_td h b

theorem live_le_length (h : Heap) : h.live ≤ h.objs.length := by
  unfold Heap.live
  exact List.countP_le_length _

theorem selfDtor_td (h : Heap) :
    ∀ w h0, h0.live < h.live → Teardown w.block_ h0 (h.selfDtor w h0) := by
  intro w h0 hl
  have := live_le_length h
  exact dtorAux_td _ w h0 (by omega)

theorem WeakPtr.dtor_td (w : WeakPtr) (h : Heap) : Teardown w.block_ h (w.dtor h) := by
  have := live_le_length h
  exact dtorAux_td _ w h (by omega)

theorem Heap.DestructObject_td (h : Heap) (b : Nat) : Teardown none h (h.DestructObject b) :=
  DestructObjectWith_td _ b h (selfDtor_td h)

theorem Heap.deleteBlock_td (h : Heap) (b : Nat) (hb : h.dead b) :
    Teardown none h (h.deleteBlock b) :=
  deleteBlockWith_td _ b h (selfDtor_td h) hb

/-! ## The fuel of `WeakPtr.dtorAux` never runs out -/

theorem destroyObject_congr (f g : WeakPtr → Heap → Heap) (r : Nat) (h : Heap)
    (hfg : ∀ w h0, h0.live < h.live → f w h0 = g w h0) :
    destroyObject f r h = destroyObject g r h := by
  unfold destroyObject
  cases hs : h.self_ r with
  | none =>
    have hs1 : Heap.self_ { h with destructed := h.destructed ++ [r] } r = none := hs
    simp only [hs1]
  | some w =>
    have hs1 : Heap.self_ { h with destructed := h.destructed ++ [r] } r = some w := hs
    simp only [hs1]
    apply hfg
    have := live_set_none h.objs r w hs
    simp only [Heap.live]
    omega

theorem deleteBlockWith_congr (f g : WeakPtr → Heap → Heap) (b : Nat) (h : Heap)
    (hfg : ∀ w h0, h0.live < h.live → f w h0 = g w h0) :
    deleteBlockWith f b h = deleteBlockWith g b h := by
  unfold deleteBlockWith
  rw [DestructObjectWith_eq, DestructObjectWith_eq]
  cases hp : (h.block b).ptr_ with
  | none => rfl
  | some r => simp only [destroyObject_congr f g r h hfg]

/-- With more fuel than live `self_` members the result of `WeakPtr.dtorAux` does not depend
on the fuel: the case `fuel = 0` of its definition is never reached from `WeakPtr.dtor`. -/
theorem dtorAux_fuel (n : Nat) : ∀ (m : Nat) (w : WeakPtr) (h : Heap), h.live < n → h.live < m →
    WeakPtr.dtorAux n w h = WeakPtr.dtorAux m w h := by
  induction n with
  | zero => intro m w h hn; omega
  | succ n ih =>
    intro m w h hn hm
    cases m with
    | zero => omega
    | succ m =>
      unfold WeakPtr.dtorAux
      cases hb : w.block_ with
      | none => rfl
      | some b =>
        simp only []
        by_cases hc : w.Expired h = true ∧ (h.block b).weak_cnt = 1
        · rw [if_pos hc, if_pos hc]
          exact deleteBlockWith_congr _ _ b h
            (fun w0 h0 hl => ih m w0 h0 (by omega) (by omega))
        · rw [if_neg hc, if_neg hc]

/-! ## The release step of the last owner -/

theorem destroyObject_destructed (f : WeakPtr → Heap → Heap) (r : Nat) (h : Heap)
    (hf : ∀ w h0, h0.live < h.live → Teardown w.block_ h0 (f w h0)) :
    ∃ l, (destroyObject f r h).destructed = h.destructed ++ r :: l := by
  unfold destroyObject
  cases hs : h.self_ r with
  | none =>
    have hs1 : Heap.self_ { h with destructed := h.destructed ++ [r] } r = none := hs
    simp only [hs1]
    exact ⟨[], rfl⟩
  | some w =>
    have hs1 : Heap.self_ { h with destructed := h.destructed ++ [r] } r = some w := hs
    simp only [hs1]
    have hlive : ∀ h1 : Heap, h1.objs = h.objs.set r none → h1.live < h.live := by
      intro h1 h2
      have := live_set_none h.objs r w hs
      simp only [Heap.live, h2]
      omega
    have t := hf w ⟨h.block, h.next, h.objs.set r none, h.freed, h.destructed ++ [r]⟩
      (hlive _ rfl)
    obtain ⟨l, hl⟩ := t.destr_ext
    exact ⟨l, by rw [hl]; simp⟩

theorem DestructObject_ptr (h : Heap) (b : Nat) : ((h.DestructObject b).block b).ptr_ = none := by
  unfold Heap.DestructObject
  rw [DestructObjectWith_eq]
  simp

theorem DestructObject_destructed (h : Heap) (b r : Nat) (hp : (h.block b).ptr_ = some r) :
    ∃ l, (h.DestructObject b).destructed = h.destructed ++ r :: l := by
  unfold Heap.DestructObject
  rw [DestructObjectWith_eq, hp]
  simp only [setPtr_destructed]
  exact destroyObject_destructed _ r h (selfDtor_td h)

/-- Deleting a block whose object is already gone only frees the block. -/
theorem deleteBlock_of_ptr_none (h : Heap) (b : Nat) (hp : (h.block b).ptr_ = none) :
    h.deleteBlock b = { h.setPtr b none with freed := h.freed ++ [b] } := by
  unfold Heap.deleteBlock deleteBlockWith
  rw [DestructObjectWith_eq, hp]
  rfl

theorem Teardown.count_freed {d : Option Nat} {h k : Heap} (t : Teardown d h k) (x : Nat)
    (hx : ¬ h.dead x) : k.freed.count x = h.freed.count x := by
  obtain ⟨l, hl, hd⟩ := t.freed_ext
  rw [hl, List.count_append]
  have : l.count x = 0 := List.count_eq_zero.2 (fun hm => hx (hd x hm))
  omega

theorem useCount_eq_one (t : SharedPtr) (h : Heap) (X : Nat) (hX : t.block_ = some X) :
    t.UseCount h = 1 ↔ (h.block X).strong_cnt = 1 := by
  simp only [SharedPtr.UseCount, hX]
  by_cases hc : (h.block X).strong_cnt ≥ 0
  · rw [if_pos hc]; omega
  · rw [if_neg hc]; omega

theorem lastOwner_spec (h : Heap) (X : Nat) (hs : (h.block X).strong_cnt = 1) :
    ((h.lastOwner X).block X).strong_cnt = 0 ∧
    ((h.lastOwner X).block X).ptr_ = none ∧
    (∀ r, (h.block X).ptr_ = some r →
      ∃ l, (h.lastOwner X).destructed = h.destructed ++ r :: l) ∧
    (h.lastOwner X).freed.count X = h.freed.count X +
      (if ((h.lastOwner X).block X).weak_cnt = 0 then 1 else 0) := by
  have t := h.DestructObject_td X
  have hnd : ¬ h.dead X := by unfold Heap.dead; omega
  have hc := t.count_freed X hnd
  have hp := DestructObject_ptr h X
  have hp2 : (((h.DestructObject X).setStrong X 0).block X).ptr_ = none := by simp [hp]
  unfold Heap.lastOwner
  simp only []
  by_cases hw : (((h.DestructObject X).setStrong X 0).block X).weak_cnt = 0
  · rw [if_pos hw, deleteBlock_of_ptr_none _ X hp2]
    simp only [setStrong_weak] at hw
    refine ⟨by simp [Heap.setPtr], by simp [Heap.setPtr], ?_, ?_⟩
    · intro r hr
      exact DestructObject_destructed h X r hr
    · simp [Heap.setPtr, hw, hc]
  · rw [if_neg hw]
    simp only [setStrong_weak] at hw
    refine ⟨by simp, by simp [hp], ?_, ?_⟩
    · intro r hr
      exact DestructObject_destructed h X r hr
    · simp [hw, hc]

theorem dropReset_eq_dtor (t : SharedPtr) (h : Heap) : t.dropReset h = t.dtor h := by
  unfold SharedPtr.dropReset SharedPtr.dtor
  cases hb : t.block_ with
  | none => simp
  | some b => simp

theorem dtor_next (t : SharedPtr) (h : Heap) : (t.dtor h).next = h.next := by
  unfold SharedPtr.dtor
  cases hb : t.block_ with
  | none => rfl
  | some b =>
    simp only []
    by_cases hc : t.UseCount h = 1
    · rw [if_pos hc]
      unfold Heap.lastOwner
      simp only []
      have t1 := h.DestructObject_td b
      split
      · have hd : ((h.DestructObject b).setStrong b 0).dead b := by
          unfold Heap.dead; simp
        rw [(Heap.deleteBlock_td _ b hd).next_eq]
        simp [t1.next_eq]
      · simp [t1.next_eq]
    · rw [if_neg hc]; rfl


theorem useCount_of_pos (t : SharedPtr) (h : Heap) (X : Nat) (hX : t.block_ = some X)
    (hs : 0 ≤ (h.block X).strong_cnt) : (t.UseCount h : Int) = (h.block X).strong_cnt := by
  simp only [SharedPtr.UseCount, hX]
  rw [if_pos hs]
  omega

theorem dtorAux_alive (n : Nat) (w : WeakPtr) (h : Heap) (X : Nat)
    (hw : w.block_ = some X ∨ w.block_ = none) (hs : (h.block X).strong_cnt = 1) :
    (WeakPtr.dtorAux n w h).destructed = h.destructed := by
  cases n with
  | zero => rfl
  | succ n =>
    unfold WeakPtr.dtorAux
    rcases hw with hw | hw
    · have he : ¬ (w.Expired h = true) := by
        rw [expired_iff]
        simp only [WeakPtr.UseCount, hw, hs]
        decide
      simp [hw, he]
    · simp [hw]

theorem lastOwner_destructed (h : Heap) (X r : Nat) (hs : (h.block X).strong_cnt = 1)
    (hp : (h.block X).ptr_ = some r)
    (hself : ∀ w, h.self_ r = some w → w.block_ = some X ∨ w.block_ = none) :
    (h.lastOwner X).destructed = h.destructed ++ [r] := by
  have h1 : (h.DestructObject X).destructed = h.destructed ++ [r] := by
    unfold Heap.DestructObject
    rw [DestructObjectWith_eq, hp]
    simp only [setPtr_destructed]
    unfold destroyObject
    cases hs0 : h.self_ r with
    | none =>
      have hs1 : Heap.self_ { h with destructed := h.destructed ++ [r] } r = none := hs0
      simp only [hs1]
    | some w =>
      have hs1 : Heap.self_ { h with destructed := h.destructed ++ [r] } r = some w := hs0
      simp only [hs1]
      unfold Heap.selfDtor
      exact dtorAux_alive _ w ⟨h.block, h.next, h.objs.set r none, h.freed, h.destructed ++ [r]⟩
        X (hself w hs0) hs
  have hp0 := DestructObject_ptr h X
  have hp2 : (((h.DestructObject X).setStrong X 0).block X).ptr_ = none := by simp [hp0]
  unfold Heap.lastOwner
  simp only []
  split
  · rw [deleteBlock_of_ptr_none _ X hp2]
    simp [Heap.setPtr, h1]
  · simp [h1]

theorem lastOwner_weak_of_plain (h : Heap) (X : Nat)
    (hplain : ∀ r, (h.block X).ptr_ = some r → h.self_ r = none) (x : Nat) :
    ((h.lastOwner X).block x).weak_cnt = (h.block x).weak_cnt := by
  have h1 : ∀ y, ((h.DestructObject X).block y).weak_cnt = (h.block y).weak_cnt := by
    intro y
    unfold Heap.DestructObject
    rw [DestructObjectWith_eq]
    cases hp : (h.block X).ptr_ with
    | none => simp
    | some r =>
      have hs := hplain r hp
      have hs1 : Heap.self_ { h with destructed := h.destructed ++ [r] } r = none := hs
      simp only [destroyObject, hs1, setPtr_weak]
  have hp0 := DestructObject_ptr h X
  have hp2 : (((h.DestructObject X).setStrong X 0).block X).ptr_ = none := by simp [hp0]
  unfold Heap.lastOwner
  simp only []
  split
  · rw [deleteBlock_of_ptr_none _ X hp2]
    simp [Heap.setPtr, h1]
    by_cases hx : x = X
    · simp [hx, h1]
    · simp [hx, h1]
  · simp [h1]

/-! ## Effects of the heap operations -/

theorem Eff.skip (q : Option WeakPtr) (h : Heap) : Eff (fun _ => 0) (fun _ => 0) q h h where
  next_eq := rfl
  strong_eq := fun _ => by simp
  objs_len := rfl
  objs_sc := fun _ _ hw => Or.inl hw
  freed_mono := fun _ hb => hb
  bal_eq := fun _ _ => by simp

theorem Eff.congr {ds dw ds2 dw2 : Nat → Int} {q : Option WeakPtr} {h k : Heap}
    (e : Eff ds dw q h k) (hs : ∀ b, ds b = ds2 b) (hw : ∀ b, dw b = dw2 b) :
    Eff ds2 dw2 q h k where
  next_eq := e.next_eq
  strong_eq := fun b => by rw [e.strong_eq, hs]
  objs_len := e.objs_len
  objs_sc := e.objs_sc
  freed_mono := e.freed_mono
  bal_eq := fun b hb => by rw [e.bal_eq b hb, hw]

theorem Eff.andThen {ds1 dw1 ds2 dw2 : Nat → Int} {q : Option WeakPtr} {h h1 h2 : Heap}
    (e1 : Eff ds1 dw1 q h h1) (e2 : Eff ds2 dw2 q h1 h2) :
    Eff (fun b => ds1 b + ds2 b) (fun b => dw1 b + dw2 b) q h h2 where
  next_eq := by rw [e2.next_eq, e1.next_eq]
  strong_eq := fun b => by rw [e2.strong_eq, e1.strong_eq]; omega
  objs_len := by rw [e2.objs_len, e1.objs_len]
  objs_sc := fun r w hw => by
    rcases e2.objs_sc r w hw with h0 | h0
    · exact e1.objs_sc r w h0
    · exact Or.inr h0
  freed_mono := fun b hb => e2.freed_mono b (e1.freed_mono b hb)
  bal_eq := fun b hb => by
    have hb1 : b ∉ h1.freed := fun h0 => hb (e2.freed_mono b h0)
    rw [e2.bal_eq b hb, e1.bal_eq b hb1]
    omega

theorem Teardown.eff {d : Option Nat} {h k : Heap} (t : Teardown d h k) (q : Option WeakPtr) :
    Eff (fun _ => 0) (fun b => - ind d b) q h k where
  next_eq := t.next_eq
  strong_eq := fun b => by rw [t.strong_eq]; simp
  objs_len := t.objs_len
  objs_sc := fun r w hw => by
    rcases t.objs_sub r with h0 | h0
    · rw [h0] at hw; cases hw
    · rw [h0] at hw; exact Or.inl hw
  freed_mono := t.freed_mono
  bal_eq := fun b hb => by rw [t.bal_eq b hb]; omega

theorem setStrong_eff (q : Option WeakPtr) (h : Heap) (b : Nat) (v : Int) :
    Eff (fun x => if x = b then v - (h.block b).strong_cnt else 0) (fun _ => 0) q h
      (h.setStrong b v) where
  next_eq := rfl
  strong_eq := fun x => by
    by_cases hx : x = b
    · subst hx; simp
    · simp [hx]
  objs_len := rfl
  objs_sc := fun _ _ hw => Or.inl hw
  freed_mono := fun _ hb => hb
  bal_eq := fun _ _ => by simp [Heap.bal]

theorem incStrong_eff (q : Option WeakPtr) (h : Heap) (p : Option Nat) :
    Eff (ind p) (fun _ => 0) q h (h.incStrong p) := by
  cases p with
  | none => exact (Eff.skip q h).congr (fun _ => by simp [ind_none]) (fun _ => rfl)
  | some b =>
    refine (setStrong_eff q h b _).congr (fun x => ?_) (fun _ => rfl)
    rw [ind_some]
    by_cases hx : x = b
    · subst hx; simp
    · have : ¬ b = x := fun h0 => hx h0.symm
      simp [hx, this]

theorem decStrong_eff (q : Option WeakPtr) (h : Heap) (b : Nat) :
    Eff (fun x => - ind (some b) x) (fun _ => 0) q h
      (h.setStrong b ((h.block b).strong_cnt - 1)) := by
  refine (setStrong_eff q h b _).congr (fun x => ?_) (fun _ => rfl)
  rw [ind_some]
  by_cases hx : x = b
  · subst hx; simp
  · have : ¬ b = x := fun h0 => hx h0.symm
    simp [hx, this]

theorem incWeak_eff (q : Option WeakPtr) (h : Heap) (p : Option Nat) :
    Eff (fun _ => 0) (ind p) q h (h.incWeak p) := by
  cases p with
  | none => exact (Eff.skip q h).congr (fun _ => rfl) (fun _ => by simp [ind_none])
  | some b =>
    exact
      { next_eq := rfl
        strong_eq := fun x => by simp [Heap.incWeak]
        objs_len := rfl
        objs_sc := fun _ _ hw => Or.inl hw
        freed_mono := fun _ hb => hb
        bal_eq := fun x _ => by
          simp only [Heap.incWeak, Heap.bal, setWeak_weak, setWeak_objs, ind_some]
          by_cases hx : x = b
          · subst hx; simp; omega
          · have : ¬ b = x := fun h0 => hx h0.symm
            simp [hx, this] }

theorem lastOwner_eff (q : Option WeakPtr) (h : Heap) (b : Nat) (hs : (h.block b).strong_cnt = 1) :
    Eff (fun x => - ind (some b) x) (fun _ => 0) q h (h.lastOwner b) := by
  have t1 := h.DestructObject_td b
  have e1 := t1.eff q
  have e2 := setStrong_eff q (h.DestructObject b) b 0
  have e12 := e1.andThen e2
  have hs1 : ((h.DestructObject b).block b).strong_cnt = 1 := by rw [t1.strong_eq, hs]
  unfold Heap.lastOwner
  simp only []
  split
  · have hd : ((h.DestructObject b).setStrong b 0).dead b := by
      unfold Heap.dead; simp
    have e3 := (Heap.deleteBlock_td _ b hd).eff q
    refine (e12.andThen e3).congr (fun x => ?_) (fun x => ?_)
    · rw [ind_some, hs1]
      by_cases hx : x = b
      · subst hx; simp
      · have : ¬ b = x := fun h0 => hx h0.symm
        simp [hx, this]
    · simp [ind_none]
  · refine e12.congr (fun x => ?_) (fun x => ?_)
    · rw [ind_some, hs1]
      by_cases hx : x = b
      · subst hx; simp
      · have : ¬ b = x := fun h0 => hx h0.symm
        simp [hx, this]
    · simp [ind_none]

theorem SharedPtr.dtor_effS (q : Option WeakPtr) (t : SharedPtr) (h : Heap) :
    Eff (fun x => - ind t.block_ x) (fun _ => 0) q h (t.dtor h) := by
  unfold SharedPtr.dtor
  cases hb : t.block_ with
  | none => exact (Eff.skip q h).congr (fun _ => by simp [ind_none]) (fun _ => rfl)
  | some b =>
    simp only []
    by_cases hc : t.UseCount h = 1
    · rw [if_pos hc]
      exact lastOwner_eff q h b ((useCount_eq_one t h b hb).1 hc)
    · rw [if_neg hc]
      exact decStrong_eff q h b

theorem SharedPtr.dropAssign_eff (q : Option WeakPtr) (t : SharedPtr) (h : Heap) :
    Eff (fun x => - ind t.block_ x) (fun _ => 0) q h (t.dropAssign h) := by
  unfold SharedPtr.dropAssign
  cases hb : t.block_ with
  | none =>
    simp only [Heap.deleteBlockPtr, ite_self]
    exact (Eff.skip q h).congr (fun _ => by simp [ind_none]) (fun _ => rfl)
  | some b =>
    simp only [Heap.deleteBlockPtr]
    have e1 := decStrong_eff q h b
    split
    · rename_i hu
      have hd : (h.setStrong b ((h.block b).strong_cnt - 1)).dead b := by
        simp only [SharedPtr.UseCount, hb] at hu
        unfold Heap.dead
        by_cases hc : ((h.setStrong b ((h.block b).strong_cnt - 1)).block b).strong_cnt ≥ 0
        · rw [if_pos hc] at hu; omega
        · omega
      have e2 := (Heap.deleteBlock_td _ b hd).eff q
      exact (e1.andThen e2).congr (fun _ => by simp) (fun _ => by simp [ind_none])
    · exact e1

theorem WeakPtr.dtor_effW (q : Option WeakPtr) (w : WeakPtr) (h : Heap) :
    Eff (fun _ => 0) (fun x => - ind w.block_ x) q h (w.dtor h) :=
  (w.dtor_td h).eff q

theorem WeakPtr.dropLe_eff (q : Option WeakPtr) (w : WeakPtr) (b : Nat) (h : Heap)
    (hb : w.block_ = some b) :
    Eff (fun _ => 0) (fun x => - ind (some b) x) q h (w.dropLe b h) ∧
      ((w.dropLe b h).objs = h.objs ∨ b ∈ (w.dropLe b h).freed) := by
  unfold WeakPtr.dropLe
  simp only []
  have e1 := (setWeak_td h b).eff q
  split
  · rename_i hc
    have hd := dead_of_expired w _ b hb hc.1
    have e2 := (Heap.deleteBlock_td _ b hd).eff q
    exact ⟨(e1.andThen e2).congr (fun _ => by simp) (fun _ => by simp [ind_none]),
      Or.inr (deleteBlockWith_freed _ b _)⟩
  · exact ⟨e1, Or.inl rfl⟩

theorem WeakPtr.dropEq_eff (q : Option WeakPtr) (w : WeakPtr) (b : Nat) (h : Heap)
    (hb : w.block_ = some b) :
    Eff (fun _ => 0) (fun x => - ind (some b) x) q h (w.dropEq b h) ∧
      ((w.dropEq b h).objs = h.objs ∨ b ∈ (w.dropEq b h).freed) := by
  unfold WeakPtr.dropEq
  simp only []
  have e1 := (setWeak_td h b).eff q
  split
  · rename_i hc
    have hd := dead_of_expired w _ b hb hc.1
    have e2 := (Heap.deleteBlock_td _ b hd).eff q
    exact ⟨(e1.andThen e2).congr (fun _ => by simp) (fun _ => by simp [ind_none]),
      Or.inr (deleteBlockWith_freed _ b _)⟩
  · exact ⟨e1, Or.inl rfl⟩


theorem countW_set_lt (l : List (Option WeakPtr)) (i : Nat) (x : Option WeakPtr)
    (hi : i < l.length) (b : Nat) :
    countW (l.set i x) b = countW l b - ind ((l.getD i none).bind WeakPtr.block_) b
      + ind (x.bind WeakPtr.block_) b := by
  have hg := getD_eq_get l i hi
  unfold countW
  rw [sum_map_set _ l i x hi, ← hg]
  simp [ind]

theorem dtor_empty (h : Heap) : WeakPtr.dtor ⟨none, none⟩ h = h := by
  simp [WeakPtr.dtor, WeakPtr.dtorAux]

theorem SharedPtr.registerSelf_eff (t : SharedPtr) (h : Heap) :
    Eff (fun _ => 0) (fun _ => 0) (some ⟨t.ptr_, t.block_⟩) h (t.registerSelf h) := by
  unfold SharedPtr.registerSelf
  split
  · exact Eff.skip _ h
  · rename_i r hp
    split
    · exact Eff.skip _ h
    · rename_i self0 hs
      simp only [WeakPtr.ofShared, WeakPtr.moveAssign, dtor_empty]
      have hr : r < h.objs.length := getD_some_lt h.objs r self0 hs
      have eA := fun q => incWeak_eff q h t.block_
      cases hb0 : self0.block_ with
      | none =>
        simp only []
        have e := eA (some ⟨t.ptr_, t.block_⟩)
        refine
          { next_eq := e.next_eq
            strong_eq := e.strong_eq
            objs_len := by simp [Heap.incWeak]; cases t.block_ <;> simp
            objs_sc := ?_
            freed_mono := e.freed_mono
            bal_eq := ?_ }
        · intro x w hw
          simp only [Heap.self_, getD_set] at hw
          by_cases hc : r = x ∧ r < (h.incWeak t.block_).objs.length
          · rw [if_pos hc] at hw
            cases hw
            exact Or.inr rfl
          · rw [if_neg hc] at hw
            exact e.objs_sc x w hw
        · intro b hb
          have hl : (h.incWeak t.block_).objs = h.objs := by
            cases t.block_ <;> rfl
          have h1 := e.bal_eq b hb
          simp only [Heap.bal] at h1 ⊢
          simp only [hl] at h1 ⊢
          rw [countW_set h.objs r _ self0 hs b, hb0]
          simp only [Option.bind, ind_none] at h1 ⊢
          omega
      | some b0 =>
        simp only []
        have d := fun q => WeakPtr.dropEq_eff q self0 b0 (h.incWeak t.block_) hb0
        have e := (eA (some ⟨t.ptr_, t.block_⟩)).andThen (d (some ⟨t.ptr_, t.block_⟩)).1
        have e0 := (eA none).andThen (d none).1
        have hlA : (h.incWeak t.block_).objs = h.objs := by
          cases t.block_ <;> rfl
        have hlen : (self0.dropEq b0 (h.incWeak t.block_)).objs.length = h.objs.length := by
          rw [e.objs_len]
        refine
          { next_eq := e.next_eq
            strong_eq := fun b => by rw [e.strong_eq]; simp
            objs_len := by simp [hlen]
            objs_sc := ?_
            freed_mono := e.freed_mono
            bal_eq := ?_ }
        · intro x w hw
          simp only [Heap.self_, getD_set] at hw
          by_cases hc : r = x ∧ r < (self0.dropEq b0 (h.incWeak t.block_)).objs.length
          · rw [if_pos hc] at hw
            cases hw
            exact Or.inr rfl
          · rw [if_neg hc] at hw
            exact e.objs_sc x w hw
        · intro b hb
          have h1 := e.bal_eq b hb
          simp only [Heap.bal] at h1 ⊢
          rw [countW_set_lt _ r _ (by rw [hlen]; exact hr) b]
          rcases (d none).2 with hcase | hcase
          · rw [hcase, hlA] at h1 ⊢
            have hs2 : h.objs.getD r none = some self0 := hs
            rw [hs2]
            simp only [Option.bind, hb0]
            omega
          · have hne : b0 ≠ b := fun h0 => hb (h0 ▸ hcase)
            have hz : ind (((self0.dropEq b0 (h.incWeak t.block_)).objs.getD r none).bind
                WeakPtr.block_) b = 0 := by
              cases hg : (self0.dropEq b0 (h.incWeak t.block_)).objs.getD r none with
              | none => rfl
              | some w =>
                simp only [Option.bind]
                rcases e0.objs_sc r w hg with h2 | h2
                · rw [hs] at h2
                  cases h2
                  rw [hb0, ind_some, if_neg hne]
                · cases h2
            rw [hz]
            simp only [Option.bind]
            rw [ind_some, if_neg hne] at h1
            omega

/-! ## Scoped handle lists -/

theorem getD_append_one {α : Type} (l : List (Option α)) (x : Option α) (i : Nat) :
    (l ++ [x]).getD i none = if i < l.length then l.getD i none
      else if i = l.length then x else none := by
  simp only [List.getD_eq_getElem?_getD]
  by_cases h1 : i < l.length
  · rw [if_pos h1, List.getElem?_append_left h1]
  · rw [if_neg h1, List.getElem?_append_right (Nat.le_of_not_lt h1)]
    by_cases h2 : i = l.length
    · subst h2; simp
    · rw [if_neg h2]
      have : 0 < i - l.length := by omega
      rw [List.getElem?_eq_none (by simp; omega)]
      rfl

theorem ScopedS.weakenS {n m : Nat} {l : List (Option SharedPtr)} (hs : ScopedS n l) (hnm : n ≤ m) :
    ScopedS m l :=
  fun i x b hx hb => Nat.lt_of_lt_of_le (hs i x b hx hb) hnm

theorem ScopedW.weakenW {n m : Nat} {l : List (Option WeakPtr)} (hs : ScopedW n l) (hnm : n ≤ m) :
    ScopedW m l :=
  fun i x b hx hb => Nat.lt_of_lt_of_le (hs i x b hx hb) hnm

theorem ScopedS.pushS {n : Nat} {l : List (Option SharedPtr)} (hs : ScopedS n l)
    (x : SharedPtr) (hx : ∀ b, x.block_ = some b → b < n) : ScopedS n (l ++ [some x]) := by
  intro i y b hy hb
  rw [getD_append_one] at hy
  by_cases h1 : i < l.length
  · rw [if_pos h1] at hy; exact hs i y b hy hb
  · rw [if_neg h1] at hy
    by_cases h2 : i = l.length
    · rw [if_pos h2] at hy; cases hy; exact hx b hb
    · rw [if_neg h2] at hy; cases hy

theorem ScopedW.pushW {n : Nat} {l : List (Option WeakPtr)} (hs : ScopedW n l)
    (x : WeakPtr) (hx : ∀ b, x.block_ = some b → b < n) : ScopedW n (l ++ [some x]) := by
  intro i y b hy hb
  rw [getD_append_one] at hy
  by_cases h1 : i < l.length
  · rw [if_pos h1] at hy; exact hs i y b hy hb
  · rw [if_neg h1] at hy
    by_cases h2 : i = l.length
    · rw [if_pos h2] at hy; cases hy; exact hx b hb
    · rw [if_neg h2] at hy; cases hy

theorem ScopedW.pushNoneW {n : Nat} {l : List (Option WeakPtr)} (hs : ScopedW n l) :
    ScopedW n (l ++ [none]) := by
  intro i y b hy hb
  rw [getD_append_one] at hy
  by_cases h1 : i < l.length
  · rw [if_pos h1] at hy; exact hs i y b hy hb
  · rw [if_neg h1] at hy
    by_cases h2 : i = l.length
    · rw [if_pos h2] at hy; cases hy
    · rw [if_neg h2] at hy; cases hy

theorem ScopedS.putS {n : Nat} {l : List (Option SharedPtr)} (hs : ScopedS n l) (i : Nat)
    (x : Option SharedPtr) (hx : ∀ y b, x = some y → y.block_ = some b → b < n) :
    ScopedS n (l.set i x) := by
  intro j y b hy hb
  rw [getD_set] at hy
  by_cases hc : i = j ∧ i < l.length
  · rw [if_pos hc] at hy; exact hx y b hy hb
  · rw [if_neg hc] at hy; exact hs j y b hy hb

theorem ScopedW.putW {n : Nat} {l : List (Option WeakPtr)} (hs : ScopedW n l) (i : Nat)
    (x : Option WeakPtr) (hx : ∀ y b, x = some y → y.block_ = some b → b < n) :
    ScopedW n (l.set i x) := by
  intro j y b hy hb
  rw [getD_set] at hy
  by_cases hc : i = j ∧ i < l.length
  · rw [if_pos hc] at hy; exact hx y b hy hb
  · rw [if_neg hc] at hy; exact hs j y b hy hb

theorem getD_of_mem {α : Type} (l : List (Option α)) (y : α) (hy : some y ∈ l) :
    ∃ i, l.getD i none = some y := by
  obtain ⟨i, hi, he⟩ := List.getElem_of_mem hy
  exact ⟨i, by rw [getD_eq_get l i hi]; exact he⟩

theorem ScopedS.countS_zero {n : Nat} {l : List (Option SharedPtr)} (hs : ScopedS n l) (b : Nat)
    (hb : n ≤ b) : countS l b = 0 := by
  unfold countS
  apply List.sum_eq_zero
  intro v hv
  obtain ⟨x, hx, rfl⟩ := List.mem_map.1 hv
  cases x with
  | none => rfl
  | some y =>
    obtain ⟨i, hi⟩ := getD_of_mem l y hx
    have : ¬ y.block_ = some b := fun h0 => by
      have := hs i y b hi h0
      omega
    simp [this]

theorem ScopedW.countW_zero {n : Nat} {l : List (Option WeakPtr)} (hs : ScopedW n l) (b : Nat)
    (hb : n ≤ b) : countW l b = 0 := by
  unfold countW
  apply List.sum_eq_zero
  intro v hv
  obtain ⟨x, hx, rfl⟩ := List.mem_map.1 hv
  cases x with
  | none => rfl
  | some y =>
    obtain ⟨i, hi⟩ := getD_of_mem l y hx
    have : ¬ y.block_ = some b := fun h0 => by
      have := hs i y b hi h0
      omega
    simp [this]

/-! ## Small steps that keep the counting invariant -/

theorem Inv.step_eff {s : State} (hi : Inv s) {ds dw : Nat → Int} {q : Option WeakPtr} {k : Heap}
    {sh : List (Option SharedPtr)} {wk : List (Option WeakPtr)}
    (e : Eff ds dw q s.heap k) (hq : ∀ w b, q = some w → w.block_ = some b → b < s.heap.next)
    (hsh : ScopedS s.heap.next sh) (hwk : ScopedW s.heap.next wk)
    (hcs : ∀ b, countS sh b = countS s.shared b + ds b)
    (hcw : ∀ b, countW wk b = countW s.weak b + dw b) :
    Inv ⟨k, sh, wk⟩ where
  sc_shared := by simpa [e.next_eq] using hsh
  sc_weak := by simpa [e.next_eq] using hwk
  sc_objs := by
    intro r w b hw hb
    simp only [e.next_eq]
    rcases e.objs_sc r w hw with h0 | h0
    · exact hi.sc_objs r w b h0 hb
    · exact hq w b h0 hb
  strong := by
    intro b hb
    simp only [e.next_eq] at hb
    simp only [e.strong_eq, hcs, hi.strong b hb]
  weak := by
    intro b hb hf
    simp only [e.next_eq] at hb
    simp only at hf
    have hf0 : b ∉ s.heap.freed := fun h0 => hf (e.freed_mono b h0)
    simp only [e.bal_eq b hf, hcw, hi.weak b hb hf0]

theorem newBlock_bal (h : Heap) (c : ControlBlockBase) (b : Nat) :
    (h.newBlock c).2.bal b = if b = h.next then c.weak_cnt - countW h.objs b else h.bal b := by
  by_cases hb : b = h.next <;> simp [Heap.newBlock, Heap.bal, hb]

theorem Inv.alloc_append {s : State} (hi : Inv s) (c : ControlBlockBase) (p : Option Nat)
    (hc1 : c.strong_cnt = 1) (hc0 : c.weak_cnt = 0) :
    Inv ⟨(s.heap.newBlock c).2, s.shared ++ [some ⟨p, some s.heap.next⟩], s.weak⟩ where
  sc_shared := by
    refine (hi.sc_shared.weakenS (Nat.le_succ _)).pushS _ ?_
    intro b hb
    cases hb
    exact Nat.lt_succ_self _
  sc_weak := hi.sc_weak.weakenW (Nat.le_succ _)
  sc_objs := hi.sc_objs.weakenW (Nat.le_succ _)
  strong := by
    intro b hb
    have hb1 : b < s.heap.next + 1 := hb
    simp only [countS_append, Option.bind, ind_some]
    by_cases he : b = s.heap.next
    · subst he
      have := hi.sc_shared.countS_zero s.heap.next (Nat.le_refl _)
      simp [Heap.newBlock, hc1, this]
    · have hlt : b < s.heap.next := by omega
      have hne : ¬ s.heap.next = b := fun h0 => he h0.symm
      simp [Heap.newBlock, he, hne, hi.strong b hlt]
  weak := by
    intro b hb hf
    have hb1 : b < s.heap.next + 1 := hb
    simp only [newBlock_bal]
    by_cases he : b = s.heap.next
    · subst he
      have h1 := hi.sc_weak.countW_zero s.heap.next (Nat.le_refl _)
      have h2 := hi.sc_objs.countW_zero s.heap.next (Nat.le_refl _)
      simp [hc0, h1, h2]
    · have hlt : b < s.heap.next := by omega
      rw [if_neg he]
      exact hi.weak b hlt hf

theorem Inv.alloc_set {s : State} (hi : Inv s) (c : ControlBlockBase) (p : Option Nat)
    (i : Nat) (y : SharedPtr) (hy : s.getShared i = some y) (hyb : y.block_ = none)
    (hc1 : c.strong_cnt = 1) (hc0 : c.weak_cnt = 0) :
    Inv ⟨(s.heap.newBlock c).2, s.shared.set i (some ⟨p, some s.heap.next⟩), s.weak⟩ where
  sc_shared := by
    refine (hi.sc_shared.weakenS (Nat.le_succ _)).putS i _ ?_
    intro z b hz hb
    cases hz
    cases hb
    exact Nat.lt_succ_self _
  sc_weak := hi.sc_weak.weakenW (Nat.le_succ _)
  sc_objs := hi.sc_objs.weakenW (Nat.le_succ _)
  strong := by
    intro b hb
    have hb1 : b < s.heap.next + 1 := hb
    simp only [countS_set s.shared i _ y hy b, hyb, Option.bind, ind_some, ind_none]
    by_cases he : b = s.heap.next
    · subst he
      have := hi.sc_shared.countS_zero s.heap.next (Nat.le_refl _)
      simp [Heap.newBlock, hc1, this]
    · have hlt : b < s.heap.next := by omega
      have hne : ¬ s.heap.next = b := fun h0 => he h0.symm
      simp [Heap.newBlock, he, hne, hi.strong b hlt]
  weak := by
    intro b hb hf
    have hb1 : b < s.heap.next + 1 := hb
    simp only [newBlock_bal]
    by_cases he : b = s.heap.next
    · subst he
      have h1 := hi.sc_weak.countW_zero s.heap.next (Nat.le_refl _)
      have h2 := hi.sc_objs.countW_zero s.heap.next (Nat.le_refl _)
      simp [hc0, h1, h2]
    · have hlt : b < s.heap.next := by omega
      rw [if_neg he]
      exact hi.weak b hlt hf

theorem Inv.add_object {s : State} (hi : Inv s) (esft : Bool) :
    Inv ⟨(s.heap.newObject esft).2, s.shared, s.weak⟩ where
  sc_shared := hi.sc_shared
  sc_weak := hi.sc_weak
  sc_objs := by
    cases esft
    · exact hi.sc_objs.pushNoneW
    · exact hi.sc_objs.pushW _ (fun b hb => by cases hb)
  strong := hi.strong
  weak := by
    intro b hb hf
    have := hi.weak b hb hf
    cases esft <;> simpa [Heap.newObject, Heap.bal, countW_append, WeakPtr.empty, ind_none] using this

/-! ## Every operation keeps the counting invariant -/

theorem WeakPtr.copyAssign_effW (q : Option WeakPtr) (t o : WeakPtr) (h : Heap) :
    Eff (fun _ => 0) (fun x => - ind t.block_ x + ind o.block_ x) q h (t.copyAssign o h).2 := by
  unfold WeakPtr.copyAssign
  simp only []
  cases hb : t.block_ with
  | none =>
    simp only []
    exact (incWeak_eff q h o.block_).congr (fun _ => rfl) (fun _ => by simp [ind_none])
  | some b =>
    simp only []
    have e1 := (WeakPtr.dropLe_eff q t b h hb).1
    exact (e1.andThen (incWeak_eff q _ o.block_)).congr (fun _ => by simp) (fun _ => rfl)

theorem WeakPtr.moveAssign_eff (q : Option WeakPtr) (t o : WeakPtr) (h : Heap) :
    Eff (fun _ => 0) (fun x => - ind t.block_ x) q h (t.moveAssign o h).2.2 := by
  unfold WeakPtr.moveAssign
  simp only []
  cases hb : t.block_ with
  | none =>
    simp only []
    exact (Eff.skip q h).congr (fun _ => rfl) (fun _ => by simp [ind_none])
  | some b =>
    simp only []
    exact (WeakPtr.dropEq_eff q t b h hb).1

theorem WeakPtr.Reset_eff (q : Option WeakPtr) (t : WeakPtr) (h : Heap) :
    Eff (fun _ => 0) (fun x => - ind t.block_ x) q h (t.Reset h).2 := by
  unfold WeakPtr.Reset
  simp only []
  cases hb : t.block_ with
  | none =>
    simp only []
    exact (Eff.skip q h).congr (fun _ => rfl) (fun _ => by simp [ind_none])
  | some b =>
    simp only []
    exact (WeakPtr.dropLe_eff q t b h hb).1

theorem WeakPtr.Lock_eff (q : Option WeakPtr) (w : WeakPtr) (h : Heap) :
    Eff (ind (w.Lock h).1.block_) (fun _ => 0) q h (w.Lock h).2 ∧
      ((w.Lock h).1.block_ = none ∨ (w.Lock h).1.block_ = w.block_) := by
  unfold WeakPtr.Lock
  simp only []
  by_cases he : w.Expired h = true
  · rw [if_pos he]
    exact ⟨(Eff.skip q h).congr (fun _ => by simp [ind_none]) (fun _ => rfl), Or.inl rfl⟩
  · rw [if_neg he]
    exact ⟨incStrong_eff q h w.block_, Or.inr rfl⟩

theorem SharedPtr.copyAssign_effS (q : Option WeakPtr) (t o : SharedPtr) (h : Heap) :
    Eff (fun x => - ind t.block_ x + ind o.block_ x) (fun _ => 0) q h (t.copyAssign o h).2 := by
  unfold SharedPtr.copyAssign
  simp only []
  exact ((SharedPtr.dropAssign_eff q t h).andThen (incStrong_eff q _ o.block_)).congr
    (fun _ => rfl) (fun _ => by simp)

theorem Inv.at_init : Inv State.init where
  sc_shared := fun i x b hx _ => by simp [State.init] at hx
  sc_weak := fun i x b hx _ => by simp [State.init] at hx
  sc_objs := fun i x b hx _ => by simp [State.init, Heap.empty] at hx
  strong := fun b hb => by simp [State.init, Heap.empty] at hb
  weak := fun b hb => by simp [State.init, Heap.empty] at hb

theorem Inv.enroll {s : State} (hi : Inv s) (t : SharedPtr)
    (ht : ∀ b, t.block_ = some b → b < s.heap.next) :
    Inv ⟨t.registerSelf s.heap, s.shared, s.weak⟩ :=
  hi.step_eff (SharedPtr.registerSelf_eff t s.heap) (fun w b hw hb => by cases hw; exact ht b hb)
    hi.sc_shared hi.sc_weak
    (fun _ => by simp) (fun _ => by simp)

theorem step_inv_shared_ctor (s : State) (hi : Inv s) :
    Inv (step s Op.sharedEmpty) ∧
    (∀ esft ptr, Inv (step s (Op.sharedOfPtr esft ptr))) ∧
    (∀ esft, Inv (step s (Op.makeShared esft))) := by
  refine ⟨?_, ?_, ?_⟩
  · exact hi.step_eff (Eff.skip none s.heap) (fun w b hw _ => by cases hw)
      (hi.sc_shared.pushS _ (fun b hb => by cases hb)) hi.sc_weak
      (fun b => by simp [countS_append, SharedPtr.empty, ind_none]) (fun _ => by simp)
  · intro esft ptr
    have h1 := hi.alloc_append (ControlBlockPointer ptr) ptr rfl rfl
    cases esft
    · exact h1
    · exact h1.enroll ⟨ptr, some s.heap.next⟩ (fun b hb => by
        cases hb; exact Nat.lt_succ_self _)
  · intro esft
    have h0 := hi.add_object esft
    have h1 := h0.alloc_append (ControlBlockStorage s.heap.objs.length)
      (some s.heap.objs.length) rfl rfl
    cases esft
    · exact h1
    · exact h1.enroll ⟨some s.heap.objs.length, some s.heap.next⟩ (fun b hb => by
        cases hb; exact Nat.lt_succ_self _)


theorem step_inv_shared_one (s : State) (hi : Inv s) (i : Nat) (ptr : Option Nat) :
    Inv (step s (Op.sharedCopy i)) ∧ Inv (step s (Op.sharedMove i)) ∧
    Inv (step s (Op.sharedAlias i ptr)) ∧ Inv (step s (Op.sharedDtor i)) ∧
    Inv (step s (Op.sharedReset i)) ∧ Inv (step s (Op.sharedResetPtr i ptr)) := by
  cases hg : s.getShared i with
  | none => simp only [step, hg]; exact ⟨hi, hi, hi, hi, hi, hi⟩
  | some o =>
    have hso := hi.sc_shared i o
    have hg1 : s.shared.getD i none = some o := hg
    simp only [step, hg]
    refine ⟨?_, ?_, ?_, ?_, ?_, ?_⟩
    · exact hi.step_eff (incStrong_eff none s.heap o.block_) (fun w b hw _ => by cases hw)
        (hi.sc_shared.pushS _ (fun b hb => hso b hg hb)) hi.sc_weak
        (fun b => by simp [countS_append, SharedPtr.copy]) (fun _ => by simp)
    · refine hi.step_eff (Eff.skip none s.heap) (fun w b hw _ => by cases hw)
        ((hi.sc_shared.putS i _ ?_).pushS _ (fun b hb => hso b hg hb)) hi.sc_weak
        (fun b => ?_) (fun _ => by simp)
      · intro y b hy hb
        cases hy
        cases hb
      · simp only [countS_append, countS_set s.shared i _ o hg1 b, SharedPtr.move, Option.bind,
          ind_none]
        omega
    · exact hi.step_eff (incStrong_eff none s.heap o.block_) (fun w b hw _ => by cases hw)
        (hi.sc_shared.pushS _ (fun b hb => hso b hg hb)) hi.sc_weak
        (fun b => by simp [countS_append, SharedPtr.alias]) (fun _ => by simp)
    · refine hi.step_eff (SharedPtr.dtor_effS none o s.heap) (fun w b hw _ => by cases hw)
        (hi.sc_shared.putS i _ (fun y b hy _ => by cases hy)) hi.sc_weak
        (fun b => ?_) (fun _ => by simp)
      simp only [countS_set s.shared i _ o hg1 b, Option.bind, ind_none]
      omega
    · have e : Eff (fun x => - ind o.block_ x) (fun _ => 0) none s.heap (o.Reset s.heap).2 := by
        simp only [SharedPtr.Reset, dropReset_eq_dtor]
        exact SharedPtr.dtor_effS none o s.heap
      refine hi.step_eff e (fun w b hw _ => by cases hw)
        (hi.sc_shared.putS i _ (fun y b hy hb => by cases hy; cases hb)) hi.sc_weak
        (fun b => ?_) (fun _ => by simp)
      simp only [countS_set s.shared i _ o hg1 b, SharedPtr.Reset, Option.bind, ind_none]
      omega
    · have h1 : Inv ⟨o.dtor s.heap, s.shared.set i (some SharedPtr.empty), s.weak⟩ := by
        refine hi.step_eff (SharedPtr.dtor_effS none o s.heap) (fun w b hw _ => by cases hw)
          (hi.sc_shared.putS i _ (fun y b hy hb => by cases hy; cases hb)) hi.sc_weak
          (fun b => ?_) (fun _ => by simp)
        simp only [countS_set s.shared i _ o hg1 b, SharedPtr.empty, Option.bind, ind_none]
        omega
      have hlt := getD_some_lt s.shared i o hg1
      have hg2 : State.getShared ⟨o.dtor s.heap, s.shared.set i (some SharedPtr.empty), s.weak⟩ i
          = some SharedPtr.empty := by
        simp [State.getShared, getD_set, hlt]
      have h2 := h1.alloc_set (ControlBlockPointer ptr) ptr i SharedPtr.empty hg2 rfl rfl rfl
      simp only [List.set_set, dtor_next] at h2
      simpa [SharedPtr.ResetPtr, dropReset_eq_dtor, Heap.newBlock, dtor_next] using h2


theorem step_inv_shared_two (s : State) (hi : Inv s) (i k : Nat) :
    Inv (step s (Op.sharedCopyAssign i k)) ∧ Inv (step s (Op.sharedMoveAssign i k)) ∧
    Inv (step s (Op.sharedSwap i k)) := by
  cases hg : s.getShared i with
  | none => simp only [step, hg]; exact ⟨hi, hi, hi⟩
  | some t =>
    cases hk : s.getShared k with
    | none => simp only [step, hg, hk]; exact ⟨hi, hi, hi⟩
    | some o =>
      have hst := fun b => hi.sc_shared i t b hg
      have hso := fun b => hi.sc_shared k o b hk
      have hg1 : s.shared.getD i none = some t := hg
      have hk1 : s.shared.getD k none = some o := hk
      have hlt := getD_some_lt s.shared i t hg1
      simp only [step, hg, hk]
      refine ⟨?_, ?_, ?_⟩
      · by_cases hik : i = k
        · rw [if_pos hik]; exact hi
        · rw [if_neg hik]
          refine hi.step_eff (SharedPtr.copyAssign_effS none t o s.heap) (fun w b hw _ => by cases hw)
            (hi.sc_shared.putS i _ ?_) hi.sc_weak (fun b => ?_) (fun _ => by simp)
          · intro y b hy hb
            cases hy
            exact hso b hb
          · simp only [countS_set s.shared i _ t hg1 b, SharedPtr.copyAssign, Option.bind]
            omega
      · by_cases hik : i = k
        · rw [if_pos hik]; exact hi
        · rw [if_neg hik]
          have hk2 : (s.shared.set i (some (t.moveAssign o s.heap).1)).getD k none = some o := by
            rw [getD_set, if_neg (fun h0 => hik h0.1)]; exact hk1
          refine hi.step_eff (SharedPtr.dropAssign_eff none t s.heap) (fun w b hw _ => by cases hw)
            ((hi.sc_shared.putS i _ ?_).putS k _ ?_) hi.sc_weak (fun b => ?_) (fun _ => by simp)
          · intro y b hy hb
            cases hy
            exact hso b hb
          · intro y b hy hb
            cases hy
            cases hb
          · rw [countS_set _ k _ o hk2 b, countS_set s.shared i _ t hg1 b]
            simp only [SharedPtr.moveAssign, Option.bind, ind_none]
            omega
      · have hk2 : ∃ z, (s.shared.set i (some (t.Swap o).1)).getD k none = some z ∧
            z.block_ = o.block_ := by
          rw [getD_set]
          by_cases hc : i = k ∧ i < s.shared.length
          · rw [if_pos hc]; exact ⟨_, rfl, rfl⟩
          · rw [if_neg hc]; exact ⟨o, hk1, rfl⟩
        obtain ⟨z, hz, hzb⟩ := hk2
        refine hi.step_eff (Eff.skip none s.heap) (fun w b hw _ => by cases hw)
          ((hi.sc_shared.putS i _ ?_).putS k _ ?_) hi.sc_weak (fun b => ?_) (fun _ => by simp)
        · intro y b hy hb
          cases hy
          exact hso b hb
        · intro y b hy hb
          cases hy
          exact hst b hb
        · rw [countS_set _ k _ z hz b, countS_set s.shared i _ t hg1 b, hzb]
          simp only [SharedPtr.Swap, Option.bind]
          omega

theorem step_inv_promote (s : State) (hi : Inv s) (j r : Nat) :
    Inv (step s (Op.sharedOfWeak j)) ∧ Inv (step s (Op.lock j)) ∧
    Inv (step s (Op.sharedFromThis r)) := by
  have hlock : ∀ w : WeakPtr, (∀ b, w.block_ = some b → b < s.heap.next) →
      Inv ⟨(w.Lock s.heap).2, s.shared ++ [some (w.Lock s.heap).1], s.weak⟩ := by
    intro w hw
    obtain ⟨e, hb⟩ := WeakPtr.Lock_eff none w s.heap
    refine hi.step_eff e (fun w b hw _ => by cases hw) (hi.sc_shared.pushS _ ?_) hi.sc_weak
      (fun b => by simp [countS_append]) (fun _ => by simp)
    intro b hb1
    rcases hb with h0 | h0
    · rw [h0] at hb1; cases hb1
    · rw [h0] at hb1; exact hw b hb1
  refine ⟨?_, ?_, ?_⟩
  · cases hg : s.getWeak j with
    | none => simp only [step, hg]; exact hi
    | some w =>
      simp only [step, hg]
      unfold SharedPtr.ofWeak
      by_cases he : w.Expired s.heap = true
      · simp only [he, if_true]; exact hi
      · simp only [he]
        exact hi.step_eff (incStrong_eff none s.heap w.block_) (fun w b hw _ => by cases hw)
          (hi.sc_shared.pushS _ (fun b hb => hi.sc_weak j w b hg hb)) hi.sc_weak
          (fun b => by simp [countS_append]) (fun _ => by simp)
  · cases hg : s.getWeak j with
    | none => simp only [step, hg]; exact hi
    | some w =>
      simp only [step, hg]
      exact hlock w (fun b hb => hi.sc_weak j w b hg hb)
  · simp only [step, SharedFromThis]
    apply hlock
    intro b hb
    cases hs : s.heap.self_ r with
    | none => rw [hs] at hb; cases hb
    | some w => rw [hs] at hb; exact hi.sc_objs r w b hs hb


theorem step_inv_weak_one (s : State) (hi : Inv s) (i j r : Nat) :
    Inv (step s Op.weakEmpty) ∧ Inv (step s (Op.weakCopy j)) ∧ Inv (step s (Op.weakMove j)) ∧
    Inv (step s (Op.weakOfShared i)) ∧ Inv (step s (Op.weakDtor j)) ∧
    Inv (step s (Op.weakReset j)) ∧ Inv (step s (Op.weakFromThis r)) := by
  have hcopy : ∀ w : WeakPtr, (∀ b, w.block_ = some b → b < s.heap.next) →
      Inv ⟨(w.copy s.heap).2, s.shared, s.weak ++ [some (w.copy s.heap).1]⟩ := by
    intro w hw
    exact hi.step_eff (incWeak_eff none s.heap w.block_) (fun w b hw _ => by cases hw)
      hi.sc_shared (hi.sc_weak.pushW _ hw) (fun _ => by simp)
      (fun b => by simp [countW_append, WeakPtr.copy])
  refine ⟨?_, ?_, ?_, ?_, ?_, ?_, ?_⟩
  · exact hi.step_eff (Eff.skip none s.heap) (fun w b hw _ => by cases hw) hi.sc_shared
      (hi.sc_weak.pushW _ (fun b hb => by cases hb)) (fun _ => by simp)
      (fun b => by simp [countW_append, WeakPtr.empty, ind_none])
  · cases hg : s.getWeak j with
    | none => simp only [step, hg]; exact hi
    | some o =>
      simp only [step, hg]
      exact hcopy o (fun b hb => hi.sc_weak j o b hg hb)
  · cases hg : s.getWeak j with
    | none => simp only [step, hg]; exact hi
    | some o =>
      have hg1 : s.weak.getD j none = some o := hg
      simp only [step, hg]
      refine hi.step_eff (Eff.skip none s.heap) (fun w b hw _ => by cases hw) hi.sc_shared
        ((hi.sc_weak.putW j _ ?_).pushW _ (fun b hb => hi.sc_weak j o b hg hb))
        (fun _ => by simp) (fun b => ?_)
      · intro y b hy hb
        cases hy
        cases hb
      · simp only [countW_append, countW_set s.weak j _ o hg1 b, WeakPtr.move, Option.bind,
          ind_none]
        omega
  · cases hg : s.getShared i with
    | none => simp only [step, hg]; exact hi
    | some o =>
      simp only [step, hg]
      exact hi.step_eff (incWeak_eff none s.heap o.block_) (fun w b hw _ => by cases hw)
        hi.sc_shared (hi.sc_weak.pushW _ (fun b hb => hi.sc_shared i o b hg hb))
        (fun _ => by simp) (fun b => by simp [countW_append, WeakPtr.ofShared])
  · cases hg : s.getWeak j with
    | none => simp only [step, hg]; exact hi
    | some o =>
      have hg1 : s.weak.getD j none = some o := hg
      simp only [step, hg]
      refine hi.step_eff (WeakPtr.dtor_effW none o s.heap) (fun w b hw _ => by cases hw) hi.sc_shared
        (hi.sc_weak.putW j _ (fun y b hy _ => by cases hy)) (fun _ => by simp) (fun b => ?_)
      simp only [countW_set s.weak j _ o hg1 b, Option.bind, ind_none]
      omega
  · cases hg : s.getWeak j with
    | none => simp only [step, hg]; exact hi
    | some o =>
      have hg1 : s.weak.getD j none = some o := hg
      simp only [step, hg]
      refine hi.step_eff (WeakPtr.Reset_eff none o s.heap) (fun w b hw _ => by cases hw) hi.sc_shared
        (hi.sc_weak.putW j _ (fun y b hy hb => by cases hy; cases hb)) (fun _ => by simp)
        (fun b => ?_)
      simp only [countW_set s.weak j _ o hg1 b, WeakPtr.Reset, Option.bind, ind_none]
      omega
  · simp only [step, WeakFromThis]
    apply hcopy
    intro b hb
    cases hs : s.heap.self_ r with
    | none => rw [hs] at hb; cases hb
    | some w => rw [hs] at hb; exact hi.sc_objs r w b hs hb

theorem step_inv_weak_two (s : State) (hi : Inv s) (j k : Nat) :
    Inv (step s (Op.weakCopyAssign j k)) ∧ Inv (step s (Op.weakMoveAssign j k)) ∧
    Inv (step s (Op.weakSwap j k)) := by
  cases hg : s.getWeak j with
  | none => simp only [step, hg]; exact ⟨hi, hi, hi⟩
  | some t =>
    cases hk : s.getWeak k with
    | none => simp only [step, hg, hk]; exact ⟨hi, hi, hi⟩
    | some o =>
      have hst := fun b => hi.sc_weak j t b hg
      have hso := fun b => hi.sc_weak k o b hk
      have hg1 : s.weak.getD j none = some t := hg
      have hk1 : s.weak.getD k none = some o := hk
      simp only [step, hg, hk]
      refine ⟨?_, ?_, ?_⟩
      · by_cases hjk : j = k
        · rw [if_pos hjk]; exact hi
        · rw [if_neg hjk]
          refine hi.step_eff (WeakPtr.copyAssign_effW none t o s.heap) (fun w b hw _ => by cases hw)
            hi.sc_shared (hi.sc_weak.putW j _ ?_) (fun _ => by simp) (fun b => ?_)
          · intro y b hy hb
            cases hy
            exact hso b hb
          · simp only [countW_set s.weak j _ t hg1 b, WeakPtr.copyAssign, Option.bind]
            omega
      · by_cases hjk : j = k
        · rw [if_pos hjk]; exact hi
        · rw [if_neg hjk]
          have hk2 : (s.weak.set j (some (t.moveAssign o s.heap).1)).getD k none = some o := by
            rw [getD_set, if_neg (fun h0 => hjk h0.1)]; exact hk1
          refine hi.step_eff (WeakPtr.moveAssign_eff none t o s.heap) (fun w b hw _ => by cases hw)
            hi.sc_shared ((hi.sc_weak.putW j _ ?_).putW k _ ?_) (fun _ => by simp) (fun b => ?_)
          · intro y b hy hb
            cases hy
            exact hso b hb
          · intro y b hy hb
            cases hy
            cases hb
          · rw [countW_set _ k _ o hk2 b, countW_set s.weak j _ t hg1 b]
            simp only [WeakPtr.moveAssign, Option.bind, ind_none]
            omega
      · have hk2 : ∃ z, (s.weak.set j (some (t.Swap o).1)).getD k none = some z ∧
            z.block_ = o.block_ := by
          rw [getD_set]
          by_cases hc : j = k ∧ j < s.weak.length
          · rw [if_pos hc]; exact ⟨_, rfl, rfl⟩
          · rw [if_neg hc]; exact ⟨o, hk1, rfl⟩
        obtain ⟨z, hz, hzb⟩ := hk2
        refine hi.step_eff (Eff.skip none s.heap) (fun w b hw _ => by cases hw) hi.sc_shared
          ((hi.sc_weak.putW j _ ?_).putW k _ ?_) (fun _ => by simp) (fun b => ?_)
        · intro y b hy hb
          cases hy
          exact hso b hb
        · intro y b hy hb
          cases hy
          exact hst b hb
        · rw [countW_set _ k _ z hz b, countW_set s.weak j _ t hg1 b, hzb]
          simp only [WeakPtr.Swap, Option.bind]
          omega

/-- Every operation keeps the counting invariant. -/
theorem step_inv (s : State) (hi : Inv s) (op : Op) : Inv (step s op) := by
  cases op with
  | newObject esft => exact hi.add_object esft
  | sharedEmpty => exact (step_inv_shared_ctor s hi).1
  | sharedOfPtr esft ptr => exact (step_inv_shared_ctor s hi).2.1 esft ptr
  | makeShared esft => exact (step_inv_shared_ctor s hi).2.2 esft
  | sharedCopy i => exact (step_inv_shared_one s hi i none).1
  | sharedMove i => exact (step_inv_shared_one s hi i none).2.1
  | sharedAlias i ptr => exact (step_inv_shared_one s hi i ptr).2.2.1
  | sharedOfWeak j => exact (step_inv_promote s hi j 0).1
  | sharedCopyAssign i k => exact (step_inv_shared_two s hi i k).1
  | sharedMoveAssign i k => exact (step_inv_shared_two s hi i k).2.1
  | sharedDtor i => exact (step_inv_shared_one s hi i none).2.2.2.1
  | sharedReset i => exact (step_inv_shared_one s hi i none).2.2.2.2.1
  | sharedResetPtr i ptr => exact (step_inv_shared_one s hi i ptr).2.2.2.2.2
  | sharedSwap i k => exact (step_inv_shared_two s hi i k).2.2
  | weakEmpty => exact (step_inv_weak_one s hi 0 0 0).1
  | weakCopy j => exact (step_inv_weak_one s hi 0 j 0).2.1
  | weakMove j => exact (step_inv_weak_one s hi 0 j 0).2.2.1
  | weakOfShared i => exact (step_inv_weak_one s hi i 0 0).2.2.2.1
  | weakCopyAssign j k => exact (step_inv_weak_two s hi j k).1
  | weakMoveAssign j k => exact (step_inv_weak_two s hi j k).2.1
  | weakDtor j => exact (step_inv_weak_one s hi 0 j 0).2.2.2.2.1
  | weakReset j => exact (step_inv_weak_one s hi 0 j 0).2.2.2.2.2.1
  | weakSwap j k => exact (step_inv_weak_two s hi j k).2.2
  | lock j => exact (step_inv_promote s hi j 0).2.1
  | sharedFromThis r => exact (step_inv_promote s hi 0 r).2.2
  | weakFromThis r => exact (step_inv_weak_one s hi 0 0 r).2.2.2.2.2.2

theorem foldl_inv (ops : List Op) : ∀ s, Inv s → Inv (ops.foldl step s) := by
  induction ops with
  | nil => intro s hs; exact hs
  | cons op rest ih => intro s hs; exact ih _ (step_inv s hs op)

/-- Every program ends in a state that satisfies the counting invariant. -/
theorem run_inv (ops : List Op) : Inv (run ops) :=
  foldl_inv ops State.init Inv.at_init

/-! ## Where pointer and block of a handle come from -/

theorem PairsS.snocS {good : Option Nat → Option Nat → Prop} {l : List (Option SharedPtr)}
    (hs : PairsS good l) (x : SharedPtr) (hx : good x.ptr_ x.block_) :
    PairsS good (l ++ [some x]) := by
  intro i y hy
  rw [getD_append_one] at hy
  by_cases h1 : i < l.length
  · rw [if_pos h1] at hy; exact hs i y hy
  · rw [if_neg h1] at hy
    by_cases h2 : i = l.length
    · rw [if_pos h2] at hy; cases hy; exact hx
    · rw [if_neg h2] at hy; cases hy

theorem PairsW.snocW {good : Option Nat → Option Nat → Prop} {l : List (Option WeakPtr)}
    (hs : PairsW good l) (x : WeakPtr) (hx : good x.ptr_ x.block_) :
    PairsW good (l ++ [some x]) := by
  intro i y hy
  rw [getD_append_one] at hy
  by_cases h1 : i < l.length
  · rw [if_pos h1] at hy; exact hs i y hy
  · rw [if_neg h1] at hy
    by_cases h2 : i = l.length
    · rw [if_pos h2] at hy; cases hy; exact hx
    · rw [if_neg h2] at hy; cases hy

theorem PairsW.snocNoneW {good : Option Nat → Option Nat → Prop} {l : List (Option WeakPtr)}
    (hs : PairsW good l) : PairsW good (l ++ [none]) := by
  intro i y hy
  rw [getD_append_one] at hy
  by_cases h1 : i < l.length
  · rw [if_pos h1] at hy; exact hs i y hy
  · rw [if_neg h1] at hy
    by_cases h2 : i = l.length
    · rw [if_pos h2] at hy; cases hy
    · rw [if_neg h2] at hy; cases hy

theorem PairsS.replaceS {good : Option Nat → Option Nat → Prop} {l : List (Option SharedPtr)}
    (hs : PairsS good l) (i : Nat) (x : Option SharedPtr)
    (hx : ∀ y, x = some y → good y.ptr_ y.block_) : PairsS good (l.set i x) := by
  intro j y hy
  rw [getD_set] at hy
  by_cases hc : i = j ∧ i < l.length
  · rw [if_pos hc] at hy; exact hx y hy
  · rw [if_neg hc] at hy; exact hs j y hy

theorem PairsW.replaceW {good : Option Nat → Option Nat → Prop} {l : List (Option WeakPtr)}
    (hs : PairsW good l) (i : Nat) (x : Option WeakPtr)
    (hx : ∀ y, x = some y → good y.ptr_ y.block_) : PairsW good (l.set i x) := by
  intro j y hy
  rw [getD_set] at hy
  by_cases hc : i = j ∧ i < l.length
  · rw [if_pos hc] at hy; exact hx y hy
  · rw [if_neg hc] at hy; exact hs j y hy

theorem Pairs.keep_eff {good : Option Nat → Option Nat → Prop} {s : State} (hp : Pairs good s)
    {ds dw : Nat → Int} {q : Option WeakPtr}
    {k : Heap} {sh : List (Option SharedPtr)} {wk : List (Option WeakPtr)}
    (e : Eff ds dw q s.heap k) (hq : ∀ w, q = some w → good w.ptr_ w.block_)
    (hsh : PairsS good sh) (hwk : PairsW good wk) : Pairs good ⟨k, sh, wk⟩ where
  shared := hsh
  weak := hwk
  objs := by
    intro r w hw
    rcases e.objs_sc r w hw with h0 | h0
    · exact hp.objs r w h0
    · exact hq w h0

theorem Pairs.at_start (good : Option Nat → Option Nat → Prop) : Pairs good State.init where
  shared := fun i x hx => by simp [State.init] at hx
  weak := fun i x hx => by simp [State.init] at hx
  objs := fun i x hx => by simp [State.init, Heap.empty] at hx

theorem Pairs.with_object {good : Option Nat → Option Nat → Prop} {s : State}
    (hp : Pairs good s) (h0 : good none none) (esft : Bool) :
    Pairs good ⟨(s.heap.newObject esft).2, s.shared, s.weak⟩ where
  shared := hp.shared
  weak := hp.weak
  objs := by
    cases esft
    · exact hp.objs.snocNoneW
    · exact hp.objs.snocW _ h0

theorem Pairs.enrolled {good : Option Nat → Option Nat → Prop} {s : State} (hp : Pairs good s)
    (t : SharedPtr) (ht : good t.ptr_ t.block_) :
    Pairs good ⟨t.registerSelf s.heap, s.shared, s.weak⟩ :=
  hp.keep_eff (SharedPtr.registerSelf_eff t s.heap) (fun w hw => by cases hw; exact ht)
    hp.shared hp.weak

theorem Pairs.widen {good better : Option Nat → Option Nat → Prop} {s : State}
    (hp : Pairs good s) (hgb : ∀ p b, good p b → better p b) : Pairs better s where
  shared := fun i x hx => hgb _ _ (hp.shared i x hx)
  weak := fun i x hx => hgb _ _ (hp.weak i x hx)
  objs := fun i x hx => hgb _ _ (hp.objs i x hx)

/-- One operation keeps `good` on all handles, when `good` accepts the null pair, every pair
of a non-null pointer with a block, and the pair that the operation itself puts together. -/
theorem step_pairs {good : Option Nat → Option Nat → Prop} (h0 : good none none)
    (h1 : ∀ a b, good (some a) (some b)) (s : State) (hp : Pairs good s) (op : Op)
    (hop : ∀ y, op.built s = some y → good y.ptr_ y.block_) : Pairs good (step s op) := by
  have hnone : ∀ w b, (none : Option WeakPtr) = some w → w.block_ = some b → False :=
    fun w b hw _ => by cases hw
  have hq0 : ∀ w, (none : Option WeakPtr) = some w → good w.ptr_ w.block_ :=
    fun w hw => by cases hw
  cases op with
  | newObject esft => exact hp.with_object h0 esft
  | sharedEmpty => exact ⟨hp.shared.snocS _ h0, hp.weak, hp.objs⟩
  | sharedOfPtr esft ptr =>
    have hg : good ptr (some s.heap.next) := hop ⟨ptr, some s.heap.next⟩ rfl
    have hb : Pairs good ⟨(s.heap.newBlock (ControlBlockPointer ptr)).2,
        s.shared ++ [some ⟨ptr, some s.heap.next⟩], s.weak⟩ :=
      ⟨hp.shared.snocS _ hg, hp.weak, hp.objs⟩
    cases esft
    · exact hb
    · exact hb.enrolled ⟨ptr, some s.heap.next⟩ hg
  | makeShared esft =>
    have hn := hp.with_object h0 esft
    have hb : Pairs good ⟨((s.heap.newObject esft).2.newBlock
        (ControlBlockStorage s.heap.objs.length)).2,
        s.shared ++ [some ⟨some s.heap.objs.length, some s.heap.next⟩], s.weak⟩ :=
      ⟨hn.shared.snocS _ (h1 _ _), hn.weak, hn.objs⟩
    cases esft
    · exact hb
    · exact hb.enrolled ⟨some s.heap.objs.length, some s.heap.next⟩ (h1 _ _)
  | sharedCopy i =>
    cases hg : s.getShared i with
    | none => simp only [step, hg]; exact hp
    | some o =>
      simp only [step, hg]
      exact hp.keep_eff (incStrong_eff none s.heap o.block_) hq0
        (hp.shared.snocS _ (hp.shared i o hg)) hp.weak
  | sharedMove i =>
    cases hg : s.getShared i with
    | none => simp only [step, hg]; exact hp
    | some o =>
      simp only [step, hg]
      exact ⟨(hp.shared.replaceS i _ (fun y hy => by cases hy; exact h0)).snocS _
        (hp.shared i o hg), hp.weak, hp.objs⟩
  | sharedAlias i ptr =>
    cases hg : s.getShared i with
    | none => simp only [step, hg]; exact hp
    | some o =>
      have hb : good ptr o.block_ := hop ⟨ptr, o.block_⟩ (by simp [Op.built, hg, SharedPtr.alias])
      simp only [step, hg]
      exact hp.keep_eff (incStrong_eff none s.heap o.block_) hq0
        (hp.shared.snocS ⟨ptr, o.block_⟩ hb) hp.weak
  | sharedOfWeak j =>
    cases hg : s.getWeak j with
    | none => simp only [step, hg]; exact hp
    | some w =>
      simp only [step, hg]
      unfold SharedPtr.ofWeak
      by_cases he : w.Expired s.heap = true
      · simp only [he, if_true]; exact hp
      · simp only [he]
        exact hp.keep_eff (incStrong_eff none s.heap w.block_) hq0
          (hp.shared.snocS _ (hp.weak j w hg)) hp.weak
  | sharedCopyAssign i k =>
    cases hg : s.getShared i with
    | none => simp only [step, hg]; exact hp
    | some t =>
      cases hk : s.getShared k with
      | none => simp only [step, hg, hk]; exact hp
      | some o =>
        simp only [step, hg, hk]
        by_cases hik : i = k
        · rw [if_pos hik]; exact hp
        · rw [if_neg hik]
          exact hp.keep_eff (SharedPtr.copyAssign_effS none t o s.heap) hq0
            (hp.shared.replaceS i _ (fun y hy => by cases hy; exact hp.shared k o hk)) hp.weak
  | sharedMoveAssign i k =>
    cases hg : s.getShared i with
    | none => simp only [step, hg]; exact hp
    | some t =>
      cases hk : s.getShared k with
      | none => simp only [step, hg, hk]; exact hp
      | some o =>
        simp only [step, hg, hk]
        by_cases hik : i = k
        · rw [if_pos hik]; exact hp
        · rw [if_neg hik]
          exact hp.keep_eff (SharedPtr.dropAssign_eff none t s.heap) hq0
            ((hp.shared.replaceS i _ (fun y hy => by cases hy; exact hp.shared k o hk)).replaceS k _
              (fun y hy => by cases hy; exact h0)) hp.weak
  | sharedDtor i =>
    cases hg : s.getShared i with
    | none => simp only [step, hg]; exact hp
    | some t =>
      simp only [step, hg]
      exact hp.keep_eff (SharedPtr.dtor_effS none t s.heap) hq0
        (hp.shared.replaceS i _ (fun y hy => by cases hy)) hp.weak
  | sharedReset i =>
    cases hg : s.getShared i with
    | none => simp only [step, hg]; exact hp
    | some t =>
      simp only [step, hg, SharedPtr.Reset, dropReset_eq_dtor]
      exact hp.keep_eff (SharedPtr.dtor_effS none t s.heap) hq0
        (hp.shared.replaceS i _ (fun y hy => by cases hy; exact h0)) hp.weak
  | sharedResetPtr i ptr =>
    cases hg : s.getShared i with
    | none => simp only [step, hg]; exact hp
    | some t =>
      have hb : good ptr (some (t.dtor s.heap).next) :=
        hop ⟨ptr, some (t.dtor s.heap).next⟩
          (by simp [Op.built, hg, SharedPtr.ResetPtr, dropReset_eq_dtor, Heap.newBlock])
      simp only [step, hg, SharedPtr.ResetPtr, dropReset_eq_dtor]
      have hk := hp.keep_eff (SharedPtr.dtor_effS none t s.heap) hq0
        (hp.shared.replaceS i (some ⟨ptr, some (t.dtor s.heap).next⟩)
          (fun y hy => by cases hy; exact hb)) hp.weak
      exact ⟨hk.shared, hk.weak, hk.objs⟩
  | sharedSwap i k =>
    cases hg : s.getShared i with
    | none => simp only [step, hg]; exact hp
    | some t =>
      cases hk : s.getShared k with
      | none => simp only [step, hg, hk]; exact hp
      | some o =>
        simp only [step, hg, hk]
        exact ⟨(hp.shared.replaceS i _ (fun y hy => by cases hy; exact hp.shared k o hk)).replaceS k _
          (fun y hy => by cases hy; exact hp.shared i t hg), hp.weak, hp.objs⟩
  | weakEmpty => exact ⟨hp.shared, hp.weak.snocW _ h0, hp.objs⟩
  | weakCopy j =>
    cases hg : s.getWeak j with
    | none => simp only [step, hg]; exact hp
    | some o =>
      simp only [step, hg]
      exact hp.keep_eff (incWeak_eff none s.heap o.block_) hq0 hp.shared
        (hp.weak.snocW _ (hp.weak j o hg))
  | weakMove j =>
    cases hg : s.getWeak j with
    | none => simp only [step, hg]; exact hp
    | some o =>
      simp only [step, hg]
      exact ⟨hp.shared, (hp.weak.replaceW j _ (fun y hy => by cases hy; exact h0)).snocW _
        (hp.weak j o hg), hp.objs⟩
  | weakOfShared i =>
    cases hg : s.getShared i with
    | none => simp only [step, hg]; exact hp
    | some o =>
      simp only [step, hg]
      exact hp.keep_eff (incWeak_eff none s.heap o.block_) hq0 hp.shared
        (hp.weak.snocW _ (hp.shared i o hg))
  | weakCopyAssign j k =>
    cases hg : s.getWeak j with
    | none => simp only [step, hg]; exact hp
    | some t =>
      cases hk : s.getWeak k with
      | none => simp only [step, hg, hk]; exact hp
      | some o =>
        simp only [step, hg, hk]
        by_cases hjk : j = k
        · rw [if_pos hjk]; exact hp
        · rw [if_neg hjk]
          exact hp.keep_eff (WeakPtr.copyAssign_effW none t o s.heap) hq0 hp.shared
            (hp.weak.replaceW j _ (fun y hy => by cases hy; exact hp.weak k o hk))
  | weakMoveAssign j k =>
    cases hg : s.getWeak j with
    | none => simp only [step, hg]; exact hp
    | some t =>
      cases hk : s.getWeak k with
      | none => simp only [step, hg, hk]; exact hp
      | some o =>
        simp only [step, hg, hk]
        by_cases hjk : j = k
        · rw [if_pos hjk]; exact hp
        · rw [if_neg hjk]
          exact hp.keep_eff (WeakPtr.moveAssign_eff none t o s.heap) hq0 hp.shared
            ((hp.weak.replaceW j _ (fun y hy => by cases hy; exact hp.weak k o hk)).replaceW k _
              (fun y hy => by cases hy; exact h0))
  | weakDtor j =>
    cases hg : s.getWeak j with
    | none => simp only [step, hg]; exact hp
    | some t =>
      simp only [step, hg]
      exact hp.keep_eff (WeakPtr.dtor_effW none t s.heap) hq0 hp.shared
        (hp.weak.replaceW j _ (fun y hy => by cases hy))
  | weakReset j =>
    cases hg : s.getWeak j with
    | none => simp only [step, hg]; exact hp
    | some t =>
      simp only [step, hg]
      exact hp.keep_eff (WeakPtr.Reset_eff none t s.heap) hq0 hp.shared
        (hp.weak.replaceW j _ (fun y hy => by cases hy; exact h0))
  | weakSwap j k =>
    cases hg : s.getWeak j with
    | none => simp only [step, hg]; exact hp
    | some t =>
      cases hk : s.getWeak k with
      | none => simp only [step, hg, hk]; exact hp
      | some o =>
        simp only [step, hg, hk]
        exact ⟨hp.shared, (hp.weak.replaceW j _ (fun y hy => by cases hy; exact hp.weak k o hk)).replaceW k _
          (fun y hy => by cases hy; exact hp.weak j t hg), hp.objs⟩
  | lock j =>
    cases hg : s.getWeak j with
    | none => simp only [step, hg]; exact hp
    | some w =>
      simp only [step, hg]
      obtain ⟨e, hb⟩ := WeakPtr.Lock_eff none w s.heap
      refine hp.keep_eff e hq0 (hp.shared.snocS _ ?_) hp.weak
      unfold WeakPtr.Lock
      by_cases he : w.Expired s.heap = true
      · rw [if_pos he]; exact h0
      · rw [if_neg he]; exact hp.weak j w hg
  | sharedFromThis r =>
    simp only [step, SharedFromThis]
    obtain ⟨e, hb⟩ := WeakPtr.Lock_eff none ((s.heap.self_ r).getD WeakPtr.empty) s.heap
    refine hp.keep_eff e hq0 (hp.shared.snocS _ ?_) hp.weak
    have hw : good ((s.heap.self_ r).getD WeakPtr.empty).ptr_
        ((s.heap.self_ r).getD WeakPtr.empty).block_ := by
      cases hs : s.heap.self_ r with
      | none => exact h0
      | some w => exact hp.objs r w hs
    unfold WeakPtr.Lock
    by_cases he : ((s.heap.self_ r).getD WeakPtr.empty).Expired s.heap = true
    · rw [if_pos he]; exact h0
    · rw [if_neg he]; exact hw
  | weakFromThis r =>
    simp only [step, WeakFromThis]
    have hw : good ((s.heap.self_ r).getD WeakPtr.empty).ptr_
        ((s.heap.self_ r).getD WeakPtr.empty).block_ := by
      cases hs : s.heap.self_ r with
      | none => exact h0
      | some w => exact hp.objs r w hs
    exact hp.keep_eff (incWeak_eff none s.heap _) hq0 hp.shared (hp.weak.snocW _ hw)

theorem run_snoc (ops : List Op) (op : Op) : run (ops ++ [op]) = step (run ops) op := by
  simp [run, List.foldl_append]

/-- A pair put together by a step of `ops` is one of the longer program too. -/
theorem Mixed.snoc {ops : List Op} {p b : Option Nat} (op : Op) (h : Mixed ops p b) :
    Mixed (ops ++ [op]) p b := by
  obtain ⟨n, hn, h⟩ := h
  have hg : (ops ++ [op]).get? n = ops.get? n := by
    rw [List.get?_eq_getElem?, List.get?_eq_getElem?, List.getElem?_append_left hn]
  have ht : (ops ++ [op]).take n = ops.take n :=
    List.take_append_of_le_length (Nat.le_of_lt hn)
  refine ⟨n, by simp; omega, ?_⟩
  rw [hg, ht]
  exact h

/-- After every program, pointer and block of every handle, of every observer and of every
`self_` member are both null or both non-null, or are a pair that a step of the program put
together with exactly one of them null. -/
theorem run_pairs (ops : List Op) :
    Pairs (fun p b => (p = none ↔ b = none) ∨ Mixed ops p b) (run ops) := by
  induction ops using List.reverseRecOn with
  | nil => exact Pairs.at_start _
  | append_singleton l op ih =>
    rw [run_snoc]
    refine step_pairs (Or.inl Iff.rfl) (fun a b => Or.inl (by simp)) (run l) (ih.widen ?_) op ?_
    · intro p b h
      exact h.imp id (Mixed.snoc op)
    · intro y hy
      by_cases hpair : (y.ptr_ = none ↔ y.block_ = none)
      · exact Or.inl hpair
      · right
        refine ⟨l.length, by simp, ?_⟩
        have hg : (l ++ [op]).get? l.length = some op := by simp
        have ht : (l ++ [op]).take l.length = l := by simp
        rw [hg, ht]
        cases op with
        | sharedOfPtr esft ptr =>
          simp only [Op.built, Option.some.injEq] at hy
          subst hy
          cases ptr with
          | some p => exact absurd (by simp [SharedPtr.ofPtr]) hpair
          | none => exact Or.inl ⟨esft, rfl, rfl, rfl⟩
        | sharedResetPtr k ptr =>
          cases hk : (run l).getShared k with
          | none => simp [Op.built, hk] at hy
          | some t =>
            simp only [Op.built, hk, Option.map_some', Option.some.injEq] at hy
            subst hy
            cases ptr with
            | some p => exact absurd (by simp [SharedPtr.ResetPtr]) hpair
            | none =>
              refine Or.inr (Or.inl ⟨k, t, rfl, hk, rfl, ?_⟩)
              simp [SharedPtr.ResetPtr, Heap.newBlock, dropReset_eq_dtor, dtor_next]
        | sharedAlias k ptr =>
          cases hk : (run l).getShared k with
          | none => simp [Op.built, hk] at hy
          | some o =>
            simp only [Op.built, hk, Option.map_some', Option.some.injEq] at hy
            subst hy
            exact Or.inr (Or.inr ⟨k, ptr, o, rfl, hk, rfl, rfl, hpair⟩)
        | _ => simp [Op.built] at hy

theorem countS_nonneg (l : List (Option SharedPtr)) (b : Nat) : 0 ≤ countS l b := by
  unfold countS
  apply List.sum_nonneg
  intro v hv
  obtain ⟨x, _, rfl⟩ := List.mem_map.1 hv
  split <;> omega

theorem countS_pos (l : List (Option SharedPtr)) (i : Nat) (x : SharedPtr) (b : Nat)
    (hx : l.getD i none = some x) (hb : x.block_ = some b) : 1 ≤ countS l b := by
  have h1 := countS_set l i none x hx b
  have h2 := countS_nonneg (l.set i none) b
  rw [hb, ind_some, if_pos rfl] at h1
  simp only [Option.bind, ind_none] at h1
  omega

/-! ## An observer keeps the block of a destroyed owner -/

theorem countW_nonneg (l : List (Option WeakPtr)) (b : Nat) : 0 ≤ countW l b := by
  unfold countW
  apply List.sum_nonneg
  intro v hv
  obtain ⟨x, _, rfl⟩ := List.mem_map.1 hv
  split <;> omega

theorem countW_pos (l : List (Option WeakPtr)) (i : Nat) (x : WeakPtr) (b : Nat)
    (hx : l.getD i none = some x) (hb : x.block_ = some b) : 1 ≤ countW l b := by
  have h1 := countW_set l i none x hx b
  have h2 := countW_nonneg (l.set i none) b
  rw [hb, ind_some, if_pos rfl] at h1
  simp only [Option.bind, ind_none] at h1
  omega

theorem expired_of_strong_zero (w : WeakPtr) (h : Heap) (X : Nat) (hw : w.block_ = some X)
    (hs : (h.block X).strong_cnt = 0) : w.Expired h = true ∧ w.UseCount h = 0 := by
  have hu : w.UseCount h = 0 := by simp [WeakPtr.UseCount, hw, hs]
  exact ⟨(expired_iff w h).2 hu, hu⟩

theorem not_expired_of_strong_one (w : WeakPtr) (h : Heap) (X : Nat) (hw : w.block_ = some X)
    (hs : (h.block X).strong_cnt = 1) : w.Expired h = false := by
  have hu : w.UseCount h = 1 := by
    simp only [WeakPtr.UseCount, hw, hs]
    decide
  cases he : w.Expired h with
  | false => rfl
  | true =>
    rw [expired_iff] at he
    omega

/-- The last owner of an observed block goes away: the block is not freed. -/
theorem lastOwner_keeps_observed (h : Heap) (X : Nat) (hs : (h.block X).strong_cnt = 1)
    (hnf : X ∉ h.freed) (hbal : 1 ≤ h.bal X) :
    X ∉ (h.lastOwner X).freed ∧ ((h.lastOwner X).block X).strong_cnt = 0 := by
  have t := h.DestructObject_td X
  have hnd : ¬ h.dead X := by unfold Heap.dead; omega
  have hc := t.count_freed X hnd
  have hnf1 : X ∉ (h.DestructObject X).freed := by
    intro hm
    have h1 : 0 < (h.DestructObject X).freed.count X := List.count_pos_iff.2 hm
    have h2 : h.freed.count X = 0 := List.count_eq_zero.2 hnf
    omega
  have hb := t.bal_eq X hnf1
  rw [ind_none] at hb
  have hw : 1 ≤ ((h.DestructObject X).block X).weak_cnt := by
    have := countW_nonneg (h.DestructObject X).objs X
    unfold Heap.bal at hb hbal
    omega
  unfold Heap.lastOwner
  simp only []
  have hne : ¬ (((h.DestructObject X).setStrong X 0).block X).weak_cnt = 0 := by
    simp only [setStrong_weak]
    omega
  rw [if_neg hne]
  exact ⟨hnf1, by simp⟩

theorem registerSelf_strong (t : SharedPtr) (h : Heap) (b : Nat) :
    ((t.registerSelf h).block b).strong_cnt = (h.block b).strong_cnt := by
  have := (SharedPtr.registerSelf_eff t h).strong_eq b
  simpa using this

theorem MakeShared_fresh (esft : Bool) (h : Heap) :
    (MakeShared esft h).1 = ⟨some h.objs.length, some h.next⟩ ∧
    ((MakeShared esft h).2.block h.next).strong_cnt = 1 := by
  cases esft
  · simp [MakeShared, SharedPtr.ofBlock, Heap.newBlock, ControlBlockStorage]
  · refine ⟨by simp [MakeShared, SharedPtr.ofBlock, Heap.newBlock], ?_⟩
    simp only [MakeShared, SharedPtr.ofBlock, if_true]
    rw [registerSelf_strong]
    simp [Heap.newBlock, ControlBlockStorage]

theorem self_append_new (l : List (Option WeakPtr)) (x : Option WeakPtr) :
    (l ++ [x]).getD l.length none = x := by
  rw [getD_append_one]
  simp

theorem MakeShared_true_heap (h : Heap) :
    (MakeShared true h).2 =
      { block := fun x => if x = h.next then
            { ControlBlockStorage h.objs.length with weak_cnt := 1 } else h.block x
        next := h.next + 1
        objs := (h.objs ++ [some WeakPtr.empty]).set h.objs.length
          (some ⟨some h.objs.length, some h.next⟩)
        freed := h.freed
        destructed := h.destructed } := by
  simp only [MakeShared, SharedPtr.ofBlock, if_true, SharedPtr.registerSelf, Heap.newBlock,
    Heap.self_, self_append_new, WeakPtr.ofShared, WeakPtr.moveAssign, WeakPtr.empty,
    dtor_empty, Heap.incWeak, Heap.setWeak]
  congr 1
  funext x
  by_cases hx : x = h.next
  · simp [hx, ControlBlockStorage]
  · simp [hx]

theorem lock_alive (w : WeakPtr) (g : Heap) (X : Nat) (hw : w.block_ = some X)
    (h1 : 1 ≤ (g.block X).strong_cnt) (h2 : (g.block X).strong_cnt < 2 ^ 31) :
    (w.Lock g).1 = ⟨w.ptr_, some X⟩ ∧
    (w.Lock g).2 = g.setStrong X ((g.block X).strong_cnt + 1) := by
  have hz := int_wrap_zero (g.block X).strong_cnt (by omega) h2
  have he : ¬ (w.Expired g = true) := by
    rw [expired_iff]
    simp only [WeakPtr.UseCount, hw]
    intro h0
    have := hz.1 h0
    omega
  simp [WeakPtr.Lock, he, hw, Heap.incStrong, Heap.deleteBlockPtr]

/-! ## An observer lets go of its block -/

theorem expired_iff_strong_zero (w : WeakPtr) (h : Heap) (X : Nat) (hw : w.block_ = some X)
    (h1 : -(2 ^ 31) ≤ (h.block X).strong_cnt) (h2 : (h.block X).strong_cnt < 2 ^ 31) :
    w.Expired h = true ↔ (h.block X).strong_cnt = 0 := by
  rw [expired_iff]
  simp only [WeakPtr.UseCount, hw]
  exact int_wrap_zero _ h1 h2

theorem dtor_unfold (w : WeakPtr) (h : Heap) (X : Nat) (hw : w.block_ = some X) :
    w.dtor h = if w.Expired h = true ∧ (h.block X).weak_cnt = 1 then h.deleteBlock X
      else h.setWeak X ((h.block X).weak_cnt - 1) := by
  unfold WeakPtr.dtor
  rw [WeakPtr.dtorAux]
  simp only [hw]
  by_cases hc : w.Expired h = true ∧ (h.block X).weak_cnt = 1
  · rw [if_pos hc, if_pos hc]
    have hlen := live_le_length h
    exact deleteBlockWith_congr _ _ X h
      (fun w0 h0 hl => dtorAux_fuel h.objs.length (h.objs.length + 1) w0 h0 (by omega) (by omega))
  · rw [if_neg hc, if_neg hc]

/-- The heaps that `~WeakPtr` and `Reset` leave behind, for an observer of block `X` whose
object is gone once `strong_cnt` is 0. -/
theorem observer_release (w : WeakPtr) (X : Nat) (h : Heap) (hw : w.block_ = some X)
    (hcnt : 1 ≤ (h.block X).weak_cnt)
    (h1 : -(2 ^ 31) ≤ (h.block X).strong_cnt) (h2 : (h.block X).strong_cnt < 2 ^ 31)
    (hexp : (h.block X).strong_cnt = 0 → (h.block X).ptr_ = none) :
    ∀ k, (k = w.dtor h ∨ k = w.dropLe X h ∨ k = w.dropEq X h) →
      (∀ b, (k.block b).strong_cnt = (h.block b).strong_cnt) ∧
      (∀ b, (k.block b).ptr_ = (h.block b).ptr_) ∧
      k.destructed = h.destructed ∧
      (∀ b, b ≠ X → (k.block b).weak_cnt = (h.block b).weak_cnt) ∧
      (((h.block X).strong_cnt = 0 ∧ (h.block X).weak_cnt = 1) → k.freed = h.freed ++ [X]) ∧
      (¬ ((h.block X).strong_cnt = 0 ∧ (h.block X).weak_cnt = 1) →
        k.freed = h.freed ∧ (k.block X).weak_cnt = (h.block X).weak_cnt - 1) := by
  have hexp1 := expired_iff_strong_zero w h X hw h1 h2
  have hexp2 : w.Expired (h.setWeak X ((h.block X).weak_cnt - 1)) = true ↔
      (h.block X).strong_cnt = 0 := by
    rw [expired_iff_strong_zero w _ X hw (by simpa using h1) (by simpa using h2)]
    simp
  intro k hk
  by_cases hl : (h.block X).strong_cnt = 0 ∧ (h.block X).weak_cnt = 1
  · have hp := hexp hl.1
    have hk1 : (∀ b, (k.block b).strong_cnt = (h.block b).strong_cnt) ∧
        (∀ b, (k.block b).ptr_ = (h.block b).ptr_) ∧ k.destructed = h.destructed ∧
        (∀ b, b ≠ X → (k.block b).weak_cnt = (h.block b).weak_cnt) ∧
        k.freed = h.freed ++ [X] := by
      rcases hk with hk | hk | hk
      · rw [hk, dtor_unfold w h X hw, if_pos ⟨hexp1.2 hl.1, hl.2⟩,
          deleteBlock_of_ptr_none h X hp]
        refine ⟨fun b => by simp, fun b => ?_, rfl, fun b _ => by simp,
          rfl⟩
        by_cases hb : b = X
        · subst hb; simp [hp]
        · simp [hb]
      · have hc : w.Expired (h.setWeak X ((h.block X).weak_cnt - 1)) = true ∧
            ((h.setWeak X ((h.block X).weak_cnt - 1)).block X).weak_cnt ≤ 0 :=
          ⟨hexp2.2 hl.1, by simp; omega⟩
        rw [hk]
        unfold WeakPtr.dropLe
        simp only []
        rw [if_pos hc, deleteBlock_of_ptr_none _ X (by simpa using hp)]
        refine ⟨fun b => by simp, fun b => ?_, rfl, fun b hb => by
          simp [hb], rfl⟩
        by_cases hb : b = X
        · subst hb; simp [hp]
        · simp [hb]
      · have hc : w.Expired (h.setWeak X ((h.block X).weak_cnt - 1)) = true ∧
            ((h.setWeak X ((h.block X).weak_cnt - 1)).block X).weak_cnt = 0 :=
          ⟨hexp2.2 hl.1, by simp; omega⟩
        rw [hk]
        unfold WeakPtr.dropEq
        simp only []
        rw [if_pos hc, deleteBlock_of_ptr_none _ X (by simpa using hp)]
        refine ⟨fun b => by simp, fun b => ?_, rfl, fun b hb => by
          simp [hb], rfl⟩
        by_cases hb : b = X
        · subst hb; simp [hp]
        · simp [hb]
    obtain ⟨a1, a2, a3, a4, a5⟩ := hk1
    exact ⟨a1, a2, a3, a4, fun _ => a5, fun hn => absurd hl hn⟩
  · have hk1 : k = h.setWeak X ((h.block X).weak_cnt - 1) := by
      rcases hk with hk | hk | hk
      · rw [hk, dtor_unfold w h X hw, if_neg (fun hc => hl ⟨hexp1.1 hc.1, hc.2⟩)]
      · rw [hk]
        unfold WeakPtr.dropLe
        simp only []
        rw [if_neg]
        intro hc
        have := hexp2.1 hc.1
        have h3 := hc.2
        simp at h3
        exact hl ⟨this, by omega⟩
      · rw [hk]
        unfold WeakPtr.dropEq
        simp only []
        rw [if_neg]
        intro hc
        have := hexp2.1 hc.1
        have h3 := hc.2
        simp at h3
        exact hl ⟨this, by omega⟩
    rw [hk1]
    refine ⟨fun b => by simp, fun b => by simp, rfl, fun b hb => by simp [hb],
      fun hc => absurd hc hl, fun _ => ⟨rfl, by simp⟩⟩

/-! ## `CompressedPair` and `UniquePtr` -/

@[simp] theorem Element.get_ofData {T : Type} (ebo : Bool) (x : T) :
    (Element.ofData ebo x).GetElement = x := by
  cases ebo <;> rfl

@[simp] theorem Element.get_assign {T : Type} (e : Element T) (x : T) :
    (e.assign x).GetElement = x := by
  cases e <;> rfl

@[simp] theorem CompressedPair.first_assignFirst {F S : Type} (p : CompressedPair F S) (x : F) :
    (p.assignFirst x).GetFirst = x := by
  simp [CompressedPair.assignFirst, CompressedPair.GetFirst]

@[simp] theorem CompressedPair.second_assignFirst {F S : Type} (p : CompressedPair F S) (x : F) :
    (p.assignFirst x).GetSecond = p.GetSecond := rfl

@[simp] theorem CompressedPair.first_assignSecond {F S : Type} (p : CompressedPair F S) (y : S) :
    (p.assignSecond y).GetFirst = p.GetFirst := rfl

@[simp] theorem CompressedPair.second_assignSecond {F S : Type} (p : CompressedPair F S)
    (y : S) : (p.assignSecond y).GetSecond = y := by
  simp [CompressedPair.assignSecond, CompressedPair.GetSecond]

@[simp] theorem CompressedPair.first_ofValues {F S : Type} (eboF eboS : Bool) (a : F) (b : S) :
    (CompressedPair.ofValues eboF eboS a b).GetFirst = a := by
  simp [CompressedPair.ofValues, CompressedPair.GetFirst]

@[simp] theorem CompressedPair.second_ofValues {F S : Type} (eboF eboS : Bool) (a : F) (b : S) :
    (CompressedPair.ofValues eboF eboS a b).GetSecond = b := by
  simp [CompressedPair.ofValues, CompressedPair.GetSecond]

/-! ## The claims -/

/-- C1 (fails on the code): a control block is freed exactly once, and only at the step after
which `strong_cnt` and `weak_cnt` are both 0.  The program
`a = SharedPtr(p); w = WeakPtr(a); b = SharedPtr(); a = b;` frees block 0 in the assignment
while `w` still observes it (`weak_cnt == 1`), and destroying `w` afterwards frees the same
block a second time. -/
theorem C1_block_freed_while_observed :
    (run [Op.sharedOfPtr false (some 5), Op.weakOfShared 0, Op.sharedEmpty,
        Op.sharedCopyAssign 0 1]).heap.freed = [0] ∧
    ((run [Op.sharedOfPtr false (some 5), Op.weakOfShared 0, Op.sharedEmpty,
        Op.sharedCopyAssign 0 1]).heap.block 0).weak_cnt = 1 ∧
    (run [Op.sharedOfPtr false (some 5), Op.weakOfShared 0, Op.sharedEmpty,
        Op.sharedCopyAssign 0 1]).getWeak 0 = some ⟨some 5, some 0⟩ ∧
    (run [Op.sharedOfPtr false (some 5), Op.weakOfShared 0, Op.sharedEmpty,
        Op.sharedCopyAssign 0 1, Op.weakDtor 0]).heap.freed = [0, 0] := by
  decide

/-- C2 (fails on the code): assignment to a handle `a` that is the last owner of block `X`
should free `X` only when `weak_cnt` is 0.  Both assignment operators free `X` whenever
`strong_cnt` drops to 0, whatever `weak_cnt` is. -/
theorem C2_assign_frees_observed_block (a b : SharedPtr) (h : Heap) (X : Nat)
    (ha : a.block_ = some X) (hs : (h.block X).strong_cnt = 1) :
    X ∈ (a.copyAssign b h).2.freed ∧ X ∈ (a.moveAssign b h).2.2.freed := by
  have hu : a.UseCount (h.setStrong X ((h.block X).strong_cnt - 1)) = 0 := by
    simp [SharedPtr.UseCount, ha, hs]
  have hd : X ∈ (a.dropAssign h).freed := by
    unfold SharedPtr.dropAssign
    simp only [ha, hu, if_true, Heap.deleteBlockPtr]
    exact deleteBlockWith_freed _ X _
  constructor
  · unfold SharedPtr.copyAssign
    simp only []
    cases hb : b.block_ <;> simpa [Heap.incStrong] using hd
  · exact hd

/-- C2 at a concrete input: block 0 has one owner and one observer (`weak_cnt == 1`), and
copy assignment from an empty handle frees it. -/
theorem C2_assign_frees_observed_block_witness :
    ((WeakPtr.ofShared ⟨some 5, some 0⟩
      (SharedPtr.ofPtr false (some 5) Heap.empty).2).2.block 0).weak_cnt = 1 ∧
    0 ∈ ((SharedPtr.mk (some 5) (some 0)).copyAssign SharedPtr.empty
      (WeakPtr.ofShared ⟨some 5, some 0⟩
        (SharedPtr.ofPtr false (some 5) Heap.empty).2).2).2.freed :=
  ⟨by decide, (C2_assign_frees_observed_block ⟨some 5, some 0⟩ SharedPtr.empty
      (WeakPtr.ofShared ⟨some 5, some 0⟩ (SharedPtr.ofPtr false (some 5) Heap.empty).2).2 0 rfl
      (by decide)).1⟩

/-- C3: after every program of handle operations, `strong_cnt` of every allocated block
equals the number of live `SharedPtr` objects whose `block_` is that block. -/
theorem C3_strong_count_is_owner_count (ops : List Op) (b : Nat)
    (hb : b < (run ops).heap.next) :
    ((run ops).heap.block b).strong_cnt = (run ops).owners b :=
  (run_inv ops).strong b hb

/-- C3 at a concrete program: construct `A`, copy it to `B`, destroy `A`; block 0 then has
one owner. -/
theorem C3_strong_count_is_owner_count_witness :
    0 < (run [Op.sharedOfPtr false (some 5), Op.sharedCopy 0, Op.sharedDtor 0]).heap.next ∧
    ((run [Op.sharedOfPtr false (some 5), Op.sharedCopy 0, Op.sharedDtor 0]).heap.block 0).strong_cnt
      = (run [Op.sharedOfPtr false (some 5), Op.sharedCopy 0, Op.sharedDtor 0]).owners 0 :=
  ⟨by decide, C3_strong_count_is_owner_count
    [Op.sharedOfPtr false (some 5), Op.sharedCopy 0, Op.sharedDtor 0] 0 (by decide)⟩

/-- C4: after every program of handle operations, `weak_cnt` of every allocated block that
has not been freed equals the number of live `WeakPtr` objects whose `block_` is that block
(the observers of the client and the `self_` members of live objects); owners are not
counted. -/
theorem C4_weak_count_is_observer_count (ops : List Op) (b : Nat)
    (hb : b < (run ops).heap.next) (hf : b ∉ (run ops).heap.freed) :
    ((run ops).heap.block b).weak_cnt = (run ops).observers b := by
  have h := (run_inv ops).weak b hb hf
  unfold Heap.bal at h
  unfold State.observers
  omega

/-- C4 at a concrete program: `MakeShared` of a self-observing object, then one observer;
block 0 counts `self_` and the observer. -/
theorem C4_weak_count_is_observer_count_witness :
    0 < (run [Op.makeShared true, Op.weakOfShared 0]).heap.next ∧
    0 ∉ (run [Op.makeShared true, Op.weakOfShared 0]).heap.freed ∧
    ((run [Op.makeShared true, Op.weakOfShared 0]).heap.block 0).weak_cnt
      = (run [Op.makeShared true, Op.weakOfShared 0]).observers 0 :=
  ⟨by decide, by decide, C4_weak_count_is_observer_count
    [Op.makeShared true, Op.weakOfShared 0] 0 (by decide) (by decide)⟩

/-- C5 (fails on the code): the destructor of the managed object runs exactly once, when
`strong_cnt` goes from 1 to 0.  When the last owner of a self-observing object is overwritten
by move assignment, `delete block_` runs with `strong_cnt == 0` already set, the `self_`
member inside the object deletes the block again, and the object destructor is entered a
second time.  Destroying the same handle instead runs it once. -/
theorem C5_teardown_runs_twice :
    (run [Op.makeShared true, Op.sharedEmpty, Op.sharedMoveAssign 0 1]).heap.destructed
      = [0, 0] ∧
    (run [Op.makeShared true, Op.sharedDtor 0]).heap.destructed = [0] := by
  decide

/-- C6: `Lock` returns an empty handle exactly when the observer is empty or `strong_cnt` of
its block is 0, and then leaves the heap as it is; otherwise it returns the pointer and the
block of the observer, `strong_cnt` of that block grows by one, and no other counter
changes.  `strong_cnt` is taken in the range of `int`. -/
theorem C6_lock (w : WeakPtr) (h : Heap)
    (hint : ∀ b, w.block_ = some b →
      -(2 ^ 31) ≤ (h.block b).strong_cnt ∧ (h.block b).strong_cnt < 2 ^ 31) :
    ((w.Lock h).1 = SharedPtr.empty ↔
        (w.block_ = none ∨ ∃ b, w.block_ = some b ∧ (h.block b).strong_cnt = 0)) ∧
    ((w.Lock h).1 = SharedPtr.empty →
        (w.Lock h).2 = h ∧ (w.Lock h).1.UseCount (w.Lock h).2 = 0) ∧
    (∀ b, w.block_ = some b → (h.block b).strong_cnt ≠ 0 →
        (w.Lock h).1 = ⟨w.ptr_, some b⟩ ∧
        ((w.Lock h).2.block b).strong_cnt = (h.block b).strong_cnt + 1 ∧
        (∀ x, x ≠ b → ((w.Lock h).2.block x).strong_cnt = (h.block x).strong_cnt) ∧
        (∀ x, ((w.Lock h).2.block x).weak_cnt = (h.block x).weak_cnt)) := by
  cases hb : w.block_ with
  | none =>
    have he : w.Expired h = true := by simp [WeakPtr.Expired, WeakPtr.UseCount, hb]
    simp [WeakPtr.Lock, he, SharedPtr.empty, SharedPtr.UseCount]
  | some b =>
    have hr := hint b hb
    have hz := int_wrap_zero _ hr.1 hr.2
    by_cases hc : (h.block b).strong_cnt = 0
    · have he : w.Expired h = true := by
        rw [expired_iff]; simp only [WeakPtr.UseCount, hb]; exact hz.2 hc
      simp [WeakPtr.Lock, he, SharedPtr.empty, SharedPtr.UseCount, hc]
    · have he : ¬ (w.Expired h = true) := by
        rw [expired_iff]; simp only [WeakPtr.UseCount, hb]; exact fun h0 => hc (hz.1 h0)
      simp [WeakPtr.Lock, he, SharedPtr.empty, SharedPtr.UseCount, hc, hb, Heap.incStrong,
        Heap.deleteBlockPtr]
      intro x hx
      simp [hx]

/-- C6 at a concrete input: an observer of a block with one owner locks to a handle of that
block. -/
theorem C6_lock_witness :
    ((SharedPtr.ofPtr false (some 7) Heap.empty).2.block 0).strong_cnt = 1 ∧
    ((WeakPtr.mk (some 7) (some 0)).Lock (SharedPtr.ofPtr false (some 7) Heap.empty).2).1
      = ⟨some 7, some 0⟩ :=
  ⟨by decide, ((C6_lock ⟨some 7, some 0⟩ (SharedPtr.ofPtr false (some 7) Heap.empty).2
    (by intro b hb; cases hb; decide)).2.2 0 rfl (by decide)).1⟩

/-- C7: the promoting constructor throws `BadWeakPtr` exactly when `UseCount()` of the
observer is 0 (an empty observer included), and then the program state is unchanged;
otherwise the new handle has the pointer and the block of the observer, `strong_cnt` of that
block grows by one and no other counter changes. -/
theorem C7_promote (w : WeakPtr) (h : Heap) :
    (SharedPtr.ofWeak w h = Except.error BadWeakPtr.mk ↔ w.UseCount h = 0) ∧
    (w.block_ = none → SharedPtr.ofWeak w h = Except.error BadWeakPtr.mk) ∧
    (∀ (s : State) (j : Nat), s.heap = h → s.getWeak j = some w → w.UseCount h = 0 →
      step s (Op.sharedOfWeak j) = s) ∧
    (∀ b, w.block_ = some b → w.UseCount h ≠ 0 →
      SharedPtr.ofWeak w h
        = Except.ok (⟨w.ptr_, some b⟩, h.setStrong b ((h.block b).strong_cnt + 1)) ∧
      ((h.setStrong b ((h.block b).strong_cnt + 1)).block b).strong_cnt
        = (h.block b).strong_cnt + 1 ∧
      (∀ x, x ≠ b → ((h.setStrong b ((h.block b).strong_cnt + 1)).block x).strong_cnt
        = (h.block x).strong_cnt) ∧
      (∀ x, ((h.setStrong b ((h.block b).strong_cnt + 1)).block x).weak_cnt
        = (h.block x).weak_cnt)) := by
  refine ⟨?_, ?_, ?_, ?_⟩
  · unfold SharedPtr.ofWeak
    by_cases hu : w.UseCount h = 0
    · simp [(expired_iff w h).2 hu, hu]
    · have he : ¬ (w.Expired h = true) := fun h0 => hu ((expired_iff w h).1 h0)
      simp [he, hu]
  · intro hb
    have he : w.Expired h = true := by simp [WeakPtr.Expired, WeakPtr.UseCount, hb]
    simp [SharedPtr.ofWeak, he]
  · intro s j hh hj hu
    have he : w.Expired s.heap = true := by rw [hh]; exact (expired_iff w h).2 hu
    simp [step, hj, SharedPtr.ofWeak, he]
  · intro b hb hu
    have he : ¬ (w.Expired h = true) := fun h0 => hu ((expired_iff w h).1 h0)
    refine ⟨?_, by simp, ?_, by simp⟩
    · simp [SharedPtr.ofWeak, he, hb, Heap.incStrong]
    · intro x hx
      simp [hx]

/-- C7 at a concrete input: promoting an empty observer throws, and promoting an observer
whose block has one owner succeeds. -/
theorem C7_promote_witness :
    SharedPtr.ofWeak WeakPtr.empty Heap.empty = Except.error BadWeakPtr.mk ∧
    (WeakPtr.mk (some 7) (some 0)).UseCount (SharedPtr.ofPtr false (some 7) Heap.empty).2 ≠ 0 ∧
    SharedPtr.ofWeak ⟨some 7, some 0⟩ (SharedPtr.ofPtr false (some 7) Heap.empty).2
      = Except.ok (⟨some 7, some 0⟩,
        (SharedPtr.ofPtr false (some 7) Heap.empty).2.setStrong 0
          (((SharedPtr.ofPtr false (some 7) Heap.empty).2.block 0).strong_cnt + 1)) :=
  ⟨(C7_promote WeakPtr.empty Heap.empty).2.1 rfl, by decide,
    ((C7_promote ⟨some 7, some 0⟩ (SharedPtr.ofPtr false (some 7) Heap.empty).2).2.2.2 0 rfl
      (by decide)).1⟩

/-- C8 (fails as stated): every handle has `ptr_` and `block_` both null or both non-null.
The raw-pointer constructor and `Reset(ptr)` given `nullptr` leave a null `ptr_` with a
block, the aliasing constructor pairs any pointer with the block of the other handle,
null or not, and `SharedPtr(T*, ControlBlockBase*)` given a pointer and a null block keeps
both. -/
theorem C8_counterexample :
    ((run [Op.sharedOfPtr false none]).getShared 0).map
        (fun x => decide (x.ptr_ = none ↔ x.block_ = none)) = some false ∧
    ((run [Op.sharedEmpty, Op.sharedResetPtr 0 none]).getShared 0).map
        (fun x => decide (x.ptr_ = none ↔ x.block_ = none)) = some false ∧
    ((run [Op.sharedEmpty, Op.sharedAlias 0 (some 7)]).getShared 1).map
        (fun x => decide (x.ptr_ = none ↔ x.block_ = none)) = some false ∧
    ((run [Op.sharedOfPtr false (some 5), Op.sharedAlias 0 none]).getShared 1).map
        (fun x => decide (x.ptr_ = none ↔ x.block_ = none)) = some false ∧
    decide ((SharedPtr.ofBlock false (some 7) none Heap.empty).1.ptr_ = none ↔
      (SharedPtr.ofBlock false (some 7) none Heap.empty).1.block_ = none) = false := by
  decide

/-- C8 (amended): after every program over the operations of `Op`, every live handle `x`
has a null `block_` or a block with `strong_cnt >= 1`; and `ptr_` and `block_` of `x` are
both null, or both non-null with `strong_cnt >= 1`, or they are the pointer and block that
some step `n` of the program put together: the raw-pointer constructor or `Reset(ptr)`
given `nullptr` (null pointer, fresh block), or the aliasing constructor given a pointer
`ptr` and a handle `o` with exactly one of `ptr` and `o.block_` null.
`SharedPtr(T*, ControlBlockBase*)` is not among these operations: its handle holds the two
arguments as given, and no `strong_cnt` changes. -/
theorem C8_handle_invariant (ops : List Op) (i : Nat) (x : SharedPtr)
    (hx : (run ops).getShared i = some x) :
    (x.block_ = none ∨ ∃ b, x.block_ = some b ∧ 1 ≤ ((run ops).heap.block b).strong_cnt) ∧
    ((x.ptr_ = none ∧ x.block_ = none) ∨
      (x.ptr_ ≠ none ∧ ∃ b, x.block_ = some b ∧ 1 ≤ ((run ops).heap.block b).strong_cnt) ∨
      ∃ n, n < ops.length ∧
        ((∃ esft, ops.get? n = some (Op.sharedOfPtr esft none) ∧
            x.ptr_ = none ∧ x.block_ = some (run (ops.take n)).heap.next) ∨
         (∃ k t, ops.get? n = some (Op.sharedResetPtr k none) ∧
            (run (ops.take n)).getShared k = some t ∧
            x.ptr_ = none ∧ x.block_ = some (run (ops.take n)).heap.next) ∨
         (∃ k ptr o, ops.get? n = some (Op.sharedAlias k ptr) ∧
            (run (ops.take n)).getShared k = some o ∧
            x.ptr_ = ptr ∧ x.block_ = o.block_ ∧ ¬ (ptr = none ↔ o.block_ = none)))) ∧
    (∀ (esft : Bool) (ptr base : Option Nat) (h : Heap),
      (SharedPtr.ofBlock esft ptr base h).1 = ⟨ptr, base⟩ ∧
      ∀ b, ((SharedPtr.ofBlock esft ptr base h).2.block b).strong_cnt
        = (h.block b).strong_cnt) := by
  have hinv := run_inv ops
  have h1 : x.block_ = none ∨
      ∃ b, x.block_ = some b ∧ 1 ≤ ((run ops).heap.block b).strong_cnt := by
    cases hb : x.block_ with
    | none => exact Or.inl rfl
    | some b =>
      refine Or.inr ⟨b, rfl, ?_⟩
      rw [hinv.strong b (hinv.sc_shared i x b hx hb)]
      exact countS_pos _ i x b hx hb
  refine ⟨h1, ?_, ?_⟩
  · rcases (run_pairs ops).shared i x hx with hp | hm
    · rcases h1 with h0 | h0
      · exact Or.inl ⟨hp.2 h0, h0⟩
      · refine Or.inr (Or.inl ⟨?_, h0⟩)
        obtain ⟨b, hb, _⟩ := h0
        intro hn
        rw [hp.1 hn] at hb
        cases hb
    · exact Or.inr (Or.inr hm)
  · intro esft ptr base h
    refine ⟨rfl, fun b => ?_⟩
    cases esft
    · rfl
    · have e := (SharedPtr.registerSelf_eff ⟨ptr, base⟩ h).strong_eq b
      simpa [SharedPtr.ofBlock] using e

/-- C8 at two concrete programs.  `MakeShared`, then an aliasing handle with a non-null
pointer: the aliasing handle has a block with two owners.  A raw-pointer handle, then an
aliasing handle with a null pointer: the aliasing handle has a null pointer and a block,
and it is step 1, the aliasing constructor, that put the two together. -/
theorem C8_handle_invariant_witness :
    (run [Op.makeShared false, Op.sharedAlias 0 (some 9)]).getShared 1
      = some ⟨some 9, some 0⟩ ∧
    ((some 0 : Option Nat) = none ∨ ∃ b, (some 0 : Option Nat) = some b ∧
      1 ≤ ((run [Op.makeShared false, Op.sharedAlias 0 (some 9)]).heap.block b).strong_cnt) ∧
    (run [Op.sharedOfPtr false (some 5), Op.sharedAlias 0 none]).getShared 1
      = some ⟨none, some 0⟩ ∧
    ∃ n, n < [Op.sharedOfPtr false (some 5), Op.sharedAlias 0 none].length ∧
      ((∃ esft, [Op.sharedOfPtr false (some 5), Op.sharedAlias 0 none].get? n
            = some (Op.sharedOfPtr esft none) ∧
          (SharedPtr.mk none (some 0)).ptr_ = none ∧
          (SharedPtr.mk none (some 0)).block_ = some (run
            ([Op.sharedOfPtr false (some 5), Op.sharedAlias 0 none].take n)).heap.next) ∨
       (∃ k t, [Op.sharedOfPtr false (some 5), Op.sharedAlias 0 none].get? n
            = some (Op.sharedResetPtr k none) ∧
          (run ([Op.sharedOfPtr false (some 5), Op.sharedAlias 0 none].take n)).getShared k
            = some t ∧
          (SharedPtr.mk none (some 0)).ptr_ = none ∧
          (SharedPtr.mk none (some 0)).block_ = some (run
            ([Op.sharedOfPtr false (some 5), Op.sharedAlias 0 none].take n)).heap.next) ∨
       (∃ k ptr o, [Op.sharedOfPtr false (some 5), Op.sharedAlias 0 none].get? n
            = some (Op.sharedAlias k ptr) ∧
          (run ([Op.sharedOfPtr false (some 5), Op.sharedAlias 0 none].take n)).getShared k
            = some o ∧
          (SharedPtr.mk none (some 0)).ptr_ = ptr ∧
          (SharedPtr.mk none (some 0)).block_ = o.block_ ∧
          ¬ (ptr = none ↔ o.block_ = none))) :=
  ⟨by decide,
    (C8_handle_invariant [Op.makeShared false, Op.sharedAlias 0 (some 9)] 1 ⟨some 9, some 0⟩
      (by decide)).1,
    by decide,
    ((C8_handle_invariant [Op.sharedOfPtr false (some 5), Op.sharedAlias 0 none] 1
      ⟨none, some 0⟩ (by decide)).2.1.resolve_left (by decide)).resolve_left
        (fun h => h.1 rfl)⟩

/-- C9: for a handle `t` of block `X`.  When `strong_cnt == 1`, the destructor destroys the
object of `X`, sets `strong_cnt` to 0 and frees `X` exactly when `weak_cnt` is then 0 (for an
object without a `self_` member that is `weak_cnt` before the call as well).  When
`strong_cnt > 1` it only decrements `strong_cnt`.  `Reset()` does the same and leaves `t`
empty; `Reset(p)` does the same and leaves `t` with `Get() == p` as the sole owner of a
fresh `ControlBlockPointer` with `weak_cnt == 0`. -/
theorem C9_release (t : SharedPtr) (X : Nat) (h : Heap) (p : Option Nat)
    (hX : t.block_ = some X) :
    ((h.block X).strong_cnt = 1 →
      ((t.dtor h).block X).strong_cnt = 0 ∧
      ((t.dtor h).block X).ptr_ = none ∧
      (∀ r, (h.block X).ptr_ = some r → ∃ l, (t.dtor h).destructed = h.destructed ++ r :: l) ∧
      (t.dtor h).freed.count X = h.freed.count X +
        (if ((t.dtor h).block X).weak_cnt = 0 then 1 else 0) ∧
      ((∀ r, (h.block X).ptr_ = some r → h.self_ r = none) →
        ∀ x, ((t.dtor h).block x).weak_cnt = (h.block x).weak_cnt)) ∧
    (1 < (h.block X).strong_cnt →
      t.dtor h = h.setStrong X ((h.block X).strong_cnt - 1)) ∧
    ((t.Reset h).2 = t.dtor h ∧ (t.Reset h).1 = SharedPtr.empty ∧ (t.Reset h).1.Get = none ∧
      (t.Reset h).1.UseCount (t.Reset h).2 = 0) ∧
    ((t.ResetPtr p h).2 = ((t.dtor h).newBlock (ControlBlockPointer p)).2 ∧
      (t.ResetPtr p h).1 = ⟨p, some h.next⟩ ∧ (t.ResetPtr p h).1.Get = p ∧
      (t.ResetPtr p h).1.UseCount (t.ResetPtr p h).2 = 1 ∧
      ((t.ResetPtr p h).2.block h.next) = ⟨1, 0, p, BlockKind.pointer⟩) := by
  refine ⟨?_, ?_, ?_, ?_⟩
  · intro hs
    have hu := (useCount_eq_one t h X hX).2 hs
    have : t.dtor h = h.lastOwner X := by
      unfold SharedPtr.dtor
      simp [hX, hu]
    rw [this]
    obtain ⟨h1, h2, h3, h4⟩ := lastOwner_spec h X hs
    exact ⟨h1, h2, h3, h4, fun hplain x => lastOwner_weak_of_plain h X hplain x⟩
  · intro hs
    have hu : ¬ t.UseCount h = 1 := by
      rw [useCount_eq_one t h X hX]; omega
    unfold SharedPtr.dtor
    simp [hX, hu]
  · refine ⟨?_, rfl, rfl, rfl⟩
    simp [SharedPtr.Reset, dropReset_eq_dtor]
  · have hn := dtor_next t h
    refine ⟨?_, ?_, rfl, ?_, ?_⟩
    · simp [SharedPtr.ResetPtr, dropReset_eq_dtor]
    · simp [SharedPtr.ResetPtr, dropReset_eq_dtor, Heap.newBlock, hn]
    · simp [SharedPtr.ResetPtr, dropReset_eq_dtor, Heap.newBlock, hn, SharedPtr.UseCount,
        ControlBlockPointer]
    · simp [SharedPtr.ResetPtr, dropReset_eq_dtor, Heap.newBlock, hn, ControlBlockPointer]

/-- C9 at a concrete input: the only owner of block 0 is destroyed; `strong_cnt` becomes 0
and the object 5 is destroyed. -/
theorem C9_release_witness :
    ((SharedPtr.ofPtr false (some 5) Heap.empty).2.block 0).strong_cnt = 1 ∧
    (((SharedPtr.mk (some 5) (some 0)).dtor
      (SharedPtr.ofPtr false (some 5) Heap.empty).2).block 0).strong_cnt = 0 :=
  ⟨by decide, ((C9_release ⟨some 5, some 0⟩ 0 (SharedPtr.ofPtr false (some 5) Heap.empty).2
    none rfl).1 (by decide)).1⟩

/-- C10: for a handle `o` of block `X` and any pointer `p`, the aliasing constructor gives a
handle with `Get() == p` and block `X`, and `UseCount()` of both handles is the old count
plus one.  Destroying `o` afterwards only decrements the count: no object is destroyed, no
block freed.  When the alias is then the last owner, destroying it destroys the object `r`
that `X` manages, and nothing else (so not the object `p` points to, unless `p` is `r`). -/
theorem C10_alias (o : SharedPtr) (X : Nat) (p : Option Nat) (h : Heap) (r : Nat)
    (hX : o.block_ = some X) (hs : 1 ≤ (h.block X).strong_cnt) :
    (SharedPtr.alias o p h).1.Get = p ∧
    (SharedPtr.alias o p h).1.block_ = some X ∧
    (SharedPtr.alias o p h).1.UseCount (SharedPtr.alias o p h).2 = o.UseCount h + 1 ∧
    o.UseCount (SharedPtr.alias o p h).2 = o.UseCount h + 1 ∧
    ((o.dtor (SharedPtr.alias o p h).2).destructed = h.destructed ∧
      (o.dtor (SharedPtr.alias o p h).2).freed = h.freed ∧
      ((o.dtor (SharedPtr.alias o p h).2).block X).ptr_ = (h.block X).ptr_ ∧
      (SharedPtr.alias o p h).1.UseCount (o.dtor (SharedPtr.alias o p h).2) = o.UseCount h) ∧
    ((h.block X).strong_cnt = 1 → (h.block X).ptr_ = some r →
      (∀ w, h.self_ r = some w → w.block_ = some X ∨ w.block_ = none) →
      ((SharedPtr.alias o p h).1.dtor (o.dtor (SharedPtr.alias o p h).2)).destructed
        = h.destructed ++ [r]) := by
  have ha : SharedPtr.alias o p h = (⟨p, some X⟩, h.setStrong X ((h.block X).strong_cnt + 1)) := by
    simp [SharedPtr.alias, hX, Heap.incStrong]
  have hu0 : ¬ o.UseCount (h.setStrong X ((h.block X).strong_cnt + 1)) = 1 := by
    rw [useCount_eq_one _ _ X hX]
    simp
    omega
  have hd : o.dtor (h.setStrong X ((h.block X).strong_cnt + 1)) =
      (h.setStrong X ((h.block X).strong_cnt + 1)).setStrong X ((h.block X).strong_cnt) := by
    unfold SharedPtr.dtor
    simp [hX, hu0]
  rw [ha]
  have hge : (h.block X).strong_cnt ≥ 0 := by omega
  have hge1 : (h.block X).strong_cnt + 1 ≥ 0 := by omega
  refine ⟨rfl, rfl, ?_, ?_, ⟨?_, ?_, ?_, ?_⟩, ?_⟩
  · simp only [SharedPtr.UseCount, hX, setStrong_strong, if_true, if_pos hge, if_pos hge1]
    omega
  · simp only [SharedPtr.UseCount, hX, setStrong_strong, if_true, if_pos hge, if_pos hge1]
    omega
  · simp only [hd]; rfl
  · simp only [hd]; rfl
  · simp only [hd]; simp
  · simp only [hd, SharedPtr.UseCount, hX, setStrong_strong, if_true, if_pos hge]
  · simp only [hd]
    intro h1 hp hself
    have hu1 : (SharedPtr.mk p (some X)).UseCount
        ((h.setStrong X ((h.block X).strong_cnt + 1)).setStrong X ((h.block X).strong_cnt)) = 1 := by
      rw [useCount_eq_one _ _ X rfl]
      simp [h1]
    unfold SharedPtr.dtor
    simp only [hu1, if_true]
    rw [lastOwner_destructed _ X r (by simp [h1]) (by simp [hp]) (by simpa [Heap.self_] using hself)]
    rfl

/-- C10 at a concrete input: an alias with pointer 9 of a handle whose block manages
object 5. -/
theorem C10_alias_witness :
    1 ≤ ((SharedPtr.ofPtr false (some 5) Heap.empty).2.block 0).strong_cnt ∧
    (SharedPtr.alias ⟨some 5, some 0⟩ (some 9)
      (SharedPtr.ofPtr false (some 5) Heap.empty).2).1.Get = some 9 ∧
    ((SharedPtr.alias ⟨some 5, some 0⟩ (some 9)
        (SharedPtr.ofPtr false (some 5) Heap.empty).2).1.dtor
      ((SharedPtr.mk (some 5) (some 0)).dtor (SharedPtr.alias ⟨some 5, some 0⟩ (some 9)
        (SharedPtr.ofPtr false (some 5) Heap.empty).2).2)).destructed
      = (SharedPtr.ofPtr false (some 5) Heap.empty).2.destructed ++ [5] :=
  ⟨by decide,
    (C10_alias ⟨some 5, some 0⟩ 0 (some 9) (SharedPtr.ofPtr false (some 5) Heap.empty).2 5 rfl
      (by decide)).1,
    (C10_alias ⟨some 5, some 0⟩ 0 (some 9) (SharedPtr.ofPtr false (some 5) Heap.empty).2 5 rfl
      (by decide)).2.2.2.2.2 (by decide) (by decide) (by intro w hw; cases hw)⟩

/-- C11: in a state reached by any program, let `A` be the only owner of a block `X` that is
still allocated and `W` an observer of `X` (`MakeShared` gives such an `A`: its handle has
the fresh block, with `strong_cnt == 1`).  Then `W.Expired()` is false; after `A` is
destroyed `X` is still not freed, `W` is unchanged, `W.Expired()` is true,
`W.UseCount() == 0` and `W.Lock()` returns an empty handle. -/
theorem C11_observer_outlives_owner (ops : List Op) (i j X : Nat) (A : SharedPtr) (W : WeakPtr)
    (hA : (run ops).getShared i = some A) (hAX : A.block_ = some X)
    (hW : (run ops).getWeak j = some W) (hWX : W.block_ = some X)
    (hone : ((run ops).heap.block X).strong_cnt = 1) (hnf : X ∉ (run ops).heap.freed) :
    (∀ esft h, (MakeShared esft h).1.block_ = some h.next ∧
      ((MakeShared esft h).2.block h.next).strong_cnt = 1) ∧
    W.Expired (run ops).heap = false ∧
    X ∉ (step (run ops) (Op.sharedDtor i)).heap.freed ∧
    (step (run ops) (Op.sharedDtor i)).getWeak j = some W ∧
    W.Expired (step (run ops) (Op.sharedDtor i)).heap = true ∧
    W.UseCount (step (run ops) (Op.sharedDtor i)).heap = 0 ∧
    (W.Lock (step (run ops) (Op.sharedDtor i)).heap).1 = SharedPtr.empty := by
  have hinv := run_inv ops
  have hX : X < (run ops).heap.next := hinv.sc_shared i A X hA hAX
  have hbal : 1 ≤ (run ops).heap.bal X := by
    rw [hinv.weak X hX hnf]
    exact countW_pos _ j W X hW hWX
  have hu : A.UseCount (run ops).heap = 1 := (useCount_eq_one A _ X hAX).2 hone
  have hd : A.dtor (run ops).heap = (run ops).heap.lastOwner X := by
    unfold SharedPtr.dtor
    simp [hAX, hu]
  obtain ⟨h1, h2⟩ := lastOwner_keeps_observed (run ops).heap X hone hnf hbal
  have hstep : (step (run ops) (Op.sharedDtor i)).heap = (run ops).heap.lastOwner X := by
    simp only [step, hA, hd]
  have hwk : (step (run ops) (Op.sharedDtor i)).getWeak j = some W := by
    simp only [step, hA]
    exact hW
  obtain ⟨e1, e2⟩ := expired_of_strong_zero W _ X hWX h2
  refine ⟨fun esft h => ?_, not_expired_of_strong_one W _ X hWX hone, ?_, hwk, ?_, ?_, ?_⟩
  · obtain ⟨m1, m2⟩ := MakeShared_fresh esft h
    exact ⟨by rw [m1], m2⟩
  · rw [hstep]; exact h1
  · rw [hstep]; exact e1
  · rw [hstep]; exact e2
  · rw [hstep]
    simp [WeakPtr.Lock, e1, SharedPtr.empty]

/-- C11 at a concrete program: `MakeShared`, an observer of the handle, then the handle is
destroyed. -/
theorem C11_observer_outlives_owner_witness :
    (run [Op.makeShared false, Op.weakOfShared 0]).getShared 0 = some ⟨some 0, some 0⟩ ∧
    (run [Op.makeShared false, Op.weakOfShared 0]).getWeak 0 = some ⟨some 0, some 0⟩ ∧
    0 ∉ (step (run [Op.makeShared false, Op.weakOfShared 0]) (Op.sharedDtor 0)).heap.freed ∧
    (WeakPtr.mk (some 0) (some 0)).Expired
      (step (run [Op.makeShared false, Op.weakOfShared 0]) (Op.sharedDtor 0)).heap = true :=
  ⟨by decide, by decide,
    (C11_observer_outlives_owner [Op.makeShared false, Op.weakOfShared 0] 0 0 0
      ⟨some 0, some 0⟩ ⟨some 0, some 0⟩ (by decide) rfl (by decide) rfl (by decide)
      (by decide)).2.2.1,
    (C11_observer_outlives_owner [Op.makeShared false, Op.weakOfShared 0] 0 0 0
      ⟨some 0, some 0⟩ ⟨some 0, some 0⟩ (by decide) rfl (by decide) rfl (by decide)
      (by decide)).2.2.2.2.1⟩

/-- C12: `MakeShared` of a type with `EnableSharedFromThis`, on any heap, gives a handle `A`
with `UseCount() == 1`, a block with `weak_cnt == 1` and `self_` registered to that block;
`SharedFromThis()` on the new object returns a handle with the pointer and the block of `A`,
and then `UseCount()` is 2 on both.  In general, for an object whose `self_` observes a
block with `k >= 1` owners, `SharedFromThis()` returns a handle of that block with
`UseCount() == k + 1`. -/
theorem C12_shared_from_this (h : Heap) :
    (MakeShared true h).1 = ⟨some h.objs.length, some h.next⟩ ∧
    (MakeShared true h).1.UseCount (MakeShared true h).2 = 1 ∧
    ((MakeShared true h).2.block h.next).weak_cnt = 1 ∧
    (MakeShared true h).2.self_ h.objs.length = some ⟨some h.objs.length, some h.next⟩ ∧
    (SharedFromThis h.objs.length (MakeShared true h).2).1
      = ⟨some h.objs.length, some h.next⟩ ∧
    (SharedFromThis h.objs.length (MakeShared true h).2).1.UseCount
      (SharedFromThis h.objs.length (MakeShared true h).2).2 = 2 ∧
    (MakeShared true h).1.UseCount (SharedFromThis h.objs.length (MakeShared true h).2).2 = 2 ∧
    (∀ (g : Heap) (r X : Nat) (w : WeakPtr), g.self_ r = some w → w.block_ = some X →
      1 ≤ (g.block X).strong_cnt → (g.block X).strong_cnt < 2 ^ 31 →
      (SharedFromThis r g).1 = ⟨w.ptr_, some X⟩ ∧
      ((SharedFromThis r g).1.UseCount (SharedFromThis r g).2 : Int)
        = (g.block X).strong_cnt + 1) := by
  have hgen : ∀ (g : Heap) (r X : Nat) (w : WeakPtr), g.self_ r = some w → w.block_ = some X →
      1 ≤ (g.block X).strong_cnt → (g.block X).strong_cnt < 2 ^ 31 →
      (SharedFromThis r g).1 = ⟨w.ptr_, some X⟩ ∧
      ((SharedFromThis r g).1.UseCount (SharedFromThis r g).2 : Int)
        = (g.block X).strong_cnt + 1 := by
    intro g r X w hs hw h1 h2
    obtain ⟨l1, l2⟩ := lock_alive w g X hw h1 h2
    have e : SharedFromThis r g = w.Lock g := by simp [SharedFromThis, hs]
    rw [e, l1, l2]
    refine ⟨rfl, ?_⟩
    rw [useCount_of_pos _ _ X rfl (by simp; omega)]
    simp
  have hA := (MakeShared_fresh true h).1
  have hheap := MakeShared_true_heap h
  have hself : (MakeShared true h).2.self_ h.objs.length
      = some ⟨some h.objs.length, some h.next⟩ := by
    rw [hheap]
    simp [Heap.self_, getD_set]
  have hstrong : ((MakeShared true h).2.block h.next).strong_cnt = 1 :=
    (MakeShared_fresh true h).2
  have hweak : ((MakeShared true h).2.block h.next).weak_cnt = 1 := by
    rw [hheap]; simp
  obtain ⟨g1, g2⟩ := hgen (MakeShared true h).2 h.objs.length h.next _ hself rfl
    (by rw [hstrong]) (by rw [hstrong]; norm_num)
  obtain ⟨l1, l2⟩ := lock_alive ⟨some h.objs.length, some h.next⟩ (MakeShared true h).2 h.next
    rfl (by rw [hstrong]) (by rw [hstrong]; norm_num)
  have e : SharedFromThis h.objs.length (MakeShared true h).2
      = (WeakPtr.mk (some h.objs.length) (some h.next)).Lock (MakeShared true h).2 := by
    simp [SharedFromThis, hself]
  refine ⟨hA, ?_, hweak, hself, g1, ?_, ?_, hgen⟩
  · rw [hA]; simp [SharedPtr.UseCount, hstrong]
  · rw [hstrong] at g2
    have : ((SharedFromThis h.objs.length (MakeShared true h).2).1.UseCount
      (SharedFromThis h.objs.length (MakeShared true h).2).2 : Int) = 2 := by rw [g2]; norm_num
    exact_mod_cast this
  · rw [hA, e, l2]
    simp [SharedPtr.UseCount, hstrong]

/-- C12 at a concrete input: the object of `MakeShared` on the empty heap, with three
owners. -/
theorem C12_shared_from_this_witness :
    ((SharedFromThis 0 (SharedPtr.copy ⟨some 0, some 0⟩
        (SharedPtr.copy ⟨some 0, some 0⟩ (MakeShared true Heap.empty).2).2).2).1.UseCount
      (SharedFromThis 0 (SharedPtr.copy ⟨some 0, some 0⟩
        (SharedPtr.copy ⟨some 0, some 0⟩ (MakeShared true Heap.empty).2).2).2).2 : Int)
      = ((SharedPtr.copy ⟨some 0, some 0⟩
        (SharedPtr.copy ⟨some 0, some 0⟩ (MakeShared true Heap.empty).2).2).2.block 0).strong_cnt
        + 1 :=
  ((C12_shared_from_this Heap.empty).2.2.2.2.2.2.2
    (SharedPtr.copy ⟨some 0, some 0⟩
      (SharedPtr.copy ⟨some 0, some 0⟩ (MakeShared true Heap.empty).2).2).2 0 0 ⟨some 0, some 0⟩
    (by decide) rfl (by decide) (by decide)).2

/-- C13: `Release()` returns the held pointer, leaves the handle empty (`Get()` null,
`operator bool` false), keeps the release action and calls it zero times; destroying the
handle afterwards calls it zero times as well. -/
theorem C13_release {D : Type} (u : UniquePtr D) (log : List (DeleterCall D)) :
    (u.Release log).1 = u.Get ∧
    (u.Release log).2.1.Get = none ∧
    (u.Release log).2.1.toBool = false ∧
    (u.Release log).2.1.GetDeleter = u.GetDeleter ∧
    (u.Release log).2.2 = log ∧
    (u.Release log).2.1.dtor (u.Release log).2.2 = log := by
  simp [UniquePtr.Release, UniquePtr.Get, UniquePtr.toBool, UniquePtr.GetDeleter, UniquePtr.dtor,
    UniquePtr.Reset]

/-- C14 (fails as stated): `Reset(p)` never calls the release action on `p`.  A handle that
holds pointer 5 and is reset to the same pointer calls the release action with argument 5. -/
theorem C14_counterexample :
    ((UniquePtr.ofPtrDeleter false (some 5) (7 : Nat)).Reset (some 5) []).2
      = [⟨7, some 5, some 5⟩] := by
  decide

/-- C14 (amended): `Reset(p)`, in the single-object and in the array handle, leaves the
handle holding `p` with the same release action; it calls the release action exactly once,
with the old pointer `q` as argument and after the handle already holds `p`, when `q` is
non-null, and not at all when `q` is null; when `p` differs from `q` no call made by
`Reset` has `p` as argument. -/
theorem C14_reset {D : Type} (u : UniquePtr D) (v : UniquePtrArray D) (p : Option Nat)
    (log : List (DeleterCall D)) :
    (u.Reset p log).1.Get = p ∧
    (u.Reset p log).1.GetDeleter = u.GetDeleter ∧
    (u.Get ≠ none → (u.Reset p log).2 = log ++ [⟨u.GetDeleter, u.Get, p⟩]) ∧
    (u.Get = none → (u.Reset p log).2 = log) ∧
    (p ≠ u.Get → ∀ c, c ∈ (u.Reset p log).2 → c ∈ log ∨ c.arg ≠ p) ∧
    (v.Reset p log).1.pair_.GetFirst = p ∧
    (v.Reset p log).1.GetDeleter = v.GetDeleter ∧
    (v.pair_.GetFirst ≠ none →
      (v.Reset p log).2 = log ++ [⟨v.GetDeleter, v.pair_.GetFirst, p⟩]) ∧
    (v.pair_.GetFirst = none → (v.Reset p log).2 = log) ∧
    (p ≠ v.pair_.GetFirst → ∀ c, c ∈ (v.Reset p log).2 → c ∈ log ∨ c.arg ≠ p) := by
  have hu : ∀ c, p ≠ u.Get → c ∈ (u.Reset p log).2 → c ∈ log ∨ c.arg ≠ p := by
    intro c hne hc
    unfold UniquePtr.Reset at hc
    simp only [] at hc
    split at hc
    · simp only [UniquePtr.invoke, List.mem_append, List.mem_singleton] at hc
      rcases hc with hc | hc
      · exact Or.inl hc
      · right
        rw [hc]
        exact fun h0 => hne h0.symm
    · exact Or.inl hc
  have hv : ∀ c, p ≠ v.pair_.GetFirst → c ∈ (v.Reset p log).2 → c ∈ log ∨ c.arg ≠ p := by
    intro c hne hc
    unfold UniquePtrArray.Reset at hc
    simp only [] at hc
    split at hc
    · simp only [UniquePtrArray.invoke, List.mem_append, List.mem_singleton] at hc
      rcases hc with hc | hc
      · exact Or.inl hc
      · right
        rw [hc]
        exact fun h0 => hne h0.symm
    · exact Or.inl hc
  refine ⟨?_, ?_, ?_, ?_, fun hne c hc => hu c hne hc, ?_, ?_, ?_, ?_,
    fun hne c hc => hv c hne hc⟩
  · unfold UniquePtr.Reset; simp only []; split <;> simp [UniquePtr.Get]
  · unfold UniquePtr.Reset; simp only []; split <;> simp [UniquePtr.GetDeleter]
  · intro h
    have h0 : u.pair_.GetFirst ≠ none := h
    simp [UniquePtr.Reset, h0, UniquePtr.invoke, UniquePtr.Get, UniquePtr.GetDeleter]
  · intro h
    have h0 : u.pair_.GetFirst = none := h
    simp [UniquePtr.Reset, h0]
  · unfold UniquePtrArray.Reset; simp only []; split <;> simp
  · unfold UniquePtrArray.Reset; simp only []; split <;> simp [UniquePtrArray.GetDeleter]
  · intro h
    simp [UniquePtrArray.Reset, h, UniquePtrArray.invoke, UniquePtrArray.GetDeleter]
  · intro h
    simp [UniquePtrArray.Reset, h]

/-- C14 at a concrete input: a handle holding 5 is reset to 9. -/
theorem C14_reset_witness :
    (UniquePtr.ofPtrDeleter false (some 5) (7 : Nat)).Get ≠ none ∧
    ((UniquePtr.ofPtrDeleter false (some 5) (7 : Nat)).Reset (some 9) []).2
      = [] ++ [⟨7, some 5, some 9⟩] :=
  ⟨by decide,
    (C14_reset (UniquePtr.ofPtrDeleter false (some 5) (7 : Nat))
      (UniquePtrArray.ofPtr false none) (some 9) []).2.2.1 (by decide)⟩

/-- C15 (fails on the code): move construction hands the release action `d` of the source
to the target.  The converting move constructor `UniquePtr(UniquePtr<U, D>&&)` takes the
pointer only: its target holds `q`, the source is left null and no release action is called,
but the release action of the target is the value-initialised `Deleter()` whatever `d` is
(for `d = 7` and `Deleter() = 0` it is 0), and `Deleter()` is what the target later calls on
`q`.  The same-type move constructor and move assignment hand `d` over: the target has
`Get() == q` and release action `d`, the source is null, no call is made on `q` (the only
call of move assignment is the one of `t` on the pointer `t` held before), and for a
non-null `q` the source no longer holds what the target holds. -/
theorem C15_converting_move_drops_release_action {D E : Type} [Inhabited D] [Inhabited E]
    (ebo : Bool) (s t : UniquePtr D) (log : List (DeleterCall D))
    (calls : List (DeleterCall E)) :
    (UniquePtr.moveConverting E ebo s log).1.Get = s.Get ∧
    (UniquePtr.moveConverting E ebo s log).1.GetDeleter = default ∧
    (UniquePtr.moveConverting E ebo s log).2.1.Get = none ∧
    (UniquePtr.moveConverting E ebo s log).2.1.GetDeleter = s.GetDeleter ∧
    (UniquePtr.moveConverting E ebo s log).2.2 = log ∧
    (s.Get ≠ none →
      (UniquePtr.moveConverting E ebo s log).1.dtor calls
        = calls ++ [⟨default, s.Get, none⟩]) ∧
    (UniquePtr.moveConverting Nat false (UniquePtr.ofPtrDeleter false (some 5) (7 : Nat))
      []).1.GetDeleter = 0 ∧
    (UniquePtr.move false (UniquePtr.ofPtrDeleter false (some 5) (7 : Nat)) []).1.GetDeleter
      = 7 ∧
    (UniquePtr.move ebo s log).1.Get = s.Get ∧
    (UniquePtr.move ebo s log).1.GetDeleter = s.GetDeleter ∧
    (UniquePtr.move ebo s log).2.1.Get = none ∧
    (UniquePtr.move ebo s log).2.2 = log ∧
    (t.moveAssign s log).1.Get = s.Get ∧
    (t.moveAssign s log).1.GetDeleter = s.GetDeleter ∧
    (t.moveAssign s log).2.1.Get = none ∧
    (t.moveAssign s log).2.2 = log ++ [⟨t.GetDeleter, t.Get, t.Get⟩] ∧
    (s.Get ≠ none →
      (UniquePtr.moveConverting E ebo s log).2.1.Get
        ≠ (UniquePtr.moveConverting E ebo s log).1.Get ∧
      (UniquePtr.move ebo s log).2.1.Get ≠ (UniquePtr.move ebo s log).1.Get ∧
      (t.moveAssign s log).2.1.Get ≠ (t.moveAssign s log).1.Get) := by
  have c1 : (UniquePtr.moveConverting E ebo s log).1.Get = s.Get := by
    simp [UniquePtr.moveConverting, UniquePtr.Release, UniquePtr.Get]
  have c3 : (UniquePtr.moveConverting E ebo s log).2.1.Get = none := by
    simp [UniquePtr.moveConverting, UniquePtr.Release, UniquePtr.Get]
  have h1 : (UniquePtr.move ebo s log).1.Get = s.Get := by
    simp [UniquePtr.move, UniquePtr.Release, UniquePtr.Get]
  have h3 : (UniquePtr.move ebo s log).2.1.Get = none := by
    simp [UniquePtr.move, UniquePtr.Release, UniquePtr.Get]
  have h5 : (t.moveAssign s log).1.Get = s.Get := by
    simp [UniquePtr.moveAssign, UniquePtr.Release, UniquePtr.Get]
  have h7 : (t.moveAssign s log).2.1.Get = none := by
    simp [UniquePtr.moveAssign, UniquePtr.Release, UniquePtr.Get]
  have c2 : (UniquePtr.moveConverting E ebo s log).1.GetDeleter = default := by
    cases ebo <;>
      simp [UniquePtr.moveConverting, UniquePtr.GetDeleter, CompressedPair.valueInit,
        Element.valueInit, CompressedPair.assignFirst, CompressedPair.GetSecond]
  refine ⟨c1, c2, c3, ?_, ?_, ?_, by decide, by decide, h1, ?_, h3, ?_, h5, ?_, h7, ?_, ?_⟩
  · simp [UniquePtr.moveConverting, UniquePtr.Release, UniquePtr.GetDeleter]
  · simp [UniquePtr.moveConverting, UniquePtr.Release]
  · intro hq
    have g1 : (UniquePtr.moveConverting E ebo s log).1.pair_.GetFirst = s.Get := c1
    have g2 : (UniquePtr.moveConverting E ebo s log).1.pair_.GetSecond = default := c2
    have hq0 : s.pair_.GetFirst ≠ none := hq
    simp [UniquePtr.dtor, UniquePtr.Reset, UniquePtr.invoke, UniquePtr.Get,
      UniquePtr.GetDeleter, g1, g2, hq0]
  · simp [UniquePtr.move, UniquePtr.Release, UniquePtr.GetDeleter]
  · simp [UniquePtr.move, UniquePtr.Release]
  · simp [UniquePtr.moveAssign, UniquePtr.Release, UniquePtr.GetDeleter]
  · simp [UniquePtr.moveAssign, UniquePtr.Release, UniquePtr.invoke, UniquePtr.Get]
  · intro hq
    rw [c1, c3, h1, h3, h5, h7]
    exact ⟨fun h0 => hq h0.symm, fun h0 => hq h0.symm, fun h0 => hq h0.symm⟩

/-- C15 at a concrete input: a handle holding 5 with release action 7 is the source of a
converting move; the target later calls the release action 0 on 5. -/
theorem C15_converting_move_drops_release_action_witness :
    (UniquePtr.ofPtrDeleter false (some 5) (7 : Nat)).Get ≠ none ∧
    (UniquePtr.moveConverting Nat false (UniquePtr.ofPtrDeleter false (some 5) (7 : Nat))
      []).1.dtor [] = [] ++ [⟨default, (UniquePtr.ofPtrDeleter false (some 5) (7 : Nat)).Get,
        none⟩] :=
  ⟨by decide,
    (C15_converting_move_drops_release_action false
      (UniquePtr.ofPtrDeleter false (some 5) (7 : Nat)) (UniquePtr.ofPtr false none) []
      []).2.2.2.2.2.1 (by decide)⟩

/-- C16 (fails on the code): destruction acts like `Reset()` in both handle variants, so an
empty handle calls no release action.  The array handle destructor calls the release action
on an empty handle too, with a null argument; `Reset()` of the same handle makes no call, and
the single-object destructor is `Reset()`. -/
theorem C16_array_dtor_calls_on_null {D : Type} (ebo : Bool) (d : D)
    (log : List (DeleterCall D)) :
    (UniquePtrArray.mk (CompressedPair.ofValues false ebo none d)).dtor log
      = log ++ [⟨d, none, none⟩] ∧
    ((UniquePtrArray.mk (CompressedPair.ofValues false ebo none d)).Reset none log).2 = log ∧
    (∀ u : UniquePtr D, u.dtor log = (u.Reset none log).2) ∧
    (UniquePtr.ofPtrDeleter ebo none d).dtor log = log := by
  refine ⟨?_, ?_, fun u => rfl, ?_⟩
  · simp [UniquePtrArray.dtor, UniquePtrArray.invoke, UniquePtrArray.GetDeleter]
  · simp [UniquePtrArray.Reset]
  · simp [UniquePtr.dtor, UniquePtr.Reset, UniquePtr.ofPtrDeleter]

/-- C17: for an observer `w` of block `X` (so `weak_cnt >= 1`; `strong_cnt` in the range
of `int`; the object of `X` is gone once `strong_cnt` is 0).  `~WeakPtr` and `Reset` change
no `strong_cnt`, no `ptr_` of a block and destroy no object; they free `X` exactly when
`strong_cnt == 0` and `weak_cnt == 1`, and otherwise decrement `weak_cnt` of `X` by one.
`Reset` leaves `w` empty.  Copy assignment does what `Reset` does and then takes the
pointer and block of the source, whose `weak_cnt` grows by one; move assignment does what
`Reset` does, takes pointer and block of the source and leaves the source empty. -/
theorem C17_observer_release (w o : WeakPtr) (X : Nat) (h : Heap) (hw : w.block_ = some X)
    (hcnt : 1 ≤ (h.block X).weak_cnt)
    (h1 : -(2 ^ 31) ≤ (h.block X).strong_cnt) (h2 : (h.block X).strong_cnt < 2 ^ 31)
    (hexp : (h.block X).strong_cnt = 0 → (h.block X).ptr_ = none) :
    (∀ k, (k = w.dtor h ∨ k = (w.Reset h).2) →
      (∀ b, (k.block b).strong_cnt = (h.block b).strong_cnt) ∧
      (∀ b, (k.block b).ptr_ = (h.block b).ptr_) ∧
      k.destructed = h.destructed ∧
      (∀ b, b ≠ X → (k.block b).weak_cnt = (h.block b).weak_cnt) ∧
      (((h.block X).strong_cnt = 0 ∧ (h.block X).weak_cnt = 1) → k.freed = h.freed ++ [X]) ∧
      (¬ ((h.block X).strong_cnt = 0 ∧ (h.block X).weak_cnt = 1) →
        k.freed = h.freed ∧ (k.block X).weak_cnt = (h.block X).weak_cnt - 1)) ∧
    (w.Reset h).1 = WeakPtr.empty ∧
    (w.copyAssign o h).1 = ⟨o.ptr_, o.block_⟩ ∧
    (w.copyAssign o h).2 = (w.Reset h).2.incWeak o.block_ ∧
    (∀ Y, o.block_ = some Y →
      (((w.Reset h).2.incWeak o.block_).block Y).weak_cnt
        = (((w.Reset h).2).block Y).weak_cnt + 1 ∧
      (∀ b, (((w.Reset h).2.incWeak o.block_).block b).strong_cnt
        = (((w.Reset h).2).block b).strong_cnt) ∧
      ((w.Reset h).2.incWeak o.block_).freed = (w.Reset h).2.freed ∧
      ((w.Reset h).2.incWeak o.block_).destructed = (w.Reset h).2.destructed) ∧
    w.moveAssign o h = (⟨o.ptr_, o.block_⟩, WeakPtr.empty, (w.Reset h).2) := by
  have hrel := observer_release w X h hw hcnt h1 h2 hexp
  have hreset : (w.Reset h).2 = w.dropLe X h := by simp [WeakPtr.Reset, hw]
  have heq : w.dropEq X h = w.dropLe X h := by
    unfold WeakPtr.dropEq WeakPtr.dropLe
    simp only []
    have : ((h.setWeak X ((h.block X).weak_cnt - 1)).block X).weak_cnt = 0 ↔
        ((h.setWeak X ((h.block X).weak_cnt - 1)).block X).weak_cnt ≤ 0 := by
      simp; omega
    simp only [this]
  refine ⟨?_, rfl, rfl, ?_, ?_, ?_⟩
  · intro k hk
    apply hrel
    rcases hk with hk | hk
    · exact Or.inl hk
    · exact Or.inr (Or.inl (by rw [hk, hreset]))
  · simp [WeakPtr.copyAssign, WeakPtr.Reset, hw]
  · intro Y hY
    rw [hY]
    simp [Heap.incWeak]
  · simp [WeakPtr.moveAssign, hw, heq, hreset, WeakPtr.empty]

/-- C17 at a concrete input: the only observer of a block with one owner is reset;
`weak_cnt` goes from 1 to 0. -/
theorem C17_observer_release_witness :
    ((WeakPtr.ofShared ⟨some 5, some 0⟩
      (SharedPtr.ofPtr false (some 5) Heap.empty).2).2.block 0).weak_cnt = 1 ∧
    (((WeakPtr.mk (some 5) (some 0)).Reset (WeakPtr.ofShared ⟨some 5, some 0⟩
      (SharedPtr.ofPtr false (some 5) Heap.empty).2).2).2.block 0).weak_cnt = 0 :=
  ⟨by decide,
    by
      have h := ((C17_observer_release ⟨some 5, some 0⟩ WeakPtr.empty 0
        (WeakPtr.ofShared ⟨some 5, some 0⟩ (SharedPtr.ofPtr false (some 5) Heap.empty).2).2 rfl
        (by decide) (by decide) (by decide) (by decide)).1 _ (Or.inr rfl)).2.2.2.2.2
        (by decide)
      rw [h.2]
      decide⟩

/-- C18: for all component types and both layouts of either element (member `value`, or
empty base class), `CompressedPair` refines a record of two fields: the pair built from
`(a, b)` has `GetFirst() == a` and `GetSecond() == b`; a write through `GetFirst()` sets the
first component and keeps the second; a write through `GetSecond()` sets the second and
keeps the first.  The same holds when both components have one type. -/
theorem C18_pair_is_record {F S : Type} (eboF eboS : Bool) (a x : F) (b y : S)
    (p : CompressedPair F S) (q : CompressedPair F F) (z : F) :
    (CompressedPair.ofValues eboF eboS a b).GetFirst = a ∧
    (CompressedPair.ofValues eboF eboS a b).GetSecond = b ∧
    (CompressedPair.ofValues eboF eboS a b).toRecord = ⟨a, b⟩ ∧
    (p.assignFirst x).GetFirst = x ∧
    (p.assignFirst x).GetSecond = p.GetSecond ∧
    (p.assignFirst x).toRecord = { p.toRecord with first := x } ∧
    (p.assignSecond y).GetFirst = p.GetFirst ∧
    (p.assignSecond y).GetSecond = y ∧
    (p.assignSecond y).toRecord = { p.toRecord with second := y } ∧
    ((q.assignFirst z).GetSecond = q.GetSecond ∧ (q.assignSecond z).GetFirst = q.GetFirst) := by
  simp [CompressedPair.toRecord]

/-- C19 (fails on the code): `Reset(ptr)` to an object with `EnableSharedFromThis` registers
`self_` of the object to the new block.  After `Reset(ptr)` the handle owns the object, but
`self_` is still empty, `weak_cnt` is 0, `SharedFromThis()` returns an empty handle and
`WeakFromThis()` is expired.  The raw-pointer constructor and `MakeShared` do register. -/
theorem C19_reset_does_not_register :
    (run [Op.newObject true, Op.sharedEmpty, Op.sharedResetPtr 0 (some 0)]).getShared 0
      = some ⟨some 0, some 0⟩ ∧
    (run [Op.newObject true, Op.sharedEmpty, Op.sharedResetPtr 0 (some 0)]).heap.self_ 0
      = some WeakPtr.empty ∧
    ((run [Op.newObject true, Op.sharedEmpty, Op.sharedResetPtr 0 (some 0)]).heap.block 0).weak_cnt
      = 0 ∧
    (SharedFromThis 0
      (run [Op.newObject true, Op.sharedEmpty, Op.sharedResetPtr 0 (some 0)]).heap).1
      = SharedPtr.empty ∧
    (WeakFromThis 0
      (run [Op.newObject true, Op.sharedEmpty, Op.sharedResetPtr 0 (some 0)]).heap).1.Expired
      (run [Op.newObject true, Op.sharedEmpty, Op.sharedResetPtr 0 (some 0)]).heap = true ∧
    (run [Op.newObject true, Op.sharedOfPtr true (some 0)]).heap.self_ 0
      = some ⟨some 0, some 0⟩ ∧
    ((run [Op.newObject true, Op.sharedOfPtr true (some 0)]).heap.block 0).weak_cnt = 1 ∧
    (run [Op.makeShared true]).heap.self_ 0 = some ⟨some 0, some 0⟩ := by
  decide

/-- C20 (fails on the code): move assignment and assignment of `nullptr` to an empty handle
call no release action, as `Reset` does.  Both call the release action of the empty handle
with a null argument; `Reset()` of the same handle makes no call.  Self move assignment
leaves everything as it is. -/
theorem C20_assign_calls_on_null {D : Type} (ebo : Bool) (d : D) (o : UniquePtr D)
    (log : List (DeleterCall D)) :
    ((UniquePtr.ofPtrDeleter ebo none d).moveAssign o log).2.2 = log ++ [⟨d, none, none⟩] ∧
    ((UniquePtr.ofPtrDeleter ebo none d).assignNull log).2 = log ++ [⟨d, none, none⟩] ∧
    ((UniquePtr.ofPtrDeleter ebo none d).Reset none log).2 = log ∧
    (∀ (s : UState D) (i : Nat), s.moveAssign i i = s) := by
  refine ⟨?_, ?_, ?_, ?_⟩
  · simp [UniquePtr.moveAssign, UniquePtr.Release, UniquePtr.invoke, UniquePtr.ofPtrDeleter,
      UniquePtr.GetDeleter, UniquePtr.Get]
  · simp [UniquePtr.assignNull, UniquePtr.invoke, UniquePtr.ofPtrDeleter,
      UniquePtr.GetDeleter, UniquePtr.Get]
  · simp [UniquePtr.Reset, UniquePtr.ofPtrDeleter]
  · intro s i
    unfold UState.moveAssign
    cases s.handles.getD i none <;> simp

end SmartPointers
